import Mathlib

/-!
Verification development for the Markdown-to-Block-Document importer
(`collab-document/src/importer/md_importer.rs`).

The Rust source is shallowly embedded: the mdast AST is an inductive type,
the in-construction `DocumentData` is explicit state threaded through the
walker, and the recursive walker is driven by a `fuel` parameter that bounds
the depth of re-entrant parsing (the `to_mdast` re-entry on `<details>`
bodies); every other recursion is faithful to the source.  The external
Markdown parser `to_mdast` is out of scope for the source and is passed in
as an abstract function `parse : String → Option MdNode`.

String primitives are implemented over `List Char` so that all definitions
evaluate by kernel reduction; they model the corresponding Rust `str`
operations (`trim`, `starts_with`, `strip_suffix`, `trim_start_matches`,
`find`-based splitting).
-/

namespace MDI

/-! ## String primitives (models of the Rust `str` operations) -/

def chars (s : String) : List Char := s.data

def ofChars (l : List Char) : String := String.mk l

def trimLeftL (l : List Char) : List Char := l.dropWhile Char.isWhitespace

def trimRightL (l : List Char) : List Char := (l.reverse.dropWhile Char.isWhitespace).reverse

/-- Models Rust `str::trim`. -/
def strTrim (s : String) : String := ofChars (trimRightL (trimLeftL (chars s)))

/-- Models Rust `str::trim_start`. -/
def strTrimStart (s : String) : String := ofChars (trimLeftL (chars s))

/-- Models Rust `str::starts_with`. -/
def strStartsWith (s pat : String) : Bool := (chars pat).isPrefixOf (chars s)

/-- Models Rust `str::ends_with`. -/
def strEndsWith (s pat : String) : Bool := (chars pat).reverse.isPrefixOf (chars s).reverse

/-- Models Rust `str::strip_suffix`. -/
def strStripSuffix (s pat : String) : Option String :=
  if strEndsWith s pat then
    some (ofChars ((chars s).take ((chars s).length - (chars pat).length)))
  else none

/-- Strips repeated leading occurrences of `pat`; the `Nat` is an upper bound
on the number of strips (instantiated with the string length, which always
suffices since a nonempty prefix strip shortens the list). -/
def stripRepL (pat : List Char) : Nat → List Char → List Char
  | 0, l => l
  | n + 1, l =>
    if !pat.isEmpty && pat.isPrefixOf l then stripRepL pat n (l.drop pat.length) else l

/-- Models Rust `str::trim_start_matches` (repeated prefix stripping). -/
def strTrimStartMatches (s pat : String) : String :=
  ofChars (stripRepL (chars pat) (chars s).length (chars s))

/-- Splits at the first occurrence of `pat`: returns the part before it and
the part after it.  Models Rust `str::find` followed by slicing. -/
def splitAtFirst (pat : List Char) : List Char → Option (List Char × List Char)
  | [] => if pat.isEmpty then some ([], []) else none
  | c :: t =>
    if pat.isPrefixOf (c :: t) then some ([], (c :: t).drop pat.length)
    else
      match splitAtFirst pat t with
      | some (b, a) => some (c :: b, a)
      | none => none

/-! ## The mdast AST (the node kinds the importer inspects) -/

inductive AlignKind where
  | left
  | right
  | center
  | none
  deriving DecidableEq

inductive MdNode where
  | root (children : List MdNode)
  | paragraph (children : List MdNode)
  | heading (depth : Nat) (children : List MdNode)
  | blockquote (children : List MdNode)
  | list (ordered : Bool) (start : Option Nat) (children : List MdNode)
  | listItem (checked : Option Bool) (children : List MdNode)
  | code (value : String) (lang : Option String)
  | table (align : List AlignKind) (children : List MdNode)
  | tableRow (children : List MdNode)
  | tableCell (children : List MdNode)
  | image (url : String)
  | html (value : String)
  | text (value : String)
  | inlineCode (value : String)
  | inlineMath (value : String)
  | strong (children : List MdNode)
  | emphasis (children : List MdNode)
  | delete (children : List MdNode)
  | link (url : String) (children : List MdNode)
  | br
  | thematicBreak
  | other (rendered : String)

mutual
/-- Modelled from the spec: the AST library's textual rendering of a node
(`node.to_string()`), used by the degradation path; it concatenates the
literal text content of the subtree. -/
def node_to_string : MdNode → String
  | .text v => v
  | .inlineCode v => v
  | .inlineMath v => v
  | .code v _ => v
  | .image _ => ""
  | .html v => v
  | .br => "\n"
  | .thematicBreak => ""
  | .other r => r
  | .root cs => list_to_string cs
  | .paragraph cs => list_to_string cs
  | .heading _ cs => list_to_string cs
  | .blockquote cs => list_to_string cs
  | .list _ _ cs => list_to_string cs
  | .listItem _ cs => list_to_string cs
  | .table _ cs => list_to_string cs
  | .tableRow cs => list_to_string cs
  | .tableCell cs => list_to_string cs
  | .strong cs => list_to_string cs
  | .emphasis cs => list_to_string cs
  | .delete cs => list_to_string cs
  | .link _ cs => list_to_string cs

def list_to_string : List MdNode → String
  | [] => ""
  | c :: t => node_to_string c ++ list_to_string t
end

/-! ## Block data model -/

inductive JVal where
  | s (v : String)
  | n (v : Nat)
  | b (v : Bool)
  deriving DecidableEq

abbrev BlockData := List (String × JVal)

structure Block where
  id : String
  ty : String
  data : BlockData
  parent : String
  children : String
  external_id : Option String
  external_type : Option String
  deriving DecidableEq

inductive Attr where
  | bold
  | italic
  | strikethrough
  | code
  | mathInline
  | href (url : String)
  deriving DecidableEq

structure DeltaOp where
  insert : String
  attributes : List Attr
  deriving DecidableEq

/-- The in-construction snapshot.  `gidx` is the state of the ID allocator
(modelled from the spec: a source of fresh unique identifiers); `panicked`
records whether the Rust `unreachable!` in the walker's `Image` match arm
was hit. -/
structure DocumentData where
  page_id : String
  blocks : List (String × Block)
  children_map : List (String × List String)
  text_map : List (String × List DeltaOp)
  gidx : Nat
  panicked : Bool
  deriving DecidableEq

/-- Association-list update: apply `f` to the entry at `k`, seeding a missing
entry with `d` (models `HashMap::entry(k).or_insert(d)` followed by `f`). -/
def aupd {α : Type} (k : String) (d : α) (f : α → α) : List (String × α) → List (String × α)
  | [] => [(k, f d)]
  | (k', v) :: t => if k' = k then (k', f v) :: t else (k', v) :: aupd k d f t

/-- Association-list insert-or-replace (models `HashMap::insert`). -/
def ains {α : Type} (k : String) (v : α) : List (String × α) → List (String × α)
  | [] => [(k, v)]
  | (k', v') :: t => if k' = k then (k, v) :: t else (k', v') :: ains k v t

/-- Association-list lookup (models `HashMap::get`). -/
def aget {α : Type} (m : List (String × α)) (k : String) : Option α :=
  match m with
  | [] => none
  | (k', v) :: t => if k' = k then some v else aget t k

/-- Modelled from the spec: the ID Allocator produces fresh unique
identifiers; embedded as a counter rendered as a run of `i` characters
(length `n + 1`), which makes distinct counters give distinct ids. -/
def genName (n : Nat) : String := ofChars (List.replicate (n + 1) 'i')

def generate_id (dd : DocumentData) : String × DocumentData :=
  (genName dd.gidx, { dd with gidx := dd.gidx + 1 })

def insert_block (dd : DocumentData) (id : String) (b : Block) : DocumentData :=
  { dd with blocks := ains id b dd.blocks }

def update_children_map (dd : DocumentData) (parent_id : Option String) (child_id : String) :
    DocumentData :=
  match parent_id with
  | some parent => { dd with children_map := aupd parent [] (· ++ [child_id]) dd.children_map }
  | none => dd

def ensure_children_map_entry (dd : DocumentData) (block_id : String) : DocumentData :=
  { dd with children_map := aupd block_id [] id dd.children_map }

/-- Modelled from the spec: segments are appended to the block's delta in
order (`insert_delta_to_text_map` lives outside the given source file). -/
def insert_delta_to_text_map (dd : DocumentData) (block_id : String) (ops : List DeltaOp) :
    DocumentData :=
  { dd with text_map := aupd block_id [] (· ++ ops) dd.text_map }

/-! ## Inline classifier and delta builder (modelled from the spec, §4.2) -/

/-- Modelled from the spec: a node is inline iff it is one of Text,
InlineCode, InlineMath, Strong, Emphasis, Delete, Link, Break. -/
def is_inline_node : MdNode → Bool
  | .text _ => true
  | .inlineCode _ => true
  | .inlineMath _ => true
  | .strong _ => true
  | .emphasis _ => true
  | .delete _ => true
  | .link _ _ => true
  | .br => true
  | _ => false

def addAttr (attrs : List Attr) (a : Attr) : List Attr :=
  if a ∈ attrs then attrs else attrs ++ [a]

mutual
/-- Modelled from the spec: folding an inline subtree into delta runs;
attribute sets of nested wrappers union, non-inline children met during the
fold degrade to a single plain segment. -/
def fold_inline : List Attr → MdNode → List DeltaOp
  | attrs, .text v => [⟨v, attrs⟩]
  | attrs, .inlineCode v => [⟨v, addAttr attrs .code⟩]
  | attrs, .inlineMath v => [⟨v, addAttr attrs .mathInline⟩]
  | attrs, .strong cs => fold_inline_list (addAttr attrs .bold) cs
  | attrs, .emphasis cs => fold_inline_list (addAttr attrs .italic) cs
  | attrs, .delete cs => fold_inline_list (addAttr attrs .strikethrough) cs
  | attrs, .link url cs => fold_inline_list (addAttr attrs (.href url)) cs
  | attrs, .br => [⟨"\n", attrs⟩]
  | _, n => [⟨node_to_string n, []⟩]

def fold_inline_list : List Attr → List MdNode → List DeltaOp
  | _, [] => []
  | attrs, c :: t => fold_inline attrs c ++ fold_inline_list attrs t
end

/-- Modelled from the spec: inline runs are attributed to `parent_id`. -/
def process_inline_mdast_node (dd : DocumentData) (node : MdNode) (parent_id : Option String) :
    DocumentData :=
  match parent_id with
  | some p => insert_delta_to_text_map dd p (fold_inline [] node)
  | none => dd

/-! ## Walker helpers from the source -/

/-- Modelled from the spec: for list containers, the children together with
the list context `(kind, start)`. -/
def get_mdast_node_info : MdNode → Option (List MdNode × String × Option Nat)
  | .list ordered start cs =>
    if ordered then some (cs, "numbered_list", start)
    else if cs.any (fun c => match c with | .listItem (some _) _ => true | _ => false) then
      some (cs, "todo_list", none)
    else some (cs, "bulleted_list", none)
  | _ => none

/-- Modelled from the spec: the children list of a container node. -/
def get_mdast_node_children : MdNode → Option (List MdNode)
  | .root cs => some cs
  | .paragraph cs => some cs
  | .heading _ cs => some cs
  | .blockquote cs => some cs
  | .list _ _ cs => some cs
  | .listItem _ cs => some cs
  | .table _ cs => some cs
  | .tableRow cs => some cs
  | .tableCell cs => some cs
  | .strong cs => some cs
  | .emphasis cs => some cs
  | .delete cs => some cs
  | .link _ cs => some cs
  | _ => none

/-- Modelled from the spec: the Block Factory's node-to-type-tag mapping
(§4.8, §6). -/
def mdast_node_type_to_block_type (node : MdNode) (list_type : Option String) : String :=
  match node with
  | .root _ => "page"
  | .paragraph _ => "paragraph"
  | .heading _ _ => "heading"
  | .listItem _ _ =>
    if list_type = some "numbered_list" then "numbered_list"
    else if list_type = some "todo_list" then "todo_list"
    else "bulleted_list"
  | .blockquote _ => "quote"
  | .code _ _ => "code"
  | .thematicBreak => "divider"
  | .table _ _ => "simple_table"
  | .image _ => "image"
  | _ => "text"

/-- Modelled from the spec: the Block Factory's per-variant data (§4.8). -/
def mdast_node_to_block_data (node : MdNode) (start_number : Option Nat) : BlockData :=
  match node with
  | .heading depth _ => [("level", .n depth)]
  | .listItem checked _ =>
    (match start_number with | some s => [("start", .n s)] | none => []) ++
      (match checked with | some b => [("checked", .b b)] | none => [])
  | .code _ lang => [("language", .s (lang.getD ""))]
  | _ => []

def collect_cell_text : List MdNode → String
  | [] => ""
  | node :: rest =>
    (match node with
      | .text t => t
      | .inlineCode c => c
      | .inlineMath m => m
      | .strong cs => collect_cell_text cs
      | .emphasis cs => collect_cell_text cs
      | .delete cs => collect_cell_text cs
      | .link _ cs => collect_cell_text cs
      | _ => "") ++ collect_cell_text rest

def is_table_cell_empty (cell_children : List MdNode) : Bool :=
  if cell_children.isEmpty then true
  else (strTrim (collect_cell_text cell_children)) = ""

/-- The Notion-columns recognizer over a table's rows.  Returns the column
count together with the body rows when the table qualifies. -/
def parse_notion_columns_table (children : List MdNode) : Option (Nat × List MdNode) :=
  match children with
  | [] => none
  | header :: body_rows =>
    match header with
    | .tableRow hcells =>
      let col_count := hcells.length
      if col_count < 2 then none
      else if !(hcells.all fun cell =>
          match cell with
          | .tableCell cs => is_table_cell_empty cs
          | _ => false) then none
      else if body_rows.isEmpty then none
      else
        let all_body_empty := body_rows.all fun row =>
          match row with
          | .tableRow rcs =>
            rcs.length == col_count &&
              rcs.all (fun cell =>
                match cell with
                | .tableCell cs => is_table_cell_empty cs
                | _ => false)
          | _ => false
        if all_body_empty then
          if col_count < 6 then none else some (col_count, body_rows)
        else if col_count > 5 || body_rows.length > 3 then none
        else some (col_count, body_rows)
    | _ => none

/-! ## Block factories from the source -/

def create_block (id : String) (node : MdNode) (parent_id : Option String)
    (list_type : Option String) (start_number : Option Nat) : Block :=
  { id := id
    ty := mdast_node_type_to_block_type node list_type
    data := mdast_node_to_block_data node start_number
    parent := parent_id.getD ""
    children := id
    external_id := some id
    external_type := some "text" }

def create_image_block (block_id : String) (url : String) (parent_id : String) : Block :=
  { id := block_id
    ty := "image"
    data := [("url", .s url), ("image_type", .s "external")]
    parent := parent_id
    children := ""
    external_id := none
    external_type := none }

def create_simple_table_row_block (id : String) (parent_id : String) : Block :=
  { id := id
    ty := "simple_table_row"
    data := []
    parent := parent_id
    children := id
    external_id := none
    external_type := none }

def create_simple_table_cell_block (id : String) (parent_id : String) (row : Nat) (col : Nat)
    (alignments : List AlignKind) : Block :=
  let cell_data : BlockData := [("row", .n row), ("col", .n col)]
  let cell_data :=
    match alignments.get? col with
    | some align =>
      let align_str :=
        match align with
        | .left => "left"
        | .right => "right"
        | .center => "center"
        | .none => "left"
      cell_data ++ [("align", .s align_str)]
    | none => cell_data
  { id := id
    ty := "simple_table_cell"
    data := cell_data
    parent := parent_id
    children := id
    external_id := none
    external_type := none }

def process_image (dd : DocumentData) (url : String) (parent_id : String) : DocumentData :=
  let (new_block_id, dd) := generate_id dd
  let dd := insert_block dd new_block_id (create_image_block new_block_id url parent_id)
  let dd := ensure_children_map_entry dd new_block_id
  update_children_map dd (some parent_id) new_block_id

def create_paragraph_block (dd : DocumentData) (parent_id : String) : String × DocumentData :=
  let (pid, dd) := generate_id dd
  let dd := insert_block dd pid (create_block pid (.paragraph []) (some parent_id) none none)
  let dd := ensure_children_map_entry dd pid
  let dd := update_children_map dd (some parent_id) pid
  (pid, dd)

/-! ## Embedded-HTML fragment parsing from the source -/

structure ParsedAside where
  icon : String
  content : String
  deriving DecidableEq

/-- The inner text of an `<aside>` fragment: the opening tag stripped
repeatedly, trimmed, and the closing tag (when present) stripped with a
second trim — exactly the extraction pipeline of `parse_aside_html`. -/
def aside_inner (html : String) : String :=
  let c0 := strTrim (strTrimStartMatches html "<aside>")
  match strStripSuffix c0 "</aside>" with
  | some s => strTrim s
  | none => c0

def parse_aside_html (html : String) : Option ParsedAside :=
  let html := strTrim html
  if !strStartsWith html "<aside>" then none
  else
    let content := aside_inner html
    if content = "" then some ⟨"", content⟩
    else
      match chars content with
      | [] => some ⟨"", content⟩
      | first :: restC =>
        if !first.isAlphanum then some ⟨ofChars [first], strTrimStart (ofChars restC)⟩
        else some ⟨"", content⟩

structure ParsedDetails where
  summary : String
  body : String
  deriving DecidableEq

def extract_tag_content (input : String) (tag : String) : Option (String × String) :=
  let openTag := "<" ++ tag ++ ">"
  let closeTag := "</" ++ tag ++ ">"
  match splitAtFirst (chars openTag) (chars input) with
  | none => none
  | some (_, after_open) =>
    match splitAtFirst (chars closeTag) after_open with
    | none => none
    | some (content, after_close) => some (ofChars content, ofChars after_close)

def parse_details_html (html : String) : Option ParsedDetails :=
  let html := strTrim html
  if !strStartsWith html "<details>" then none
  else
    let rest := strTrimStartMatches html "<details>"
    match extract_tag_content rest "summary" with
    | none => none
    | some (summary, after_summary) =>
      let body :=
        match strStripSuffix (strTrim after_summary) "</details>" with
        | some b => strTrim b
        | none => strTrim after_summary
      some ⟨strTrim summary, body⟩

/-! ## Secondary parse entry (from the source) -/

def inline_or_degrade (dd : DocumentData) (block_id : String) (c : MdNode) : DocumentData :=
  if is_inline_node c then process_inline_mdast_node dd c (some block_id)
  else insert_delta_to_text_map dd block_id [⟨node_to_string c, []⟩]

def insert_markdown_as_inline_delta (parse : String → Option MdNode) (dd : DocumentData)
    (block_id : String) (markdown : String) : DocumentData :=
  let md := strTrim markdown
  if md = "" then dd
  else
    match parse md with
    | none => insert_delta_to_text_map dd block_id [⟨md, []⟩]
    | some node =>
      match node with
      | .root cs =>
        cs.foldl
          (fun dd child =>
            match child with
            | .paragraph pcs => pcs.foldl (fun dd c => inline_or_degrade dd block_id c) dd
            | .heading _ hcs => hcs.foldl (fun dd c => inline_or_degrade dd block_id c) dd
            | _ => insert_delta_to_text_map dd block_id [⟨node_to_string child, []⟩])
          dd
      | _ => insert_delta_to_text_map dd block_id [⟨node_to_string node, []⟩]

/-! ## The block walker

The mutually recursive Rust functions (`process_mdast_node`,
`process_mdast_node_children`, the callout/toggle sibling loops of the
latter, and the per-table loops) are embedded as one fuel-indexed function
over a `Task` sum; each `Task` constructor corresponds to one Rust
function or loop.  The per-table `for` loops are plain structural
recursions (`table_rows_loop`, `row_cells_loop`, `columns_cols_loop`,
`columns_rows_loop`) that take the recursive cell walk as a function
argument, so they always run to completion like the Rust `for` loops do. -/

/-- One pending Rust call: a node walk, a children (sibling-slice) walk, the
callout sibling loop, or the toggle sibling loop. -/
inductive Task where
  | node (node : MdNode) (parent_id : Option String) (block_id : Option String)
      (list_type : Option String) (start_number : Option Nat)
  | children (parent_id : Option String) (children : List MdNode)
      (list_type : Option String) (start_number : Option Nat)
  | aside (callout_id : String) (parent_id : Option String) (children : List MdNode)
      (list_type : Option String) (start_number : Option Nat)
  | details (toggle_id : String) (summary_written : Bool) (parent_id : Option String)
      (children : List MdNode) (list_type : Option String) (start_number : Option Nat)

/-- The image-flattening dispatch of `process_mdast_node`: a Paragraph
wrapping a single Image, or a bare Image, with a parent id available. -/
def imageRedirect (node : MdNode) (parent_id : Option String) : Option (String × String) :=
  match node, parent_id with
  | .paragraph [.image url], some p => some (url, p)
  | .image url, some p => some (url, p)
  | _, _ => none

/-- The closing-HTML-sentinel test of `process_mdast_node`. -/
def isClosingSentinel (node : MdNode) : Bool :=
  match node with
  | .html v =>
    let value := strTrim v
    value = "</aside>" || value = "</details>"
  | _ => false

/-- One body row of the Notion-columns rewrite, for one column: synthesize
a paragraph and walk the cell children when the cell at this column index
is non-empty. -/
def columns_row_step (walkCells : DocumentData → String → List MdNode → DocumentData)
    (column_id : String) (col_index : Nat) (dd : DocumentData) (row : MdNode) : DocumentData :=
  match row with
  | .tableRow rcs =>
    match rcs.get? col_index with
    | some (.tableCell ccs) =>
      if is_table_cell_empty ccs then dd
      else
        let pr := create_paragraph_block dd column_id
        walkCells pr.2 pr.1 ccs
    | _ => dd
  | _ => dd

/-- The inner row loop of the Notion-columns rewrite: for one column, walk
every body row. -/
def columns_rows_loop (walkCells : DocumentData → String → List MdNode → DocumentData)
    (column_id : String) (col_index : Nat) :
    DocumentData → List MdNode → DocumentData
  | dd, [] => dd
  | dd, row :: rest =>
    columns_rows_loop walkCells column_id col_index
      (columns_row_step walkCells column_id col_index dd row) rest

/-- One column of the Notion-columns rewrite: emit the `SimpleColumn` block
and run the row loop for this column index. -/
def columns_col_step (walkCells : DocumentData → String → List MdNode → DocumentData)
    (columns_id : String) (body_rows : List MdNode) (col_index : Nat) (dd : DocumentData) :
    DocumentData :=
  let g := generate_id dd
  let column_id := g.1
  let dd := g.2
  let column_block : Block :=
    { id := column_id
      ty := "simple_column"
      data := []
      parent := columns_id
      children := column_id
      external_id := some column_id
      external_type := some "text" }
  let dd := insert_block dd column_id column_block
  let dd := ensure_children_map_entry dd column_id
  let dd := update_children_map dd (some columns_id) column_id
  columns_rows_loop walkCells column_id col_index dd body_rows

/-- The outer column loop of the Notion-columns rewrite
(`for col_index in 0..info.col_count`). -/
def columns_cols_loop (walkCells : DocumentData → String → List MdNode → DocumentData)
    (columns_id : String) (body_rows : List MdNode) :
    DocumentData → Nat → Nat → DocumentData
  | dd, _, 0 => dd
  | dd, col_index, remaining + 1 =>
    columns_cols_loop walkCells columns_id body_rows
      (columns_col_step walkCells columns_id body_rows col_index dd) (col_index + 1) remaining

/-- One cell of `process_table_row`: emit the `SimpleTableCell`, a fresh
paragraph under it, and walk the cell children into the paragraph. -/
def row_cell_step (walkCells : DocumentData → String → List MdNode → DocumentData)
    (row_id : String) (row_index : Nat) (align : List AlignKind) (col_index : Nat)
    (dd : DocumentData) (cell : MdNode) : DocumentData :=
  match cell with
  | .tableCell ccs =>
    let g := generate_id dd
    let cell_id := g.1
    let dd := g.2
    let dd := insert_block dd cell_id
      (create_simple_table_cell_block cell_id row_id row_index col_index align)
    let dd := ensure_children_map_entry dd cell_id
    let dd := update_children_map dd (some row_id) cell_id
    let pr := create_paragraph_block dd cell_id
    walkCells pr.2 pr.1 ccs
  | _ => dd

/-- The cell loop of `process_table_row` (`enumerate` over the row's
children; the column index advances for every child). -/
def row_cells_loop (walkCells : DocumentData → String → List MdNode → DocumentData)
    (row_id : String) (row_index : Nat) (align : List AlignKind) :
    DocumentData → List MdNode → Nat → DocumentData
  | dd, [], _ => dd
  | dd, cell :: rest, col_index =>
    row_cells_loop walkCells row_id row_index align
      (row_cell_step walkCells row_id row_index align col_index dd cell) rest (col_index + 1)

/-- One child of the generic-table branch: `process_table_row` when the
child is a `TableRow`, a no-op otherwise. -/
def table_row_step (walkCells : DocumentData → String → List MdNode → DocumentData)
    (table_id : String) (align : List AlignKind) (row_index : Nat) (dd : DocumentData)
    (row : MdNode) : DocumentData :=
  match row with
  | .tableRow rcs =>
    let g := generate_id dd
    let row_id := g.1
    let dd := g.2
    let dd := insert_block dd row_id (create_simple_table_row_block row_id table_id)
    let dd := ensure_children_map_entry dd row_id
    let dd := update_children_map dd (some table_id) row_id
    row_cells_loop walkCells row_id row_index align dd rcs 0
  | _ => dd

/-- The row loop of the generic-table branch (`enumerate` over the table's
children; the row index advances for every child). -/
def table_rows_loop (walkCells : DocumentData → String → List MdNode → DocumentData)
    (table_id : String) (align : List AlignKind) :
    DocumentData → List MdNode → Nat → DocumentData
  | dd, [], _ => dd
  | dd, row :: rest, row_index =>
    table_rows_loop walkCells table_id align
      (table_row_step walkCells table_id align row_index dd row) rest (row_index + 1)

/-- The Notion-columns rewrite of `process_mdast_node`, once the columns id
is resolved: emit the `SimpleColumns` block and run the column loop. -/
def columns_rewrite (rec : DocumentData → Task → DocumentData) (dd : DocumentData)
    (id : String) (parent_id : Option String) (col_count : Nat) (body_rows : List MdNode) :
    DocumentData :=
  let block : Block :=
    { id := id
      ty := "simple_columns"
      data := []
      parent := parent_id.getD ""
      children := id
      external_id := some id
      external_type := some "text" }
  let dd := insert_block dd id block
  let dd := ensure_children_map_entry dd id
  let dd := update_children_map dd parent_id id
  columns_cols_loop (fun dd pid ccs => rec dd (.children (some pid) ccs none none))
    id body_rows dd 0 col_count

/-- The default branch of `process_mdast_node`: emit the factory block,
register it, then recurse by node kind (including the head-paragraph split
of Blockquote/ListItem, the literal-code delta, the generic-table rewrite,
the unreachable Image arm, and textual degradation). -/
def default_node_step (rec : DocumentData → Task → DocumentData) (dd : DocumentData)
    (node : MdNode) (parent_id : Option String) (id : String) (list_type : Option String)
    (start_number : Option Nat) : DocumentData :=
  let dd := insert_block dd id (create_block id node parent_id list_type start_number)
  let dd := ensure_children_map_entry dd id
  let dd := update_children_map dd parent_id id
  let bqli := fun (children : List MdNode) =>
    match children with
    | [] => dd
    | first :: rest =>
      let dd :=
        match first with
        | .paragraph pcs => rec dd (.children (some id) pcs none start_number)
        | _ => dd
      rec dd (.children (some id) rest list_type start_number)
  match node with
  | .root cs => rec dd (.children (some id) cs none start_number)
  | .paragraph cs => rec dd (.children (some id) cs none start_number)
  | .heading _ cs => rec dd (.children (some id) cs none start_number)
  | .blockquote cs => bqli cs
  | .listItem _ cs => bqli cs
  | .code v _ => insert_delta_to_text_map dd id [⟨v, []⟩]
  | .table align cs =>
    table_rows_loop (fun dd pid ccs => rec dd (.children (some pid) ccs none none))
      id align dd cs 0
  | .image _ => { dd with panicked := true }
  | n => insert_delta_to_text_map dd id [⟨node_to_string n, []⟩]

/-- The body of `process_mdast_node`, with the recursive calls abstracted
as `rec` (one fuel step of the walker). -/
def node_step (rec : DocumentData → Task → DocumentData) (dd : DocumentData) (node : MdNode)
    (parent_id : Option String) (block_id : Option String) (list_type : Option String)
    (start_number : Option Nat) : DocumentData :=
  if is_inline_node node then process_inline_mdast_node dd node parent_id
  else if isClosingSentinel node then dd
  else
    match get_mdast_node_info node with
    | some (children, lt, sn) => rec dd (.children parent_id children (some lt) sn)
    | none =>
      match imageRedirect node parent_id with
      | some (url, p) => process_image dd url p
      | none =>
        let idp :=
          match block_id with
          | some b => (b, dd)
          | none => generate_id dd
        match node, parse_notion_columns_table (get_mdast_node_children node |>.getD []) with
        | .table _ _, some (col_count, body_rows) =>
          columns_rewrite rec idp.2 idp.1 parent_id col_count body_rows
        | _, _ =>
          default_node_step rec idp.2 node parent_id idp.1 list_type start_number

/-- The body of `process_mdast_node_children`, with the recursive calls
abstracted as `rec`. -/
def children_step (rec : DocumentData → Task → DocumentData) (parse : String → Option MdNode)
    (dd : DocumentData) (parent_id : Option String) (cs : List MdNode)
    (list_type : Option String) (start_number : Option Nat) : DocumentData :=
  match cs with
  | [] => dd
  | c :: rest =>
    match c with
    | .html hv =>
      let value := strTrim hv
      if value = "</aside>" || value = "</details>" then
        rec dd (.children parent_id rest list_type start_number)
      else
        match parse_aside_html value with
        | some callout =>
          let g := generate_id dd
          let callout_id := g.1
          let dd := g.2
          let data : BlockData :=
            if callout.icon = "" then [] else [("icon", .s callout.icon)]
          let block : Block :=
            { id := callout_id
              ty := "callout"
              data := data
              parent := parent_id.getD ""
              children := callout_id
              external_id := some callout_id
              external_type := some "text" }
          let dd := insert_block dd callout_id block
          let dd := update_children_map dd parent_id callout_id
          let dd := insert_markdown_as_inline_delta parse dd callout_id callout.content
          rec dd (.aside callout_id parent_id rest list_type start_number)
        | none =>
          if strStartsWith value "<details>" then
            let g := generate_id dd
            let toggle_id := g.1
            let dd := g.2
            let block : Block :=
              { id := toggle_id
                ty := "toggle_list"
                data := []
                parent := parent_id.getD ""
                children := toggle_id
                external_id := some toggle_id
                external_type := some "text" }
            let dd := insert_block dd toggle_id block
            let dd := update_children_map dd parent_id toggle_id
            let sp :=
              match parse_details_html value with
              | some details =>
                let dd := insert_markdown_as_inline_delta parse dd toggle_id details.summary
                let dd :=
                  if strTrim details.body = "" then dd
                  else
                    match parse details.body with
                    | some (.root rcs) => rec dd (.children (some toggle_id) rcs none none)
                    | _ => dd
                (true, dd)
              | none => (false, dd)
            rec sp.2 (.details toggle_id sp.1 parent_id rest list_type start_number)
          else
            let dd := rec dd (.node c parent_id none list_type start_number)
            rec dd (.children parent_id rest list_type start_number)
    | _ =>
      let dd := rec dd (.node c parent_id none list_type start_number)
      rec dd (.children parent_id rest list_type start_number)

/-- The body of the callout sibling loop, with the recursive calls
abstracted as `rec`. -/
def aside_step (rec : DocumentData → Task → DocumentData) (dd : DocumentData)
    (callout_id : String) (parent_id : Option String) (cs : List MdNode)
    (list_type : Option String) (start_number : Option Nat) : DocumentData :=
  match cs with
  | [] => dd
  | c :: rest =>
    match c with
    | .html hv =>
      if strTrim hv = "</aside>" then
        rec dd (.children parent_id rest list_type start_number)
      else
        let dd := rec dd (.node c (some callout_id) none list_type start_number)
        rec dd (.aside callout_id parent_id rest list_type start_number)
    | _ =>
      let dd := rec dd (.node c (some callout_id) none list_type start_number)
      rec dd (.aside callout_id parent_id rest list_type start_number)

/-- The body of the toggle sibling loop, with the recursive calls
abstracted as `rec`. -/
def details_step (rec : DocumentData → Task → DocumentData) (parse : String → Option MdNode)
    (dd : DocumentData) (toggle_id : String) (summary_written : Bool)
    (parent_id : Option String) (cs : List MdNode) (list_type : Option String)
    (start_number : Option Nat) : DocumentData :=
  match cs with
  | [] => dd
  | c :: rest =>
    match c with
    | .html hv =>
      let v := strTrim hv
      if v = "</details>" then
        rec dd (.children parent_id rest list_type start_number)
      else if !summary_written && strStartsWith v "<summary>" then
        match extract_tag_content v "summary" with
        | some (summary, after) =>
          let dd := insert_markdown_as_inline_delta parse dd toggle_id summary
          let body := strTrim after
          let dd :=
            if body = "" then dd
            else
              match parse body with
              | some (.root rcs) => rec dd (.children (some toggle_id) rcs none none)
              | _ => dd
          rec dd (.details toggle_id true parent_id rest list_type start_number)
        | none =>
          rec dd (.details toggle_id summary_written parent_id rest list_type start_number)
      else
        let dd := rec dd (.node c (some toggle_id) none list_type start_number)
        rec dd (.details toggle_id summary_written parent_id rest list_type start_number)
    | _ =>
      let dd := rec dd (.node c (some toggle_id) none list_type start_number)
      rec dd (.details toggle_id summary_written parent_id rest list_type start_number)

/-- The recursive walker.  `fuel` only bounds the recursion depth: when it
is exhausted the walk stops, which never happens on a run whose fuel
exceeds the nesting depth of the input (the Rust original needs no fuel
because its re-entrant parses operate on strictly shorter strings). -/
def walk (parse : String → Option MdNode) : Nat → DocumentData → Task → DocumentData
  | 0, dd, _ => dd
  | fuel + 1, dd, .node n p bid lt sn => node_step (walk parse fuel) dd n p bid lt sn
  | fuel + 1, dd, .children p cs lt sn => children_step (walk parse fuel) parse dd p cs lt sn
  | fuel + 1, dd, .aside cid p cs lt sn => aside_step (walk parse fuel) dd cid p cs lt sn
  | fuel + 1, dd, .details tid sw p cs lt sn =>
    details_step (walk parse fuel) parse dd tid sw p cs lt sn

/-- Wrapper with the source name: `process_mdast_node`. -/
def process_mdast_node (parse : String → Option MdNode) (fuel : Nat) (dd : DocumentData)
    (node : MdNode) (parent_id : Option String) (block_id : Option String)
    (list_type : Option String) (start_number : Option Nat) : DocumentData :=
  walk parse fuel dd (.node node parent_id block_id list_type start_number)

/-- Wrapper with the source name: `process_mdast_node_children`. -/
def process_mdast_node_children (parse : String → Option MdNode) (fuel : Nat)
    (dd : DocumentData) (parent_id : Option String) (children : List MdNode)
    (list_type : Option String) (start_number : Option Nat) : DocumentData :=
  walk parse fuel dd (.children parent_id children list_type start_number)

/-! ## The importer entry point -/

/-- Modelled from the spec: the repository's error enum; `import` only ever
signals `ParseMarkdownError`, the other variant stands for the enum's
remaining members. -/
inductive DocumentError where
  | ParseMarkdownError
  | OtherDocumentError
  deriving DecidableEq

def emptyDocumentData (document_id : String) : DocumentData :=
  { page_id := document_id
    blocks := []
    children_map := []
    text_map := []
    gidx := 0
    panicked := false }

/-- `MDImporter::import`: parse the markdown (the abstract `parse` stands
for `to_mdast` with the importer's parse options), then drive the walker
from the root with the document id preassigned. -/
def importMD (parse : String → Option MdNode) (fuel : Nat) (document_id : String)
    (md : String) : Except DocumentError DocumentData :=
  match parse md with
  | none => .error .ParseMarkdownError
  | some md_node =>
    .ok (process_mdast_node parse fuel (emptyDocumentData document_id) md_node none
      (some document_id) none none)

/-! ## Definitions used by the claim statements -/

/-- The block types whose blocks carry no external text payload in the
emitted snapshots (see claim C2 as amended): images, table rows, table
cells. -/
def containerTy (ty : String) : Bool :=
  ty = "image" || ty = "simple_table_row" || ty = "simple_table_cell"

/-- The external-link discipline of every emitted block: pure containers
(per `containerTy`) carry no external link, every other block links
`(id, "text")`. -/
def GoodBlock (b : Block) : Prop :=
  if containerTy b.ty then b.external_id = none ∧ b.external_type = none
  else b.external_id = some b.id ∧ b.external_type = some "text"

def GoodBlocks (dd : DocumentData) : Prop :=
  ∀ k b, aget dd.blocks k = some b → GoodBlock b

/-- The calling discipline of the walker: a node walk has a parent unless
the node is the root, and every sibling-slice walk has a parent.  This
holds for the import entry call and is preserved by every recursive
call. -/
def TaskOk : Task → Prop
  | .node n p _ _ _ => p.isSome = true ∨ ∃ cs, n = MdNode.root cs
  | .children p _ _ _ => p.isSome = true
  | .aside _ p _ _ _ => p.isSome = true
  | .details _ _ p _ _ _ => p.isSome = true

/-- `k` cannot collide with any identifier the allocator will produce from
state `dd` on. -/
def FreshFree (dd : DocumentData) (k : String) : Prop :=
  ∀ j, dd.gidx ≤ j → k ≠ genName j

/-- The children-map keys a task may touch besides freshly allocated
ones. -/
def touchedKeys : Task → List String
  | .node _ p bid _ _ => p.toList ++ bid.toList
  | .children p _ _ _ => p.toList
  | .aside cid p _ _ _ => cid :: p.toList
  | .details tid _ p _ _ _ => tid :: p.toList

/-- The block-table keys a task may touch besides freshly allocated ones:
only a node walk with a preassigned id inserts at a non-fresh key. -/
def touchedBlockKeys : Task → List String
  | .node _ _ bid _ _ => bid.toList
  | _ => []

/-- A table-cell AST node that is empty after inline-text extraction and
trim (non-`TableCell` children count as not empty, as in the source). -/
def is_empty_table_cell_node (c : MdNode) : Bool :=
  match c with
  | .tableCell cs => is_table_cell_empty cs
  | _ => false

/-- Claim C3's recognition condition, written from its own words: the
header row has at least 2 cells, all empty after inline-text extraction
and trim; there is at least 1 body row and every body row's cell count
equals the header's column count; and either every body cell is empty with
column count at least 6, or at least one body cell is non-empty with
column count at most 5 and body-row count at most 3. -/
def specNotionColumns (children : List MdNode) : Bool :=
  match children with
  | [] => false
  | header :: body =>
    match header with
    | .tableRow hcells =>
      2 ≤ hcells.length &&
      hcells.all is_empty_table_cell_node &&
      1 ≤ body.length &&
      body.all (fun r =>
        match r with
        | .tableRow rcs => rcs.length == hcells.length
        | _ => false) &&
      ((body.all (fun r =>
          match r with
          | .tableRow rcs => rcs.all is_empty_table_cell_node
          | _ => false) && 6 ≤ hcells.length) ||
        (body.any (fun r =>
          match r with
          | .tableRow rcs => rcs.any (fun c => !is_empty_table_cell_node c)
          | _ => false) && hcells.length ≤ 5 && body.length ≤ 3))
    | _ => false

/-- Claim C3 as amended: recognition requires a `TableRow` header of at
least 2 cells, all empty `TableCell`s, and at least one body row; then
either every body row is a `TableRow` with exactly the header's cell count
whose cells are all empty `TableCell`s and the column count is at least 6,
or that is not the case (some body row is not such an all-empty full-width
row) and the column count is at most 5 and the body-row count is at most
3.  Body rows of mismatched width are not excluded outright: they merely
fall into the second branch. -/
def amendedNotionColumns (children : List MdNode) : Bool :=
  match children with
  | [] => false
  | header :: body =>
    match header with
    | .tableRow hcells =>
      2 ≤ hcells.length &&
      hcells.all is_empty_table_cell_node &&
      !body.isEmpty &&
      (if body.all (fun r =>
          match r with
          | .tableRow rcs => rcs.length == hcells.length && rcs.all is_empty_table_cell_node
          | _ => false)
        then 6 ≤ hcells.length
        else hcells.length ≤ 5 && body.length ≤ 3)
    | _ => false

/-- A body row contributes a paragraph to column `col` of a Notion-columns
rewrite iff it is a `TableRow` holding a non-empty `TableCell` at index
`col`. -/
def row_has_nonempty_cell_at (col : Nat) (row : MdNode) : Bool :=
  match row with
  | .tableRow rcs =>
    match rcs.get? col with
    | some (.tableCell ccs) => !is_table_cell_empty ccs
    | _ => false
  | _ => false

/-! ## Concrete inputs used by the claim theorems, counterexamples and
witnesses.  Each `parseCk` is a concrete instance of the abstract Markdown
parser: it recognises a single top-level document (and, where a claim's
scenario re-enters the parser, the re-parsed fragment) and rejects
everything else. -/

def parseNone : String → Option MdNode := fun _ => none

def parseC1 : String → Option MdNode := fun s =>
  if s = "M1" then some (.root [.html "<aside>x</aside>"]) else none

def ddC1 : DocumentData :=
  match importMD parseC1 20 "P" "M1" with
  | .ok dd => dd
  | .error _ => emptyDocumentData "X"

def parseC2 : String → Option MdNode := fun s =>
  if s = "M2" then some (.root [.table [.left]
    [.tableRow [.tableCell [.text "a"]], .tableRow [.tableCell [.text "b"]]]]) else none

def ddC2 : DocumentData :=
  match importMD parseC2 20 "P" "M2" with
  | .ok dd => dd
  | .error _ => emptyDocumentData "X"

def parseC4 : String → Option MdNode := fun s =>
  if s = "M4" then some (.root [.paragraph [.text "hi ", .image "u"]]) else none

def ddC4 : DocumentData :=
  match importMD parseC4 20 "P" "M4" with
  | .ok dd => dd
  | .error _ => emptyDocumentData "X"

def parseC5 : String → Option MdNode := fun s =>
  if s = "M5" then some (.root []) else none

def sixTable : MdNode :=
  .table []
    [.tableRow [.tableCell [], .tableCell [], .tableCell [], .tableCell [], .tableCell [],
      .tableCell []],
     .tableRow [.tableCell [], .tableCell [], .tableCell [], .tableCell [], .tableCell [],
      .tableCell []]]

def parseC6 : String → Option MdNode := fun s =>
  if s = "M6" then some (.root [sixTable]) else none

def ddC6 : DocumentData :=
  match importMD parseC6 20 "P" "M6" with
  | .ok dd => dd
  | .error _ => emptyDocumentData "X"

def parseC7 : String → Option MdNode := fun s =>
  if s = "M7" then some (.root [.table [] [.tableRow [.tableCell [.text "a"]]]]) else none

def ddC7 : DocumentData :=
  match importMD parseC7 20 "P" "M7" with
  | .ok dd => dd
  | .error _ => emptyDocumentData "X"

def parseC9 : String → Option MdNode := fun s =>
  if s = "M9" then some (.root [.html "<aside>💡 Be careful</aside>"])
  else if s = "Be careful" then some (.root [.paragraph [.text "Be careful"]])
  else none

def ddC9 : DocumentData :=
  match importMD parseC9 20 "P" "M9" with
  | .ok dd => dd
  | .error _ => emptyDocumentData "X"

/-- The header row of the claim C6 test table: 6 empty cells. -/
def c6header : MdNode :=
  .tableRow [.tableCell [], .tableCell [], .tableCell [], .tableCell [], .tableCell [],
    .tableCell []]

/-- The single (empty) body row of the claim C6 test table. -/
def c6row : MdNode :=
  .tableRow [.tableCell [], .tableCell [], .tableCell [], .tableCell [], .tableCell [],
    .tableCell []]

/-- A concrete snapshot state for the claim C6 witness: the page block's
children-map entry exists and one identifier has been allocated. -/
def ddW : DocumentData :=
  { page_id := "P"
    blocks := []
    children_map := [("P", [])]
    text_map := []
    gidx := 1
    panicked := false }

/-- Claim C3's counterexample table: a header row of 2 empty cells and one
body row of 3 empty cells — the body row's cell count does not equal the
header's column count, yet the source recognises the table. -/
def c3table : List MdNode :=
  [.tableRow [.tableCell [], .tableCell []],
   .tableRow [.tableCell [], .tableCell [], .tableCell []]]

/-! ## Basic lemmas: association lists, the allocator, state helpers -/

theorem aget_aupd_self {α : Type} (k : String) (d : α) (f : α → α) (m : List (String × α)) :
    aget (aupd k d f m) k = some (f ((aget m k).getD d)) := by
  induction m with
  | nil => simp [aupd, aget]
  | cons h t ih =>
    obtain ⟨k', v⟩ := h
    by_cases hk : k' = k
    · subst hk; simp [aupd, aget]
    · simp [aupd, aget, hk, ih]

theorem aget_aupd_ne {α : Type} (k k' : String) (d : α) (f : α → α) (m : List (String × α))
    (h : k' ≠ k) : aget (aupd k d f m) k' = aget m k' := by
  induction m with
  | nil => simp [aupd, aget, Ne.symm h]
  | cons hd t ih =>
    obtain ⟨k₀, v⟩ := hd
    by_cases hk : k₀ = k
    · subst hk
      simp [aupd, aget, Ne.symm h]
    · by_cases hk' : k₀ = k'
      · simp [aupd, aget, hk, hk', h]
      · simp [aupd, aget, hk, hk', ih]

theorem aget_ains_self {α : Type} (k : String) (v : α) (m : List (String × α)) :
    aget (ains k v m) k = some v := by
  induction m with
  | nil => simp [ains, aget]
  | cons h t ih =>
    obtain ⟨k', w⟩ := h
    by_cases hk : k' = k
    · subst hk; simp [ains, aget]
    · simp [ains, aget, hk, ih]

theorem aget_ains_ne {α : Type} (k k' : String) (v : α) (m : List (String × α)) (h : k' ≠ k) :
    aget (ains k v m) k' = aget m k' := by
  induction m with
  | nil => simp [ains, aget, Ne.symm h]
  | cons hd t ih =>
    obtain ⟨k₀, w⟩ := hd
    by_cases hk : k₀ = k
    · subst hk
      simp [ains, aget, Ne.symm h]
    · by_cases hk' : k₀ = k'
      · simp [ains, aget, hk, hk', h]
      · simp [ains, aget, hk, hk', ih]

theorem aget_ains_cases {α : Type} (k k' : String) (v : α) (m : List (String × α)) (w : α)
    (h : aget (ains k v m) k' = some w) : w = v ∨ aget m k' = some w := by
  by_cases hk : k' = k
  · subst hk
    rw [aget_ains_self] at h
    exact Or.inl (Option.some.inj h).symm
  · right
    rwa [aget_ains_ne _ _ _ _ hk] at h

theorem genName_length (n : Nat) : (chars (genName n)).length = n + 1 := by
  simp [genName, chars, ofChars]

theorem genName_inj {a b : Nat} (h : genName a = genName b) : a = b := by
  have : (chars (genName a)).length = (chars (genName b)).length := by rw [h]
  simpa [genName_length] using this

@[simp] theorem panicked_insert_block (dd : DocumentData) (id : String) (b : Block) :
    (insert_block dd id b).panicked = dd.panicked := rfl

@[simp] theorem gidx_insert_block (dd : DocumentData) (id : String) (b : Block) :
    (insert_block dd id b).gidx = dd.gidx := rfl

@[simp] theorem children_map_insert_block (dd : DocumentData) (id : String) (b : Block) :
    (insert_block dd id b).children_map = dd.children_map := rfl

@[simp] theorem blocks_insert_block (dd : DocumentData) (id : String) (b : Block) :
    (insert_block dd id b).blocks = ains id b dd.blocks := rfl

@[simp] theorem panicked_ensure (dd : DocumentData) (bid : String) :
    (ensure_children_map_entry dd bid).panicked = dd.panicked := rfl

@[simp] theorem gidx_ensure (dd : DocumentData) (bid : String) :
    (ensure_children_map_entry dd bid).gidx = dd.gidx := rfl

@[simp] theorem blocks_ensure (dd : DocumentData) (bid : String) :
    (ensure_children_map_entry dd bid).blocks = dd.blocks := rfl

@[simp] theorem children_map_ensure (dd : DocumentData) (bid : String) :
    (ensure_children_map_entry dd bid).children_map = aupd bid [] id dd.children_map := rfl

@[simp] theorem update_children_map_none (dd : DocumentData) (c : String) :
    update_children_map dd none c = dd := rfl

@[simp] theorem panicked_update_children_map (dd : DocumentData) (p : Option String) (c : String) :
    (update_children_map dd p c).panicked = dd.panicked := by
  cases p <;> rfl

@[simp] theorem gidx_update_children_map (dd : DocumentData) (p : Option String) (c : String) :
    (update_children_map dd p c).gidx = dd.gidx := by
  cases p <;> rfl

@[simp] theorem blocks_update_children_map (dd : DocumentData) (p : Option String) (c : String) :
    (update_children_map dd p c).blocks = dd.blocks := by
  cases p <;> rfl

@[simp] theorem children_map_update_children_map_some (dd : DocumentData) (p : String)
    (c : String) :
    (update_children_map dd (some p) c).children_map =
      aupd p [] (· ++ [c]) dd.children_map := rfl

@[simp] theorem panicked_insert_delta (dd : DocumentData) (id : String) (ops : List DeltaOp) :
    (insert_delta_to_text_map dd id ops).panicked = dd.panicked := rfl

@[simp] theorem gidx_insert_delta (dd : DocumentData) (id : String) (ops : List DeltaOp) :
    (insert_delta_to_text_map dd id ops).gidx = dd.gidx := rfl

@[simp] theorem blocks_insert_delta (dd : DocumentData) (id : String) (ops : List DeltaOp) :
    (insert_delta_to_text_map dd id ops).blocks = dd.blocks := rfl

@[simp] theorem children_map_insert_delta (dd : DocumentData) (id : String) (ops : List DeltaOp) :
    (insert_delta_to_text_map dd id ops).children_map = dd.children_map := rfl

@[simp] theorem panicked_process_inline (dd : DocumentData) (n : MdNode) (p : Option String) :
    (process_inline_mdast_node dd n p).panicked = dd.panicked := by
  cases p <;> rfl

@[simp] theorem gidx_process_inline (dd : DocumentData) (n : MdNode) (p : Option String) :
    (process_inline_mdast_node dd n p).gidx = dd.gidx := by
  cases p <;> rfl

@[simp] theorem blocks_process_inline (dd : DocumentData) (n : MdNode) (p : Option String) :
    (process_inline_mdast_node dd n p).blocks = dd.blocks := by
  cases p <;> rfl

@[simp] theorem children_map_process_inline (dd : DocumentData) (n : MdNode) (p : Option String) :
    (process_inline_mdast_node dd n p).children_map = dd.children_map := by
  cases p <;> rfl

theorem process_image_eq (dd : DocumentData) (url p : String) :
    process_image dd url p =
      { dd with
        gidx := dd.gidx + 1
        blocks := ains (genName dd.gidx) (create_image_block (genName dd.gidx) url p) dd.blocks
        children_map :=
          aupd p [] (· ++ [genName dd.gidx]) (aupd (genName dd.gidx) [] id dd.children_map) } :=
  rfl

theorem create_paragraph_block_eq (dd : DocumentData) (p : String) :
    create_paragraph_block dd p =
      (genName dd.gidx,
        { dd with
          gidx := dd.gidx + 1
          blocks := ains (genName dd.gidx)
            (create_block (genName dd.gidx) (.paragraph []) (some p) none none) dd.blocks
          children_map :=
            aupd p [] (· ++ [genName dd.gidx]) (aupd (genName dd.gidx) [] id dd.children_map) }) :=
  rfl

theorem foldl_text_map_shape {step : DocumentData → MdNode → DocumentData}
    (hstep : ∀ dd c, ∃ tm, step dd c = { dd with text_map := tm }) :
    ∀ (l : List MdNode) (dd : DocumentData), ∃ tm, l.foldl step dd = { dd with text_map := tm } := by
  intro l
  induction l with
  | nil => intro dd; exact ⟨dd.text_map, rfl⟩
  | cons c t ih =>
    intro dd
    obtain ⟨tm₁, h₁⟩ := hstep dd c
    obtain ⟨tm₂, h₂⟩ := ih (step dd c)
    rw [h₁] at h₂
    refine ⟨tm₂, ?_⟩
    rw [List.foldl_cons, h₁]
    simpa using h₂

theorem inline_or_degrade_shape (dd : DocumentData) (b : String) (c : MdNode) :
    ∃ tm, inline_or_degrade dd b c = { dd with text_map := tm } := by
  unfold inline_or_degrade
  by_cases h : is_inline_node c = true
  · simp only [h, if_true]
    exact ⟨_, rfl⟩
  · simp only [h, if_false]
    exact ⟨_, rfl⟩

theorem insert_markdown_shape (parse : String → Option MdNode) (dd : DocumentData)
    (b : String) (m : String) :
    ∃ tm, insert_markdown_as_inline_delta parse dd b m = { dd with text_map := tm } := by
  unfold insert_markdown_as_inline_delta
  by_cases h0 : strTrim m = ""
  · simp only [h0, if_true]
    exact ⟨dd.text_map, rfl⟩
  · simp only [h0, if_false]
    cases hp : parse (strTrim m) with
    | none => exact ⟨_, rfl⟩
    | some node =>
      cases node with
      | root cs =>
        refine foldl_text_map_shape ?_ cs dd
        intro dd' child
        cases child with
        | paragraph pcs => exact foldl_text_map_shape (fun dd c => inline_or_degrade_shape dd b c) pcs dd'
        | heading d hcs => exact foldl_text_map_shape (fun dd c => inline_or_degrade_shape dd b c) hcs dd'
        | _ => exact ⟨_, rfl⟩
      | _ => exact ⟨_, rfl⟩

@[simp] theorem panicked_insert_markdown (parse : String → Option MdNode) (dd : DocumentData)
    (b m : String) :
    (insert_markdown_as_inline_delta parse dd b m).panicked = dd.panicked := by
  obtain ⟨tm, h⟩ := insert_markdown_shape parse dd b m
  rw [h]

@[simp] theorem gidx_insert_markdown (parse : String → Option MdNode) (dd : DocumentData)
    (b m : String) :
    (insert_markdown_as_inline_delta parse dd b m).gidx = dd.gidx := by
  obtain ⟨tm, h⟩ := insert_markdown_shape parse dd b m
  rw [h]

@[simp] theorem blocks_insert_markdown (parse : String → Option MdNode) (dd : DocumentData)
    (b m : String) :
    (insert_markdown_as_inline_delta parse dd b m).blocks = dd.blocks := by
  obtain ⟨tm, h⟩ := insert_markdown_shape parse dd b m
  rw [h]

@[simp] theorem children_map_insert_markdown (parse : String → Option MdNode)
    (dd : DocumentData) (b m : String) :
    (insert_markdown_as_inline_delta parse dd b m).children_map = dd.children_map := by
  obtain ⟨tm, h⟩ := insert_markdown_shape parse dd b m
  rw [h]

@[simp] theorem create_paragraph_block_fst (dd : DocumentData) (p : String) :
    (create_paragraph_block dd p).1 = genName dd.gidx := rfl

@[simp] theorem gidx_create_paragraph_block (dd : DocumentData) (p : String) :
    (create_paragraph_block dd p).2.gidx = dd.gidx + 1 := rfl

@[simp] theorem panicked_create_paragraph_block (dd : DocumentData) (p : String) :
    (create_paragraph_block dd p).2.panicked = dd.panicked := rfl

@[simp] theorem blocks_create_paragraph_block (dd : DocumentData) (p : String) :
    (create_paragraph_block dd p).2.blocks =
      ains (genName dd.gidx)
        (create_block (genName dd.gidx) (.paragraph []) (some p) none none) dd.blocks := rfl

@[simp] theorem children_map_create_paragraph_block (dd : DocumentData) (p : String) :
    (create_paragraph_block dd p).2.children_map =
      aupd p [] (· ++ [genName dd.gidx]) (aupd (genName dd.gidx) [] id dd.children_map) := rfl

@[simp] theorem generate_id_fst (dd : DocumentData) : (generate_id dd).1 = genName dd.gidx := rfl

@[simp] theorem gidx_generate_id (dd : DocumentData) : (generate_id dd).2.gidx = dd.gidx + 1 := rfl

@[simp] theorem panicked_generate_id (dd : DocumentData) :
    (generate_id dd).2.panicked = dd.panicked := rfl

@[simp] theorem blocks_generate_id (dd : DocumentData) :
    (generate_id dd).2.blocks = dd.blocks := rfl

@[simp] theorem children_map_generate_id (dd : DocumentData) :
    (generate_id dd).2.children_map = dd.children_map := rfl

/-- The allocator state after resolving a preassigned-or-fresh id. -/
theorem gidx_le_idp (dd : DocumentData) (bid : Option String) :
    dd.gidx ≤ (match bid with | some b => (b, dd) | none => generate_id dd).2.gidx := by
  cases bid <;> simp [generate_id]

/-! ## Monotonicity of the allocator state through the walker -/

theorem columns_row_step_gidx {w : DocumentData → String → List MdNode → DocumentData}
    (hw : ∀ dd pid ccs, dd.gidx ≤ (w dd pid ccs).gidx) (cid : String) (ci : Nat)
    (dd : DocumentData) (row : MdNode) :
    dd.gidx ≤ (columns_row_step w cid ci dd row).gidx := by
  unfold columns_row_step
  split
  · split
    · split
      · exact le_refl _
      · dsimp only []
        exact le_trans
          (by simp only [gidx_create_paragraph_block]; omega : dd.gidx ≤ _) (hw _ _ _)
    · exact le_refl _
  · exact le_refl _

theorem columns_rows_loop_gidx {w : DocumentData → String → List MdNode → DocumentData}
    (hw : ∀ dd pid ccs, dd.gidx ≤ (w dd pid ccs).gidx) (cid : String) (ci : Nat) :
    ∀ (rows : List MdNode) (dd : DocumentData),
      dd.gidx ≤ (columns_rows_loop w cid ci dd rows).gidx := by
  intro rows
  induction rows with
  | nil => intro dd; exact le_refl _
  | cons row rest ih =>
    intro dd
    exact le_trans (columns_row_step_gidx hw cid ci dd row) (ih _)

theorem columns_col_step_gidx {w : DocumentData → String → List MdNode → DocumentData}
    (hw : ∀ dd pid ccs, dd.gidx ≤ (w dd pid ccs).gidx) (cid : String) (body_rows : List MdNode)
    (ci : Nat) (dd : DocumentData) :
    dd.gidx ≤ (columns_col_step w cid body_rows ci dd).gidx := by
  unfold columns_col_step
  dsimp only []
  exact le_trans
    (by simp only [gidx_update_children_map, gidx_ensure, gidx_insert_block, gidx_generate_id]
        omega :
      dd.gidx ≤ _)
    (columns_rows_loop_gidx hw _ ci body_rows _)

theorem columns_cols_loop_gidx {w : DocumentData → String → List MdNode → DocumentData}
    (hw : ∀ dd pid ccs, dd.gidx ≤ (w dd pid ccs).gidx) (cid : String) (body_rows : List MdNode) :
    ∀ (remaining ci : Nat) (dd : DocumentData),
      dd.gidx ≤ (columns_cols_loop w cid body_rows dd ci remaining).gidx := by
  intro remaining
  induction remaining with
  | zero => intro ci dd; exact le_refl _
  | succ r ih =>
    intro ci dd
    exact le_trans (columns_col_step_gidx hw cid body_rows ci dd) (ih _ _)

theorem row_cell_step_gidx {w : DocumentData → String → List MdNode → DocumentData}
    (hw : ∀ dd pid ccs, dd.gidx ≤ (w dd pid ccs).gidx) (rid : String) (ri : Nat)
    (align : List AlignKind) (ci : Nat) (dd : DocumentData) (cell : MdNode) :
    dd.gidx ≤ (row_cell_step w rid ri align ci dd cell).gidx := by
  unfold row_cell_step
  split
  · refine le_trans ?_ (hw _ _ _)
    simp [generate_id]
    omega
  · exact le_refl _

theorem row_cells_loop_gidx {w : DocumentData → String → List MdNode → DocumentData}
    (hw : ∀ dd pid ccs, dd.gidx ≤ (w dd pid ccs).gidx) (rid : String) (ri : Nat)
    (align : List AlignKind) :
    ∀ (cells : List MdNode) (dd : DocumentData) (ci : Nat),
      dd.gidx ≤ (row_cells_loop w rid ri align dd cells ci).gidx := by
  intro cells
  induction cells with
  | nil => intro dd ci; exact le_refl _
  | cons cell rest ih =>
    intro dd ci
    exact le_trans (row_cell_step_gidx hw rid ri align ci dd cell) (ih _ _)

theorem table_row_step_gidx {w : DocumentData → String → List MdNode → DocumentData}
    (hw : ∀ dd pid ccs, dd.gidx ≤ (w dd pid ccs).gidx) (tid : String) (align : List AlignKind)
    (ri : Nat) (dd : DocumentData) (row : MdNode) :
    dd.gidx ≤ (table_row_step w tid align ri dd row).gidx := by
  unfold table_row_step
  split
  · dsimp only []
    exact le_trans
      (by simp only [gidx_update_children_map, gidx_ensure, gidx_insert_block, gidx_generate_id]
          omega :
        dd.gidx ≤ _)
      (row_cells_loop_gidx hw _ ri align _ _ 0)
  · exact le_refl _

theorem table_rows_loop_gidx {w : DocumentData → String → List MdNode → DocumentData}
    (hw : ∀ dd pid ccs, dd.gidx ≤ (w dd pid ccs).gidx) (tid : String) (align : List AlignKind) :
    ∀ (rows : List MdNode) (dd : DocumentData) (ri : Nat),
      dd.gidx ≤ (table_rows_loop w tid align dd rows ri).gidx := by
  intro rows
  induction rows with
  | nil => intro dd ri; exact le_refl _
  | cons row rest ih =>
    intro dd ri
    exact le_trans (table_row_step_gidx hw tid align ri dd row) (ih _ _)

theorem columns_rewrite_gidx {rec : DocumentData → Task → DocumentData}
    (hrec : ∀ dd t, dd.gidx ≤ (rec dd t).gidx) (dd : DocumentData) (id : String)
    (p : Option String) (col_count : Nat) (body_rows : List MdNode) :
    dd.gidx ≤ (columns_rewrite rec dd id p col_count body_rows).gidx := by
  unfold columns_rewrite
  dsimp only []
  refine le_trans (le_of_eq ?_) (columns_cols_loop_gidx (fun dd pid ccs => hrec _ _) _ _ _ _ _)
  simp

theorem default_node_step_gidx {rec : DocumentData → Task → DocumentData}
    (hrec : ∀ dd t, dd.gidx ≤ (rec dd t).gidx) (dd : DocumentData) (n : MdNode)
    (p : Option String) (id : String) (lt : Option String) (sn : Option Nat) :
    dd.gidx ≤ (default_node_step rec dd n p id lt sn).gidx := by
  unfold default_node_step
  dsimp only []
  split
  · refine le_trans ?_ (hrec _ _); simp
  · refine le_trans ?_ (hrec _ _); simp
  · refine le_trans ?_ (hrec _ _); simp
  · split
    · simp
    · split
      · refine le_trans ?_ (hrec _ _)
        refine le_trans ?_ (hrec _ _)
        simp
      · refine le_trans ?_ (hrec _ _); simp
  · split
    · simp
    · split
      · refine le_trans ?_ (hrec _ _)
        refine le_trans ?_ (hrec _ _)
        simp
      · refine le_trans ?_ (hrec _ _); simp
  · simp
  · refine le_trans ?_ (table_rows_loop_gidx (fun dd pid ccs => hrec _ _) _ _ _ _ _)
    simp
  · simp
  · simp

theorem node_step_gidx {rec : DocumentData → Task → DocumentData}
    (hrec : ∀ dd t, dd.gidx ≤ (rec dd t).gidx) (dd : DocumentData) (n : MdNode)
    (p bid lt : Option String) (sn : Option Nat) :
    dd.gidx ≤ (node_step rec dd n p bid lt sn).gidx := by
  unfold node_step
  split
  · simp
  · split
    · exact le_refl _
    · split
      · exact hrec _ _
      · split
        · simp [process_image_eq]
        · dsimp only []
          split
          · exact le_trans (gidx_le_idp dd bid) (columns_rewrite_gidx hrec _ _ _ _ _)
          · exact le_trans (gidx_le_idp dd bid) (default_node_step_gidx hrec _ _ _ _ _ _)

theorem children_step_gidx {rec : DocumentData → Task → DocumentData}
    (parse : String → Option MdNode) (hrec : ∀ dd t, dd.gidx ≤ (rec dd t).gidx)
    (dd : DocumentData) (p : Option String) (cs : List MdNode) (lt : Option String)
    (sn : Option Nat) :
    dd.gidx ≤ (children_step rec parse dd p cs lt sn).gidx := by
  unfold children_step
  split
  · exact le_refl _
  · split
    · dsimp only []
      split
      · exact hrec _ _
      · split
        · refine le_trans ?_ (hrec _ _)
          simp
        · split
          · refine le_trans ?_ (hrec _ _)
            split
            · dsimp only []
              split
              · simp
              · split
                · refine le_trans ?_ (hrec _ _)
                  simp
                · simp
            · simp
          · exact le_trans (hrec _ _) (hrec _ _)
    · exact le_trans (hrec _ _) (hrec _ _)

theorem aside_step_gidx {rec : DocumentData → Task → DocumentData}
    (hrec : ∀ dd t, dd.gidx ≤ (rec dd t).gidx) (dd : DocumentData) (cid : String)
    (p : Option String) (cs : List MdNode) (lt : Option String) (sn : Option Nat) :
    dd.gidx ≤ (aside_step rec dd cid p cs lt sn).gidx := by
  unfold aside_step
  split
  · exact le_refl _
  · split
    · split
      · exact hrec _ _
      · exact le_trans (hrec _ _) (hrec _ _)
    · exact le_trans (hrec _ _) (hrec _ _)

theorem details_step_gidx {rec : DocumentData → Task → DocumentData}
    (parse : String → Option MdNode) (hrec : ∀ dd t, dd.gidx ≤ (rec dd t).gidx)
    (dd : DocumentData) (tid : String) (sw : Bool) (p : Option String) (cs : List MdNode)
    (lt : Option String) (sn : Option Nat) :
    dd.gidx ≤ (details_step rec parse dd tid sw p cs lt sn).gidx := by
  unfold details_step
  split
  · exact le_refl _
  · split
    · dsimp only []
      split
      · exact hrec _ _
      · split
        · split
          · refine le_trans ?_ (hrec _ _)
            split
            · simp
            · split
              · refine le_trans ?_ (hrec _ _)
                simp
              · simp
          · exact hrec _ _
        · exact le_trans (hrec _ _) (hrec _ _)
    · exact le_trans (hrec _ _) (hrec _ _)

theorem walk_gidx (parse : String → Option MdNode) :
    ∀ (fuel : Nat) (dd : DocumentData) (t : Task), dd.gidx ≤ (walk parse fuel dd t).gidx := by
  intro fuel
  induction fuel with
  | zero => intro dd t; exact le_refl _
  | succ f ih =>
    intro dd t
    cases t with
    | node n p bid lt sn => exact node_step_gidx (fun dd t => ih dd t) dd n p bid lt sn
    | children p cs lt sn => exact children_step_gidx parse (fun dd t => ih dd t) dd p cs lt sn
    | aside cid p cs lt sn => exact aside_step_gidx (fun dd t => ih dd t) dd cid p cs lt sn
    | details tid sw p cs lt sn =>
      exact details_step_gidx parse (fun dd t => ih dd t) dd tid sw p cs lt sn

/-! ## The walker never hits the unreachable Image arm on well-parented
calls (the `panicked` flag is preserved) -/

theorem columns_row_step_panicked {w : DocumentData → String → List MdNode → DocumentData}
    (hw : ∀ dd pid ccs, (w dd pid ccs).panicked = dd.panicked) (cid : String) (ci : Nat)
    (dd : DocumentData) (row : MdNode) :
    (columns_row_step w cid ci dd row).panicked = dd.panicked := by
  unfold columns_row_step
  split
  · split
    · split
      · rfl
      · dsimp only []
        rw [hw]
        simp
    · rfl
  · rfl

theorem columns_rows_loop_panicked {w : DocumentData → String → List MdNode → DocumentData}
    (hw : ∀ dd pid ccs, (w dd pid ccs).panicked = dd.panicked) (cid : String) (ci : Nat) :
    ∀ (rows : List MdNode) (dd : DocumentData),
      (columns_rows_loop w cid ci dd rows).panicked = dd.panicked := by
  intro rows
  induction rows with
  | nil => intro dd; rfl
  | cons row rest ih =>
    intro dd
    rw [columns_rows_loop, ih, columns_row_step_panicked hw]

theorem columns_cols_loop_panicked {w : DocumentData → String → List MdNode → DocumentData}
    (hw : ∀ dd pid ccs, (w dd pid ccs).panicked = dd.panicked) (cid : String)
    (body_rows : List MdNode) :
    ∀ (remaining ci : Nat) (dd : DocumentData),
      (columns_cols_loop w cid body_rows dd ci remaining).panicked = dd.panicked := by
  intro remaining
  induction remaining with
  | zero => intro ci dd; rfl
  | succ r ih =>
    intro ci dd
    rw [columns_cols_loop, ih]
    unfold columns_col_step
    dsimp only []
    rw [columns_rows_loop_panicked hw]
    simp

theorem row_cell_step_panicked {w : DocumentData → String → List MdNode → DocumentData}
    (hw : ∀ dd pid ccs, (w dd pid ccs).panicked = dd.panicked) (rid : String) (ri : Nat)
    (align : List AlignKind) (ci : Nat) (dd : DocumentData) (cell : MdNode) :
    (row_cell_step w rid ri align ci dd cell).panicked = dd.panicked := by
  unfold row_cell_step
  split
  · dsimp only []
    rw [hw]
    simp
  · rfl

theorem row_cells_loop_panicked {w : DocumentData → String → List MdNode → DocumentData}
    (hw : ∀ dd pid ccs, (w dd pid ccs).panicked = dd.panicked) (rid : String) (ri : Nat)
    (align : List AlignKind) :
    ∀ (cells : List MdNode) (dd : DocumentData) (ci : Nat),
      (row_cells_loop w rid ri align dd cells ci).panicked = dd.panicked := by
  intro cells
  induction cells with
  | nil => intro dd ci; rfl
  | cons cell rest ih =>
    intro dd ci
    rw [row_cells_loop, ih, row_cell_step_panicked hw]

theorem table_row_step_panicked {w : DocumentData → String → List MdNode → DocumentData}
    (hw : ∀ dd pid ccs, (w dd pid ccs).panicked = dd.panicked) (tid : String)
    (align : List AlignKind) (ri : Nat) (dd : DocumentData) (row : MdNode) :
    (table_row_step w tid align ri dd row).panicked = dd.panicked := by
  unfold table_row_step
  split
  · dsimp only []
    rw [row_cells_loop_panicked hw]
    simp
  · rfl

theorem table_rows_loop_panicked {w : DocumentData → String → List MdNode → DocumentData}
    (hw : ∀ dd pid ccs, (w dd pid ccs).panicked = dd.panicked) (tid : String)
    (align : List AlignKind) :
    ∀ (rows : List MdNode) (dd : DocumentData) (ri : Nat),
      (table_rows_loop w tid align dd rows ri).panicked = dd.panicked := by
  intro rows
  induction rows with
  | nil => intro dd ri; rfl
  | cons row rest ih =>
    intro dd ri
    rw [table_rows_loop, ih, table_row_step_panicked hw]

theorem columns_rewrite_panicked {rec : DocumentData → Task → DocumentData}
    (hrec : ∀ dd t, TaskOk t → (rec dd t).panicked = dd.panicked) (dd : DocumentData)
    (id : String) (p : Option String) (col_count : Nat) (body_rows : List MdNode) :
    (columns_rewrite rec dd id p col_count body_rows).panicked = dd.panicked := by
  have hw : ∀ dd pid ccs,
      (rec dd (.children (some pid) ccs none none)).panicked = dd.panicked :=
    fun dd pid ccs => hrec _ _ (by simp [TaskOk])
  unfold columns_rewrite
  dsimp only []
  rw [columns_cols_loop_panicked hw]
  simp

theorem default_node_step_panicked {rec : DocumentData → Task → DocumentData}
    (hrec : ∀ dd t, TaskOk t → (rec dd t).panicked = dd.panicked) (dd : DocumentData)
    (n : MdNode) (p : Option String) (id : String) (lt : Option String) (sn : Option Nat)
    (him : ∀ u, n ≠ .image u) :
    (default_node_step rec dd n p id lt sn).panicked = dd.panicked := by
  have hw : ∀ dd pid ccs,
      (rec dd (.children (some pid) ccs none none)).panicked = dd.panicked :=
    fun dd pid ccs => hrec _ _ (by simp [TaskOk])
  have hch : ∀ dd pid ccs l s, (rec dd (.children (some pid) ccs l s)).panicked = dd.panicked :=
    fun dd pid ccs l s => hrec _ _ (by simp [TaskOk])
  unfold default_node_step
  dsimp only []
  split
  · rw [hch]; simp
  · rw [hch]; simp
  · rw [hch]; simp
  · split
    · simp
    · split
      · rw [hch, hch]; simp
      · rw [hch]; simp
  · split
    · simp
    · split
      · rw [hch, hch]; simp
      · rw [hch]; simp
  · simp
  · rw [table_rows_loop_panicked hw]; simp
  · exact absurd rfl (him _)
  · simp

theorem node_step_panicked {rec : DocumentData → Task → DocumentData}
    (hrec : ∀ dd t, TaskOk t → (rec dd t).panicked = dd.panicked) (dd : DocumentData)
    (n : MdNode) (p bid lt : Option String) (sn : Option Nat)
    (hok : p.isSome = true ∨ ∃ cs, n = MdNode.root cs) :
    (node_step rec dd n p bid lt sn).panicked = dd.panicked := by
  unfold node_step
  split
  · simp
  · split
    · rfl
    · split
      · rename_i children lt' sn' heq
        -- list containers have a parent: the root has no list info
        rcases hok with hp | ⟨cs, rfl⟩
        · exact hrec _ _ (by simp [TaskOk, hp])
        · simp [get_mdast_node_info] at heq
      · split
        · simp [process_image_eq]
        · dsimp only []
          split
          · exact (columns_rewrite_panicked hrec _ _ _ _ _).trans (by cases bid <;> rfl)
          · rename_i hredir hncol
            refine ((default_node_step_panicked hrec _ _ _ _ _ _ ?_).trans
              (by cases bid <;> rfl))
            intro u hu
            subst hu
            rcases hok with hp | ⟨cs, hroot⟩
            · obtain ⟨q, hq⟩ := Option.isSome_iff_exists.mp hp
              subst hq
              simp [imageRedirect] at hredir
            · exact MdNode.noConfusion hroot

theorem children_step_panicked {rec : DocumentData → Task → DocumentData}
    (parse : String → Option MdNode) (hrec : ∀ dd t, TaskOk t → (rec dd t).panicked = dd.panicked)
    (dd : DocumentData) (p : Option String) (cs : List MdNode) (lt : Option String)
    (sn : Option Nat) (hp : p.isSome = true) :
    (children_step rec parse dd p cs lt sn).panicked = dd.panicked := by
  have hch : ∀ dd ccs l s, (rec dd (.children p ccs l s)).panicked = dd.panicked :=
    fun dd ccs l s => hrec _ _ (by simp [TaskOk, hp])
  have hchs : ∀ dd pid ccs l s, (rec dd (.children (some pid) ccs l s)).panicked = dd.panicked :=
    fun dd pid ccs l s => hrec _ _ (by simp [TaskOk])
  have hnd : ∀ dd c l s, (rec dd (.node c p none l s)).panicked = dd.panicked :=
    fun dd c l s => hrec _ _ (by simp [TaskOk, hp])
  have has : ∀ dd cid ccs l s, (rec dd (.aside cid p ccs l s)).panicked = dd.panicked :=
    fun dd cid ccs l s => hrec _ _ (by simp [TaskOk, hp])
  have hdt : ∀ dd tid sw ccs l s,
      (rec dd (.details tid sw p ccs l s)).panicked = dd.panicked :=
    fun dd tid sw ccs l s => hrec _ _ (by simp [TaskOk, hp])
  unfold children_step
  split
  · rfl
  · split
    · dsimp only []
      split
      · rw [hch]
      · split
        · rw [has]
          simp
        · split
          · rw [hdt]
            split
            · dsimp only []
              split
              · simp
              · split
                · rw [hchs]
                  simp
                · simp
            · simp
          · rw [hch, hnd]
    · rw [hch, hnd]

theorem aside_step_panicked {rec : DocumentData → Task → DocumentData}
    (hrec : ∀ dd t, TaskOk t → (rec dd t).panicked = dd.panicked) (dd : DocumentData)
    (cid : String) (p : Option String) (cs : List MdNode) (lt : Option String)
    (sn : Option Nat) (hp : p.isSome = true) :
    (aside_step rec dd cid p cs lt sn).panicked = dd.panicked := by
  have hch : ∀ dd ccs l s, (rec dd (.children p ccs l s)).panicked = dd.panicked :=
    fun dd ccs l s => hrec _ _ (by simp [TaskOk, hp])
  have hnd : ∀ dd c l s, (rec dd (.node c (some cid) none l s)).panicked = dd.panicked :=
    fun dd c l s => hrec _ _ (by simp [TaskOk])
  have has : ∀ dd ccs l s, (rec dd (.aside cid p ccs l s)).panicked = dd.panicked :=
    fun dd ccs l s => hrec _ _ (by simp [TaskOk, hp])
  unfold aside_step
  split
  · rfl
  · split
    · split
      · rw [hch]
      · rw [has, hnd]
    · rw [has, hnd]

theorem details_step_panicked {rec : DocumentData → Task → DocumentData}
    (parse : String → Option MdNode) (hrec : ∀ dd t, TaskOk t → (rec dd t).panicked = dd.panicked)
    (dd : DocumentData) (tid : String) (sw : Bool) (p : Option String) (cs : List MdNode)
    (lt : Option String) (sn : Option Nat) (hp : p.isSome = true) :
    (details_step rec parse dd tid sw p cs lt sn).panicked = dd.panicked := by
  have hch : ∀ dd ccs l s, (rec dd (.children p ccs l s)).panicked = dd.panicked :=
    fun dd ccs l s => hrec _ _ (by simp [TaskOk, hp])
  have hchs : ∀ dd ccs l s, (rec dd (.children (some tid) ccs l s)).panicked = dd.panicked :=
    fun dd ccs l s => hrec _ _ (by simp [TaskOk])
  have hnd : ∀ dd c l s, (rec dd (.node c (some tid) none l s)).panicked = dd.panicked :=
    fun dd c l s => hrec _ _ (by simp [TaskOk])
  have hdt : ∀ dd sw ccs l s, (rec dd (.details tid sw p ccs l s)).panicked = dd.panicked :=
    fun dd sw ccs l s => hrec _ _ (by simp [TaskOk, hp])
  unfold details_step
  split
  · rfl
  · split
    · dsimp only []
      split
      · rw [hch]
      · split
        · split
          · rw [hdt]
            split
            · simp
            · split
              · rw [hchs]
                simp
              · simp
          · rw [hdt]
        · rw [hdt, hnd]
    · rw [hdt, hnd]

theorem walk_panicked (parse : String → Option MdNode) :
    ∀ (fuel : Nat) (dd : DocumentData) (t : Task), TaskOk t →
      (walk parse fuel dd t).panicked = dd.panicked := by
  intro fuel
  induction fuel with
  | zero => intro dd t _; rfl
  | succ f ih =>
    intro dd t hok
    cases t with
    | node n p bid lt sn => exact node_step_panicked (fun dd t h => ih dd t h) dd n p bid lt sn hok
    | children p cs lt sn =>
      exact children_step_panicked parse (fun dd t h => ih dd t h) dd p cs lt sn hok
    | aside cid p cs lt sn =>
      exact aside_step_panicked (fun dd t h => ih dd t h) dd cid p cs lt sn hok
    | details tid sw p cs lt sn =>
      exact details_step_panicked parse (fun dd t h => ih dd t h) dd tid sw p cs lt sn hok

/-! ## Frame lemmas: the children map changes only at a call's own keys
and at freshly allocated identifiers -/

theorem FreshFree.mono {dd dd' : DocumentData} {k : String} (h : dd.gidx ≤ dd'.gidx)
    (hf : FreshFree dd k) : FreshFree dd' k :=
  fun j hj => hf j (le_trans h hj)

theorem freshFree_genName_lt {dd : DocumentData} {g0 : Nat} (h : g0 < dd.gidx) :
    FreshFree dd (genName g0) := by
  intro j hj heq
  have := genName_inj heq
  omega

theorem freshFree_of_gen {dd : DocumentData} : FreshFree { dd with gidx := dd.gidx + 1 } (genName dd.gidx) := by
  intro j hj heq
  have := genName_inj heq
  simp at hj
  omega

theorem columns_row_step_cm_frame {w : DocumentData → String → List MdNode → DocumentData}
    (hwG : ∀ dd pid ccs, dd.gidx ≤ (w dd pid ccs).gidx)
    (hwF : ∀ dd pid ccs k, k ≠ pid → FreshFree dd k →
      aget (w dd pid ccs).children_map k = aget dd.children_map k)
    (cid : String) (ci : Nat) (dd : DocumentData) (row : MdNode) (k : String)
    (hk : k ≠ cid) (hf : FreshFree dd k) :
    aget (columns_row_step w cid ci dd row).children_map k = aget dd.children_map k := by
  have hkg : k ≠ genName dd.gidx := hf dd.gidx (le_refl _)
  unfold columns_row_step
  split
  · split
    · split
      · rfl
      · dsimp only []
        simp only [create_paragraph_block_fst]
        rw [hwF _ _ _ _ hkg (FreshFree.mono (by simp) hf)]
        simp only [children_map_create_paragraph_block]
        rw [aget_aupd_ne _ _ _ _ _ hk, aget_aupd_ne _ _ _ _ _ hkg]
    · rfl
  · rfl

theorem columns_rows_loop_cm_frame {w : DocumentData → String → List MdNode → DocumentData}
    (hwG : ∀ dd pid ccs, dd.gidx ≤ (w dd pid ccs).gidx)
    (hwF : ∀ dd pid ccs k, k ≠ pid → FreshFree dd k →
      aget (w dd pid ccs).children_map k = aget dd.children_map k)
    (cid : String) (ci : Nat) :
    ∀ (rows : List MdNode) (dd : DocumentData) (k : String), k ≠ cid → FreshFree dd k →
      aget (columns_rows_loop w cid ci dd rows).children_map k = aget dd.children_map k := by
  intro rows
  induction rows with
  | nil => intro dd k _ _; rfl
  | cons row rest ih =>
    intro dd k hk hf
    rw [columns_rows_loop,
      ih _ _ hk (FreshFree.mono (columns_row_step_gidx hwG cid ci dd row) hf),
      columns_row_step_cm_frame hwG hwF cid ci dd row k hk hf]

theorem columns_col_step_cm_frame {w : DocumentData → String → List MdNode → DocumentData}
    (hwG : ∀ dd pid ccs, dd.gidx ≤ (w dd pid ccs).gidx)
    (hwF : ∀ dd pid ccs k, k ≠ pid → FreshFree dd k →
      aget (w dd pid ccs).children_map k = aget dd.children_map k)
    (cid : String) (body_rows : List MdNode) (ci : Nat) (dd : DocumentData) (k : String)
    (hk : k ≠ cid) (hf : FreshFree dd k) :
    aget (columns_col_step w cid body_rows ci dd).children_map k = aget dd.children_map k := by
  have hkg : k ≠ genName dd.gidx := hf dd.gidx (le_refl _)
  unfold columns_col_step
  dsimp only []
  simp only [generate_id_fst]
  rw [columns_rows_loop_cm_frame hwG hwF _ _ _ _ _ hkg
    (FreshFree.mono (by simp) hf)]
  simp only [children_map_update_children_map_some, children_map_ensure,
    children_map_insert_block, children_map_generate_id]
  rw [aget_aupd_ne _ _ _ _ _ hk, aget_aupd_ne _ _ _ _ _ hkg]

theorem columns_cols_loop_cm_frame {w : DocumentData → String → List MdNode → DocumentData}
    (hwG : ∀ dd pid ccs, dd.gidx ≤ (w dd pid ccs).gidx)
    (hwF : ∀ dd pid ccs k, k ≠ pid → FreshFree dd k →
      aget (w dd pid ccs).children_map k = aget dd.children_map k)
    (cid : String) (body_rows : List MdNode) :
    ∀ (remaining ci : Nat) (dd : DocumentData) (k : String), k ≠ cid → FreshFree dd k →
      aget (columns_cols_loop w cid body_rows dd ci remaining).children_map k =
        aget dd.children_map k := by
  intro remaining
  induction remaining with
  | zero => intro ci dd k _ _; rfl
  | succ r ih =>
    intro ci dd k hk hf
    rw [columns_cols_loop,
      ih _ _ _ hk (FreshFree.mono (columns_col_step_gidx hwG cid body_rows ci dd) hf),
      columns_col_step_cm_frame hwG hwF cid body_rows ci dd k hk hf]

theorem row_cell_step_cm_frame {w : DocumentData → String → List MdNode → DocumentData}
    (hwG : ∀ dd pid ccs, dd.gidx ≤ (w dd pid ccs).gidx)
    (hwF : ∀ dd pid ccs k, k ≠ pid → FreshFree dd k →
      aget (w dd pid ccs).children_map k = aget dd.children_map k)
    (rid : String) (ri : Nat) (align : List AlignKind) (ci : Nat) (dd : DocumentData)
    (cell : MdNode) (k : String) (hk : k ≠ rid) (hf : FreshFree dd k) :
    aget (row_cell_step w rid ri align ci dd cell).children_map k = aget dd.children_map k := by
  have hkg : k ≠ genName dd.gidx := hf dd.gidx (le_refl _)
  have hkg1 : k ≠ genName (dd.gidx + 1) := hf (dd.gidx + 1) (by omega)
  unfold row_cell_step
  split
  · dsimp only []
    simp only [create_paragraph_block_fst, gidx_update_children_map, gidx_ensure,
      gidx_insert_block, gidx_generate_id, generate_id_fst]
    rw [hwF _ _ _ _ hkg1 (FreshFree.mono (by simp; omega) hf)]
    simp only [children_map_create_paragraph_block, children_map_update_children_map_some,
      children_map_ensure, children_map_insert_block, children_map_generate_id,
      gidx_update_children_map, gidx_ensure, gidx_insert_block, gidx_generate_id,
      generate_id_fst]
    rw [aget_aupd_ne _ _ _ _ _ hkg, aget_aupd_ne _ _ _ _ _ hkg1,
      aget_aupd_ne _ _ _ _ _ hk, aget_aupd_ne _ _ _ _ _ hkg]
  · rfl

theorem row_cells_loop_cm_frame {w : DocumentData → String → List MdNode → DocumentData}
    (hwG : ∀ dd pid ccs, dd.gidx ≤ (w dd pid ccs).gidx)
    (hwF : ∀ dd pid ccs k, k ≠ pid → FreshFree dd k →
      aget (w dd pid ccs).children_map k = aget dd.children_map k)
    (rid : String) (ri : Nat) (align : List AlignKind) :
    ∀ (cells : List MdNode) (dd : DocumentData) (ci : Nat) (k : String), k ≠ rid →
      FreshFree dd k →
      aget (row_cells_loop w rid ri align dd cells ci).children_map k =
        aget dd.children_map k := by
  intro cells
  induction cells with
  | nil => intro dd ci k _ _; rfl
  | cons cell rest ih =>
    intro dd ci k hk hf
    rw [row_cells_loop,
      ih _ _ _ hk (FreshFree.mono (row_cell_step_gidx hwG rid ri align ci dd cell) hf),
      row_cell_step_cm_frame hwG hwF rid ri align ci dd cell k hk hf]

theorem table_row_step_cm_frame {w : DocumentData → String → List MdNode → DocumentData}
    (hwG : ∀ dd pid ccs, dd.gidx ≤ (w dd pid ccs).gidx)
    (hwF : ∀ dd pid ccs k, k ≠ pid → FreshFree dd k →
      aget (w dd pid ccs).children_map k = aget dd.children_map k)
    (tid : String) (align : List AlignKind) (ri : Nat) (dd : DocumentData) (row : MdNode)
    (k : String) (hk : k ≠ tid) (hf : FreshFree dd k) :
    aget (table_row_step w tid align ri dd row).children_map k = aget dd.children_map k := by
  have hkg : k ≠ genName dd.gidx := hf dd.gidx (le_refl _)
  unfold table_row_step
  split
  · dsimp only []
    simp only [generate_id_fst]
    rw [row_cells_loop_cm_frame hwG hwF _ _ _ _ _ _ _ hkg (FreshFree.mono (by simp) hf)]
    simp only [children_map_update_children_map_some, children_map_ensure,
      children_map_insert_block, children_map_generate_id]
    rw [aget_aupd_ne _ _ _ _ _ hk, aget_aupd_ne _ _ _ _ _ hkg]
  · rfl

theorem table_rows_loop_cm_frame {w : DocumentData → String → List MdNode → DocumentData}
    (hwG : ∀ dd pid ccs, dd.gidx ≤ (w dd pid ccs).gidx)
    (hwF : ∀ dd pid ccs k, k ≠ pid → FreshFree dd k →
      aget (w dd pid ccs).children_map k = aget dd.children_map k)
    (tid : String) (align : List AlignKind) :
    ∀ (rows : List MdNode) (dd : DocumentData) (ri : Nat) (k : String), k ≠ tid →
      FreshFree dd k →
      aget (table_rows_loop w tid align dd rows ri).children_map k =
        aget dd.children_map k := by
  intro rows
  induction rows with
  | nil => intro dd ri k _ _; rfl
  | cons row rest ih =>
    intro dd ri k hk hf
    rw [table_rows_loop,
      ih _ _ _ hk (FreshFree.mono (table_row_step_gidx hwG tid align ri dd row) hf),
      table_row_step_cm_frame hwG hwF tid align ri dd row k hk hf]

theorem columns_rewrite_cm_frame {rec : DocumentData → Task → DocumentData}
    (hG : ∀ dd t, dd.gidx ≤ (rec dd t).gidx)
    (hF : ∀ dd t k, (∀ q ∈ touchedKeys t, k ≠ q) → FreshFree dd k →
      aget (rec dd t).children_map k = aget dd.children_map k)
    (dd : DocumentData) (id : String) (p : Option String) (col_count : Nat)
    (body_rows : List MdNode) (k : String) (hkid : k ≠ id)
    (hkp : ∀ q, p = some q → k ≠ q) (hf : FreshFree dd k) :
    aget (columns_rewrite rec dd id p col_count body_rows).children_map k =
      aget dd.children_map k := by
  have hwG : ∀ dd pid ccs, dd.gidx ≤ (rec dd (.children (some pid) ccs none none)).gidx :=
    fun dd pid ccs => hG _ _
  have hwF : ∀ dd pid ccs k, k ≠ pid → FreshFree dd k →
      aget (rec dd (.children (some pid) ccs none none)).children_map k =
        aget dd.children_map k :=
    fun dd pid ccs k hk hf => hF _ _ _ (by simpa [touchedKeys] using hk) hf
  unfold columns_rewrite
  dsimp only []
  rw [columns_cols_loop_cm_frame hwG hwF _ _ _ _ _ _ hkid (FreshFree.mono (by simp) hf)]
  cases p with
  | none =>
    simp only [update_children_map_none, children_map_ensure, children_map_insert_block]
    rw [aget_aupd_ne _ _ _ _ _ hkid]
  | some q =>
    simp only [children_map_update_children_map_some, children_map_ensure,
      children_map_insert_block]
    rw [aget_aupd_ne _ _ _ _ _ (hkp q rfl), aget_aupd_ne _ _ _ _ _ hkid]

theorem default_node_step_cm_frame {rec : DocumentData → Task → DocumentData}
    (hG : ∀ dd t, dd.gidx ≤ (rec dd t).gidx)
    (hF : ∀ dd t k, (∀ q ∈ touchedKeys t, k ≠ q) → FreshFree dd k →
      aget (rec dd t).children_map k = aget dd.children_map k)
    (dd : DocumentData) (n : MdNode) (p : Option String) (id : String) (lt : Option String)
    (sn : Option Nat) (k : String) (hkid : k ≠ id) (hkp : ∀ q, p = some q → k ≠ q)
    (hf : FreshFree dd k) :
    aget (default_node_step rec dd n p id lt sn).children_map k = aget dd.children_map k := by
  have hwG : ∀ dd pid ccs, dd.gidx ≤ (rec dd (.children (some pid) ccs none none)).gidx :=
    fun dd pid ccs => hG _ _
  have hwF : ∀ dd pid ccs k, k ≠ pid → FreshFree dd k →
      aget (rec dd (.children (some pid) ccs none none)).children_map k =
        aget dd.children_map k :=
    fun dd pid ccs k hk hf => hF _ _ _ (by simpa [touchedKeys] using hk) hf
  have hpre : aget (update_children_map (ensure_children_map_entry
      (insert_block dd id (create_block id n p lt sn)) id) p id).children_map k =
      aget dd.children_map k := by
    cases p with
    | none =>
      simp only [update_children_map_none, children_map_ensure, children_map_insert_block]
      rw [aget_aupd_ne _ _ _ _ _ hkid]
    | some q =>
      simp only [children_map_update_children_map_some, children_map_ensure,
        children_map_insert_block]
      rw [aget_aupd_ne _ _ _ _ _ (hkp q rfl), aget_aupd_ne _ _ _ _ _ hkid]
  have hch : ∀ ccs l s, aget (rec (update_children_map (ensure_children_map_entry
      (insert_block dd id (create_block id n p lt sn)) id) p id)
        (.children (some id) ccs l s)).children_map k = aget dd.children_map k := by
    intro ccs l s
    rw [hF _ _ _ (by simpa [touchedKeys] using hkid) (FreshFree.mono (by simp) hf), hpre]
  unfold default_node_step
  dsimp only []
  split
  · exact hch _ _ _
  · exact hch _ _ _
  · exact hch _ _ _
  · split
    · exact hpre
    · split
      · rw [hF _ _ _ (by simpa [touchedKeys] using hkid)
          (FreshFree.mono (le_trans (le_of_eq (by simp)) (hG _ _)) hf)]
        exact hch _ _ _
      · exact hch _ _ _
  · split
    · exact hpre
    · split
      · rw [hF _ _ _ (by simpa [touchedKeys] using hkid)
          (FreshFree.mono (le_trans (le_of_eq (by simp)) (hG _ _)) hf)]
        exact hch _ _ _
      · exact hch _ _ _
  · simpa using hpre
  · rw [table_rows_loop_cm_frame hwG hwF _ _ _ _ _ _ hkid (FreshFree.mono (by simp) hf)]
    exact hpre
  · simpa using hpre
  · simpa using hpre

theorem node_step_cm_frame {rec : DocumentData → Task → DocumentData}
    (hG : ∀ dd t, dd.gidx ≤ (rec dd t).gidx)
    (hF : ∀ dd t k, (∀ q ∈ touchedKeys t, k ≠ q) → FreshFree dd k →
      aget (rec dd t).children_map k = aget dd.children_map k)
    (dd : DocumentData) (n : MdNode) (p bid lt : Option String) (sn : Option Nat) (k : String)
    (hkp : ∀ q, p = some q → k ≠ q) (hkb : ∀ q, bid = some q → k ≠ q) (hf : FreshFree dd k) :
    aget (node_step rec dd n p bid lt sn).children_map k = aget dd.children_map k := by
  have hkid : k ≠ (match bid with | some b => (b, dd) | none => generate_id dd).1 := by
    cases bid with
    | some b => exact hkb b rfl
    | none => exact hf dd.gidx (le_refl _)
  have hfi : FreshFree (match bid with | some b => (b, dd) | none => generate_id dd).2 k := by
    cases bid with
    | some b => exact hf
    | none => exact FreshFree.mono (by simp) hf
  unfold node_step
  split
  · simp
  · split
    · rfl
    · split
      · rw [hF _ _ _ (by intro q hq; simp [touchedKeys] at hq; exact hkp q (by simp [hq])) hf]
      · split
        · rename_i url q heq
          have hq : p = some q := by
            unfold imageRedirect at heq
            split at heq
            · simp_all
            · simp_all
            · simp_all
          rw [process_image_eq]
          dsimp only []
          rw [aget_aupd_ne _ _ _ _ _ (hkp q hq), aget_aupd_ne _ _ _ _ _ (hf dd.gidx (le_refl _))]
        · dsimp only []
          split
          · exact (columns_rewrite_cm_frame hG hF _ _ _ _ _ _ hkid hkp hfi).trans
              (by cases bid <;> rfl)
          · exact (default_node_step_cm_frame hG hF _ _ _ _ _ _ _ hkid hkp hfi).trans
              (by cases bid <;> rfl)

theorem children_step_cm_frame {rec : DocumentData → Task → DocumentData}
    (parse : String → Option MdNode) (hG : ∀ dd t, dd.gidx ≤ (rec dd t).gidx)
    (hF : ∀ dd t k, (∀ q ∈ touchedKeys t, k ≠ q) → FreshFree dd k →
      aget (rec dd t).children_map k = aget dd.children_map k)
    (dd : DocumentData) (p : Option String) (cs : List MdNode) (lt : Option String)
    (sn : Option Nat) (k : String) (hkp : ∀ q, p = some q → k ≠ q) (hf : FreshFree dd k) :
    aget (children_step rec parse dd p cs lt sn).children_map k = aget dd.children_map k := by
  have hkg : k ≠ genName dd.gidx := hf dd.gidx (le_refl _)
  have hch : ∀ dd', dd.gidx ≤ dd'.gidx → ∀ ccs l s,
      aget (rec dd' (.children p ccs l s)).children_map k = aget dd'.children_map k :=
    fun dd' hg ccs l s =>
      hF _ _ _ (by intro q hq; simp [touchedKeys] at hq; exact hkp q (by simp [hq]))
        (FreshFree.mono hg hf)
  -- the state right after a callout or toggle block is registered keeps k's entry
  have hreg : ∀ (b : Block),
      aget (update_children_map (insert_block (generate_id dd).2 (genName dd.gidx) b) p
        (genName dd.gidx)).children_map k = aget dd.children_map k := by
    intro b
    cases p with
    | none => simp
    | some q =>
      simp only [children_map_update_children_map_some, children_map_insert_block,
        children_map_generate_id]
      rw [aget_aupd_ne _ _ _ _ _ (hkp q rfl)]
  unfold children_step
  split
  · rfl
  · split
    · dsimp only []
      split
      · exact hch dd (le_refl _) _ _ _
      · split
        · rw [hF _ _ _ (by
              intro q hq
              simp [touchedKeys] at hq
              rcases hq with hq | hq
              · simp [hq, hkg]
              · exact hkp q (by simp [hq]))
            (FreshFree.mono (by simp) hf)]
          simp only [children_map_insert_markdown, generate_id_fst]
          exact hreg _
        · split
          · rw [hF _ _ _ (by
                intro q hq
                simp [touchedKeys] at hq
                rcases hq with hq | hq
                · simp [hq, hkg]
                · exact hkp q (by simp [hq]))
              (by
                refine FreshFree.mono ?_ hf
                split
                · dsimp only []
                  split
                  · simp only [gidx_insert_markdown, gidx_update_children_map,
                      gidx_insert_block, gidx_generate_id]
                    omega
                  · split
                    · refine le_trans ?_ (hG _ _)
                      simp only [gidx_insert_markdown, gidx_update_children_map,
                        gidx_insert_block, gidx_generate_id]
                      omega
                    · simp only [gidx_insert_markdown, gidx_update_children_map,
                        gidx_insert_block, gidx_generate_id]
                      omega
                · simp)]
            split
            · dsimp only []
              split
              · simp only [children_map_insert_markdown, generate_id_fst]
                exact hreg _
              · split
                · rw [hF _ _ _ (by
                      intro q hq
                      simp [touchedKeys] at hq
                      simp [hq, hkg])
                    (FreshFree.mono (by simp) hf)]
                  simp only [children_map_insert_markdown, generate_id_fst]
                  exact hreg _
                · simp only [children_map_insert_markdown, generate_id_fst]
                  exact hreg _
            · simp only [generate_id_fst]
              exact hreg _
          · rw [hch _ (hG _ _) _ _ _,
              hF _ _ _ (by intro q hq; simp [touchedKeys] at hq; exact hkp q (by simp [hq])) hf]
    · rw [hch _ (hG _ _) _ _ _,
        hF _ _ _ (by intro q hq; simp [touchedKeys] at hq; exact hkp q (by simp [hq])) hf]

theorem aside_step_cm_frame {rec : DocumentData → Task → DocumentData}
    (hG : ∀ dd t, dd.gidx ≤ (rec dd t).gidx)
    (hF : ∀ dd t k, (∀ q ∈ touchedKeys t, k ≠ q) → FreshFree dd k →
      aget (rec dd t).children_map k = aget dd.children_map k)
    (dd : DocumentData) (cid : String) (p : Option String) (cs : List MdNode)
    (lt : Option String) (sn : Option Nat) (k : String) (hkc : k ≠ cid)
    (hkp : ∀ q, p = some q → k ≠ q) (hf : FreshFree dd k) :
    aget (aside_step rec dd cid p cs lt sn).children_map k = aget dd.children_map k := by
  have hnd : ∀ dd' c l s, FreshFree dd' k →
      aget (rec dd' (.node c (some cid) none l s)).children_map k =
        aget dd'.children_map k :=
    fun dd' c l s hf' =>
      hF _ _ _ (by intro q hq; simp [touchedKeys] at hq; simp [hq, hkc]) hf'
  unfold aside_step
  split
  · rfl
  · split
    · split
      · exact hF _ _ _
          (by intro q hq; simp [touchedKeys] at hq; exact hkp q (by simp [hq])) hf
      · rw [hF _ _ _ (by
            intro q hq
            simp [touchedKeys] at hq
            rcases hq with hq | hq
            · simp [hq, hkc]
            · exact hkp q (by simp [hq]))
          (FreshFree.mono (hG _ _) hf), hnd _ _ _ _ hf]
    · rw [hF _ _ _ (by
          intro q hq
          simp [touchedKeys] at hq
          rcases hq with hq | hq
          · simp [hq, hkc]
          · exact hkp q (by simp [hq]))
        (FreshFree.mono (hG _ _) hf), hnd _ _ _ _ hf]

theorem details_step_cm_frame {rec : DocumentData → Task → DocumentData}
    (parse : String → Option MdNode) (hG : ∀ dd t, dd.gidx ≤ (rec dd t).gidx)
    (hF : ∀ dd t k, (∀ q ∈ touchedKeys t, k ≠ q) → FreshFree dd k →
      aget (rec dd t).children_map k = aget dd.children_map k)
    (dd : DocumentData) (tid : String) (sw : Bool) (p : Option String) (cs : List MdNode)
    (lt : Option String) (sn : Option Nat) (k : String) (hkt : k ≠ tid)
    (hkp : ∀ q, p = some q → k ≠ q) (hf : FreshFree dd k) :
    aget (details_step rec parse dd tid sw p cs lt sn).children_map k =
      aget dd.children_map k := by
  have hdt : ∀ dd' sw' ccs l s, FreshFree dd' k →
      aget (rec dd' (.details tid sw' p ccs l s)).children_map k =
        aget dd'.children_map k :=
    fun dd' sw' ccs l s hf' =>
      hF _ _ _ (by
        intro q hq
        simp [touchedKeys] at hq
        rcases hq with hq | hq
        · simp [hq, hkt]
        · exact hkp q (by simp [hq])) hf'
  have hnd : ∀ dd' c l s, FreshFree dd' k →
      aget (rec dd' (.node c (some tid) none l s)).children_map k =
        aget dd'.children_map k :=
    fun dd' c l s hf' =>
      hF _ _ _ (by intro q hq; simp [touchedKeys] at hq; simp [hq, hkt]) hf'
  have hcht : ∀ dd' ccs l s, FreshFree dd' k →
      aget (rec dd' (.children (some tid) ccs l s)).children_map k =
        aget dd'.children_map k :=
    fun dd' ccs l s hf' =>
      hF _ _ _ (by intro q hq; simp [touchedKeys] at hq; simp [hq, hkt]) hf'
  unfold details_step
  split
  · rfl
  · split
    · dsimp only []
      split
      · exact hF _ _ _
          (by intro q hq; simp [touchedKeys] at hq; exact hkp q (by simp [hq])) hf
      · split
        · split
          · rw [hdt _ _ _ _ _ (by
              refine FreshFree.mono ?_ hf
              split
              · simp
              · split
                · exact le_trans (by simp) (hG _ _)
                · simp)]
            split
            · simp
            · split
              · rw [hcht _ _ _ _ (FreshFree.mono (by simp) hf)]
                simp
              · simp
          · exact hdt _ _ _ _ _ hf
        · rw [hdt _ _ _ _ _ (FreshFree.mono (hG _ _) hf), hnd _ _ _ _ hf]
    · rw [hdt _ _ _ _ _ (FreshFree.mono (hG _ _) hf), hnd _ _ _ _ hf]

theorem walk_cm_frame (parse : String → Option MdNode) :
    ∀ (fuel : Nat) (dd : DocumentData) (t : Task) (k : String),
      (∀ q ∈ touchedKeys t, k ≠ q) → FreshFree dd k →
      aget (walk parse fuel dd t).children_map k = aget dd.children_map k := by
  intro fuel
  induction fuel with
  | zero => intro dd t k _ _; rfl
  | succ f ih =>
    have hG := walk_gidx parse f
    intro dd t k hk hf
    cases t with
    | node n p bid lt sn =>
      refine node_step_cm_frame (fun dd t => hG dd t) (fun dd t k h hf => ih dd t k h hf)
        dd n p bid lt sn k ?_ ?_ hf
      · intro q hq; exact hk q (by simp [touchedKeys, hq])
      · intro q hq; exact hk q (by simp [touchedKeys, hq])
    | children p cs lt sn =>
      refine children_step_cm_frame parse (fun dd t => hG dd t)
        (fun dd t k h hf => ih dd t k h hf) dd p cs lt sn k ?_ hf
      intro q hq; exact hk q (by simp [touchedKeys, hq])
    | aside cid p cs lt sn =>
      refine aside_step_cm_frame (fun dd t => hG dd t) (fun dd t k h hf => ih dd t k h hf)
        dd cid p cs lt sn k ?_ ?_ hf
      · exact hk cid (by simp [touchedKeys])
      · intro q hq; exact hk q (by simp [touchedKeys, hq])
    | details tid sw p cs lt sn =>
      refine details_step_cm_frame parse (fun dd t => hG dd t)
        (fun dd t k h hf => ih dd t k h hf) dd tid sw p cs lt sn k ?_ ?_ hf
      · exact hk tid (by simp [touchedKeys])
      · intro q hq; exact hk q (by simp [touchedKeys, hq])

/-! ## Frame lemmas: the block table changes only at the preassigned id and
at freshly allocated identifiers -/

theorem columns_row_step_blocks_frame {w : DocumentData → String → List MdNode → DocumentData}
    (hwG : ∀ dd pid ccs, dd.gidx ≤ (w dd pid ccs).gidx)
    (hwB : ∀ dd pid ccs k, FreshFree dd k →
      aget (w dd pid ccs).blocks k = aget dd.blocks k)
    (cid : String) (ci : Nat) (dd : DocumentData) (row : MdNode) (k : String)
    (hf : FreshFree dd k) :
    aget (columns_row_step w cid ci dd row).blocks k = aget dd.blocks k := by
  have hkg : k ≠ genName dd.gidx := hf dd.gidx (le_refl _)
  unfold columns_row_step
  split
  · split
    · split
      · rfl
      · dsimp only []
        rw [hwB _ _ _ _ (FreshFree.mono (by simp) hf)]
        simp only [blocks_create_paragraph_block]
        rw [aget_ains_ne _ _ _ _ hkg]
    · rfl
  · rfl

theorem columns_rows_loop_blocks_frame {w : DocumentData → String → List MdNode → DocumentData}
    (hwG : ∀ dd pid ccs, dd.gidx ≤ (w dd pid ccs).gidx)
    (hwB : ∀ dd pid ccs k, FreshFree dd k →
      aget (w dd pid ccs).blocks k = aget dd.blocks k)
    (cid : String) (ci : Nat) :
    ∀ (rows : List MdNode) (dd : DocumentData) (k : String), FreshFree dd k →
      aget (columns_rows_loop w cid ci dd rows).blocks k = aget dd.blocks k := by
  intro rows
  induction rows with
  | nil => intro dd k _; rfl
  | cons row rest ih =>
    intro dd k hf
    rw [columns_rows_loop,
      ih _ _ (FreshFree.mono (columns_row_step_gidx hwG cid ci dd row) hf),
      columns_row_step_blocks_frame hwG hwB cid ci dd row k hf]

theorem columns_col_step_blocks_frame {w : DocumentData → String → List MdNode → DocumentData}
    (hwG : ∀ dd pid ccs, dd.gidx ≤ (w dd pid ccs).gidx)
    (hwB : ∀ dd pid ccs k, FreshFree dd k →
      aget (w dd pid ccs).blocks k = aget dd.blocks k)
    (cid : String) (body_rows : List MdNode) (ci : Nat) (dd : DocumentData) (k : String)
    (hf : FreshFree dd k) :
    aget (columns_col_step w cid body_rows ci dd).blocks k = aget dd.blocks k := by
  have hkg : k ≠ genName dd.gidx := hf dd.gidx (le_refl _)
  unfold columns_col_step
  dsimp only []
  simp only [generate_id_fst]
  rw [columns_rows_loop_blocks_frame hwG hwB _ _ _ _ _ (FreshFree.mono (by simp) hf)]
  simp only [blocks_update_children_map, blocks_ensure, blocks_insert_block, blocks_generate_id]
  rw [aget_ains_ne _ _ _ _ hkg]

theorem columns_cols_loop_blocks_frame {w : DocumentData → String → List MdNode → DocumentData}
    (hwG : ∀ dd pid ccs, dd.gidx ≤ (w dd pid ccs).gidx)
    (hwB : ∀ dd pid ccs k, FreshFree dd k →
      aget (w dd pid ccs).blocks k = aget dd.blocks k)
    (cid : String) (body_rows : List MdNode) :
    ∀ (remaining ci : Nat) (dd : DocumentData) (k : String), FreshFree dd k →
      aget (columns_cols_loop w cid body_rows dd ci remaining).blocks k = aget dd.blocks k := by
  intro remaining
  induction remaining with
  | zero => intro ci dd k _; rfl
  | succ r ih =>
    intro ci dd k hf
    rw [columns_cols_loop,
      ih _ _ _ (FreshFree.mono (columns_col_step_gidx hwG cid body_rows ci dd) hf),
      columns_col_step_blocks_frame hwG hwB cid body_rows ci dd k hf]

theorem row_cell_step_blocks_frame {w : DocumentData → String → List MdNode → DocumentData}
    (hwG : ∀ dd pid ccs, dd.gidx ≤ (w dd pid ccs).gidx)
    (hwB : ∀ dd pid ccs k, FreshFree dd k →
      aget (w dd pid ccs).blocks k = aget dd.blocks k)
    (rid : String) (ri : Nat) (align : List AlignKind) (ci : Nat) (dd : DocumentData)
    (cell : MdNode) (k : String) (hf : FreshFree dd k) :
    aget (row_cell_step w rid ri align ci dd cell).blocks k = aget dd.blocks k := by
  have hkg : k ≠ genName dd.gidx := hf dd.gidx (le_refl _)
  have hkg1 : k ≠ genName (dd.gidx + 1) := hf (dd.gidx + 1) (by omega)
  unfold row_cell_step
  split
  · dsimp only []
    simp only [create_paragraph_block_fst, gidx_update_children_map, gidx_ensure,
      gidx_insert_block, gidx_generate_id, generate_id_fst]
    rw [hwB _ _ _ _ (FreshFree.mono (by simp; omega) hf)]
    simp only [blocks_create_paragraph_block, blocks_update_children_map, blocks_ensure,
      blocks_insert_block, blocks_generate_id, gidx_update_children_map, gidx_ensure,
      gidx_insert_block, gidx_generate_id]
    rw [aget_ains_ne _ _ _ _ hkg1, aget_ains_ne _ _ _ _ hkg]
  · rfl

theorem row_cells_loop_blocks_frame {w : DocumentData → String → List MdNode → DocumentData}
    (hwG : ∀ dd pid ccs, dd.gidx ≤ (w dd pid ccs).gidx)
    (hwB : ∀ dd pid ccs k, FreshFree dd k →
      aget (w dd pid ccs).blocks k = aget dd.blocks k)
    (rid : String) (ri : Nat) (align : List AlignKind) :
    ∀ (cells : List MdNode) (dd : DocumentData) (ci : Nat) (k : String), FreshFree dd k →
      aget (row_cells_loop w rid ri align dd cells ci).blocks k = aget dd.blocks k := by
  intro cells
  induction cells with
  | nil => intro dd ci k _; rfl
  | cons cell rest ih =>
    intro dd ci k hf
    rw [row_cells_loop,
      ih _ _ _ (FreshFree.mono (row_cell_step_gidx hwG rid ri align ci dd cell) hf),
      row_cell_step_blocks_frame hwG hwB rid ri align ci dd cell k hf]

theorem table_row_step_blocks_frame {w : DocumentData → String → List MdNode → DocumentData}
    (hwG : ∀ dd pid ccs, dd.gidx ≤ (w dd pid ccs).gidx)
    (hwB : ∀ dd pid ccs k, FreshFree dd k →
      aget (w dd pid ccs).blocks k = aget dd.blocks k)
    (tid : String) (align : List AlignKind) (ri : Nat) (dd : DocumentData) (row : MdNode)
    (k : String) (hf : FreshFree dd k) :
    aget (table_row_step w tid align ri dd row).blocks k = aget dd.blocks k := by
  have hkg : k ≠ genName dd.gidx := hf dd.gidx (le_refl _)
  unfold table_row_step
  split
  · dsimp only []
    simp only [generate_id_fst]
    rw [row_cells_loop_blocks_frame hwG hwB _ _ _ _ _ _ _ (FreshFree.mono (by simp) hf)]
    simp only [blocks_update_children_map, blocks_ensure, blocks_insert_block,
      blocks_generate_id]
    rw [aget_ains_ne _ _ _ _ hkg]
  · rfl

theorem table_rows_loop_blocks_frame {w : DocumentData → String → List MdNode → DocumentData}
    (hwG : ∀ dd pid ccs, dd.gidx ≤ (w dd pid ccs).gidx)
    (hwB : ∀ dd pid ccs k, FreshFree dd k →
      aget (w dd pid ccs).blocks k = aget dd.blocks k)
    (tid : String) (align : List AlignKind) :
    ∀ (rows : List MdNode) (dd : DocumentData) (ri : Nat) (k : String), FreshFree dd k →
      aget (table_rows_loop w tid align dd rows ri).blocks k = aget dd.blocks k := by
  intro rows
  induction rows with
  | nil => intro dd ri k _; rfl
  | cons row rest ih =>
    intro dd ri k hf
    rw [table_rows_loop,
      ih _ _ _ (FreshFree.mono (table_row_step_gidx hwG tid align ri dd row) hf),
      table_row_step_blocks_frame hwG hwB tid align ri dd row k hf]

theorem columns_rewrite_blocks_frame {rec : DocumentData → Task → DocumentData}
    (hG : ∀ dd t, dd.gidx ≤ (rec dd t).gidx)
    (hB : ∀ dd t k, (∀ q ∈ touchedBlockKeys t, k ≠ q) → FreshFree dd k →
      aget (rec dd t).blocks k = aget dd.blocks k)
    (dd : DocumentData) (id : String) (p : Option String) (col_count : Nat)
    (body_rows : List MdNode) (k : String) (hkid : k ≠ id) (hf : FreshFree dd k) :
    aget (columns_rewrite rec dd id p col_count body_rows).blocks k = aget dd.blocks k := by
  have hwG : ∀ dd pid ccs, dd.gidx ≤ (rec dd (.children (some pid) ccs none none)).gidx :=
    fun dd pid ccs => hG _ _
  have hwB : ∀ dd pid ccs k, FreshFree dd k →
      aget (rec dd (.children (some pid) ccs none none)).blocks k = aget dd.blocks k :=
    fun dd pid ccs k hf => hB _ _ _ (by simp [touchedBlockKeys]) hf
  unfold columns_rewrite
  dsimp only []
  rw [columns_cols_loop_blocks_frame hwG hwB _ _ _ _ _ _ (FreshFree.mono (by simp) hf)]
  simp only [blocks_update_children_map, blocks_ensure, blocks_insert_block]
  rw [aget_ains_ne _ _ _ _ hkid]

theorem default_node_step_blocks_frame {rec : DocumentData → Task → DocumentData}
    (hG : ∀ dd t, dd.gidx ≤ (rec dd t).gidx)
    (hB : ∀ dd t k, (∀ q ∈ touchedBlockKeys t, k ≠ q) → FreshFree dd k →
      aget (rec dd t).blocks k = aget dd.blocks k)
    (dd : DocumentData) (n : MdNode) (p : Option String) (id : String) (lt : Option String)
    (sn : Option Nat) (k : String) (hkid : k ≠ id) (hf : FreshFree dd k) :
    aget (default_node_step rec dd n p id lt sn).blocks k = aget dd.blocks k := by
  have hwG : ∀ dd pid ccs, dd.gidx ≤ (rec dd (.children (some pid) ccs none none)).gidx :=
    fun dd pid ccs => hG _ _
  have hwB : ∀ dd pid ccs k, FreshFree dd k →
      aget (rec dd (.children (some pid) ccs none none)).blocks k = aget dd.blocks k :=
    fun dd pid ccs k hf => hB _ _ _ (by simp [touchedBlockKeys]) hf
  have hpre : aget (update_children_map (ensure_children_map_entry
      (insert_block dd id (create_block id n p lt sn)) id) p id).blocks k =
      aget dd.blocks k := by
    simp only [blocks_update_children_map, blocks_ensure, blocks_insert_block]
    rw [aget_ains_ne _ _ _ _ hkid]
  have hch : ∀ ccs l s, aget (rec (update_children_map (ensure_children_map_entry
      (insert_block dd id (create_block id n p lt sn)) id) p id)
        (.children (some id) ccs l s)).blocks k = aget dd.blocks k := by
    intro ccs l s
    rw [hB _ _ _ (by simp [touchedBlockKeys]) (FreshFree.mono (by simp) hf), hpre]
  unfold default_node_step
  dsimp only []
  split
  · exact hch _ _ _
  · exact hch _ _ _
  · exact hch _ _ _
  · split
    · exact hpre
    · split
      · rw [hB _ _ _ (by simp [touchedBlockKeys])
          (FreshFree.mono (le_trans (le_of_eq (by simp)) (hG _ _)) hf)]
        exact hch _ _ _
      · exact hch _ _ _
  · split
    · exact hpre
    · split
      · rw [hB _ _ _ (by simp [touchedBlockKeys])
          (FreshFree.mono (le_trans (le_of_eq (by simp)) (hG _ _)) hf)]
        exact hch _ _ _
      · exact hch _ _ _
  · simpa using hpre
  · rw [table_rows_loop_blocks_frame hwG hwB _ _ _ _ _ _ (FreshFree.mono (by simp) hf)]
    exact hpre
  · simpa using hpre
  · simpa using hpre

theorem node_step_blocks_frame {rec : DocumentData → Task → DocumentData}
    (hG : ∀ dd t, dd.gidx ≤ (rec dd t).gidx)
    (hB : ∀ dd t k, (∀ q ∈ touchedBlockKeys t, k ≠ q) → FreshFree dd k →
      aget (rec dd t).blocks k = aget dd.blocks k)
    (dd : DocumentData) (n : MdNode) (p bid lt : Option String) (sn : Option Nat) (k : String)
    (hkb : ∀ q, bid = some q → k ≠ q) (hf : FreshFree dd k) :
    aget (node_step rec dd n p bid lt sn).blocks k = aget dd.blocks k := by
  have hkid : k ≠ (match bid with | some b => (b, dd) | none => generate_id dd).1 := by
    cases bid with
    | some b => exact hkb b rfl
    | none => exact hf dd.gidx (le_refl _)
  have hfi : FreshFree (match bid with | some b => (b, dd) | none => generate_id dd).2 k := by
    cases bid with
    | some b => exact hf
    | none => exact FreshFree.mono (by simp) hf
  unfold node_step
  split
  · simp
  · split
    · rfl
    · split
      · rw [hB _ _ _ (by simp [touchedBlockKeys]) hf]
      · split
        · rw [process_image_eq]
          dsimp only []
          rw [aget_ains_ne _ _ _ _ (hf dd.gidx (le_refl _))]
        · dsimp only []
          split
          · exact (columns_rewrite_blocks_frame hG hB _ _ _ _ _ _ hkid hfi).trans
              (by cases bid <;> rfl)
          · exact (default_node_step_blocks_frame hG hB _ _ _ _ _ _ _ hkid hfi).trans
              (by cases bid <;> rfl)

theorem children_step_blocks_frame {rec : DocumentData → Task → DocumentData}
    (parse : String → Option MdNode) (hG : ∀ dd t, dd.gidx ≤ (rec dd t).gidx)
    (hB : ∀ dd t k, (∀ q ∈ touchedBlockKeys t, k ≠ q) → FreshFree dd k →
      aget (rec dd t).blocks k = aget dd.blocks k)
    (dd : DocumentData) (p : Option String) (cs : List MdNode) (lt : Option String)
    (sn : Option Nat) (k : String) (hf : FreshFree dd k) :
    aget (children_step rec parse dd p cs lt sn).blocks k = aget dd.blocks k := by
  have hkg : k ≠ genName dd.gidx := hf dd.gidx (le_refl _)
  have hany : ∀ dd' t', touchedBlockKeys t' = [] → dd.gidx ≤ dd'.gidx →
      aget (rec dd' t').blocks k = aget dd'.blocks k :=
    fun dd' t' ht hg => hB _ _ _ (by simp [ht]) (FreshFree.mono hg hf)
  have hreg : ∀ (b : Block),
      aget (update_children_map (insert_block (generate_id dd).2 (genName dd.gidx) b) p
        (genName dd.gidx)).blocks k = aget dd.blocks k := by
    intro b
    simp only [blocks_update_children_map, blocks_insert_block, blocks_generate_id]
    rw [aget_ains_ne _ _ _ _ hkg]
  unfold children_step
  split
  · rfl
  · split
    · dsimp only []
      split
      · exact hany _ _ (by rfl) (le_refl _)
      · split
        · rw [hany _ _ (by rfl) (by simp)]
          simp only [blocks_insert_markdown, generate_id_fst]
          exact hreg _
        · split
          · rw [hany _ _ (by rfl) (by
                split
                · dsimp only []
                  split
                  · simp only [gidx_insert_markdown, gidx_update_children_map,
                      gidx_insert_block, gidx_generate_id]
                    omega
                  · split
                    · refine le_trans ?_ (hG _ _)
                      simp only [gidx_insert_markdown, gidx_update_children_map,
                        gidx_insert_block, gidx_generate_id]
                      omega
                    · simp only [gidx_insert_markdown, gidx_update_children_map,
                        gidx_insert_block, gidx_generate_id]
                      omega
                · simp)]
            split
            · dsimp only []
              split
              · simp only [blocks_insert_markdown, generate_id_fst]
                exact hreg _
              · split
                · rw [hany _ _ (by rfl) (by simp)]
                  simp only [blocks_insert_markdown, generate_id_fst]
                  exact hreg _
                · simp only [blocks_insert_markdown, generate_id_fst]
                  exact hreg _
            · simp only [generate_id_fst]
              exact hreg _
          · rw [hany _ _ (by rfl) (hG _ _), hany _ _ (by rfl) (le_refl _)]
    · rw [hany _ _ (by rfl) (hG _ _), hany _ _ (by rfl) (le_refl _)]

theorem aside_step_blocks_frame {rec : DocumentData → Task → DocumentData}
    (hG : ∀ dd t, dd.gidx ≤ (rec dd t).gidx)
    (hB : ∀ dd t k, (∀ q ∈ touchedBlockKeys t, k ≠ q) → FreshFree dd k →
      aget (rec dd t).blocks k = aget dd.blocks k)
    (dd : DocumentData) (cid : String) (p : Option String) (cs : List MdNode)
    (lt : Option String) (sn : Option Nat) (k : String) (hf : FreshFree dd k) :
    aget (aside_step rec dd cid p cs lt sn).blocks k = aget dd.blocks k := by
  have hany : ∀ dd' t', touchedBlockKeys t' = [] → dd.gidx ≤ dd'.gidx →
      aget (rec dd' t').blocks k = aget dd'.blocks k :=
    fun dd' t' ht hg => hB _ _ _ (by simp [ht]) (FreshFree.mono hg hf)
  unfold aside_step
  split
  · rfl
  · split
    · split
      · exact hany _ _ (by rfl) (le_refl _)
      · rw [hany _ _ (by rfl) (hG _ _), hany _ _ (by rfl) (le_refl _)]
    · rw [hany _ _ (by rfl) (hG _ _), hany _ _ (by rfl) (le_refl _)]

theorem details_step_blocks_frame {rec : DocumentData → Task → DocumentData}
    (parse : String → Option MdNode) (hG : ∀ dd t, dd.gidx ≤ (rec dd t).gidx)
    (hB : ∀ dd t k, (∀ q ∈ touchedBlockKeys t, k ≠ q) → FreshFree dd k →
      aget (rec dd t).blocks k = aget dd.blocks k)
    (dd : DocumentData) (tid : String) (sw : Bool) (p : Option String) (cs : List MdNode)
    (lt : Option String) (sn : Option Nat) (k : String) (hf : FreshFree dd k) :
    aget (details_step rec parse dd tid sw p cs lt sn).blocks k = aget dd.blocks k := by
  have hany : ∀ dd' t', touchedBlockKeys t' = [] → dd.gidx ≤ dd'.gidx →
      aget (rec dd' t').blocks k = aget dd'.blocks k :=
    fun dd' t' ht hg => hB _ _ _ (by simp [ht]) (FreshFree.mono hg hf)
  unfold details_step
  split
  · rfl
  · split
    · dsimp only []
      split
      · exact hany _ _ (by rfl) (le_refl _)
      · split
        · split
          · rw [hany _ _ (by rfl) (by
              split
              · simp
              · split
                · refine le_trans ?_ (hG _ _)
                  simp
                · simp)]
            split
            · simp
            · split
              · rw [hany _ _ (by rfl) (by simp)]
                simp
              · simp
          · exact hany _ _ (by rfl) (le_refl _)
        · rw [hany _ _ (by rfl) (hG _ _), hany _ _ (by rfl) (le_refl _)]
    · rw [hany _ _ (by rfl) (hG _ _), hany _ _ (by rfl) (le_refl _)]

theorem walk_blocks_frame (parse : String → Option MdNode) :
    ∀ (fuel : Nat) (dd : DocumentData) (t : Task) (k : String),
      (∀ q ∈ touchedBlockKeys t, k ≠ q) → FreshFree dd k →
      aget (walk parse fuel dd t).blocks k = aget dd.blocks k := by
  intro fuel
  induction fuel with
  | zero => intro dd t k _ _; rfl
  | succ f ih =>
    have hG := walk_gidx parse f
    intro dd t k hk hf
    cases t with
    | node n p bid lt sn =>
      refine node_step_blocks_frame (fun dd t => hG dd t) (fun dd t k h hf => ih dd t k h hf)
        dd n p bid lt sn k ?_ hf
      intro q hq; exact hk q (by simp [touchedBlockKeys, hq])
    | children p cs lt sn =>
      exact children_step_blocks_frame parse (fun dd t => hG dd t)
        (fun dd t k h hf => ih dd t k h hf) dd p cs lt sn k hf
    | aside cid p cs lt sn =>
      exact aside_step_blocks_frame (fun dd t => hG dd t) (fun dd t k h hf => ih dd t k h hf)
        dd cid p cs lt sn k hf
    | details tid sw p cs lt sn =>
      exact details_step_blocks_frame parse (fun dd t => hG dd t)
        (fun dd t k h hf => ih dd t k h hf) dd tid sw p cs lt sn k hf

/-! ## High-frame lemmas: children-map entries at identifiers not yet
allocated after the call are never created by the call -/

theorem columns_row_step_cm_high {w : DocumentData → String → List MdNode → DocumentData}
    (hwG : ∀ dd pid ccs, dd.gidx ≤ (w dd pid ccs).gidx)
    (hwH : ∀ dd pid ccs, FreshFree dd pid → ∀ j, (w dd pid ccs).gidx ≤ j →
      aget (w dd pid ccs).children_map (genName j) = aget dd.children_map (genName j))
    (cid : String) (ci : Nat) (dd : DocumentData) (row : MdNode) (hcid : FreshFree dd cid) :
    ∀ j, (columns_row_step w cid ci dd row).gidx ≤ j →
      aget (columns_row_step w cid ci dd row).children_map (genName j) =
        aget dd.children_map (genName j) := by
  intro j
  unfold columns_row_step
  split
  · split
    · split
      · intro _; rfl
      · dsimp only []
        simp only [create_paragraph_block_fst]
        intro hj
        have hjdd : dd.gidx + 1 ≤ j := by
          refine le_trans ?_ (le_trans (hwG _ _ _) hj)
          simp
        rw [hwH _ _ _ (by
            intro j' hj' heq
            simp only [gidx_create_paragraph_block] at hj'
            have := genName_inj heq
            omega) j hj]
        simp only [children_map_create_paragraph_block]
        rw [aget_aupd_ne _ _ _ _ _ (Ne.symm (hcid j (by omega))),
          aget_aupd_ne _ _ _ _ _ (fun heq => by have := genName_inj heq; omega)]
    · intro _; rfl
  · intro _; rfl

theorem columns_rows_loop_cm_high {w : DocumentData → String → List MdNode → DocumentData}
    (hwG : ∀ dd pid ccs, dd.gidx ≤ (w dd pid ccs).gidx)
    (hwH : ∀ dd pid ccs, FreshFree dd pid → ∀ j, (w dd pid ccs).gidx ≤ j →
      aget (w dd pid ccs).children_map (genName j) = aget dd.children_map (genName j))
    (cid : String) (ci : Nat) :
    ∀ (rows : List MdNode) (dd : DocumentData), FreshFree dd cid →
      ∀ j, (columns_rows_loop w cid ci dd rows).gidx ≤ j →
      aget (columns_rows_loop w cid ci dd rows).children_map (genName j) =
        aget dd.children_map (genName j) := by
  intro rows
  induction rows with
  | nil => intro dd _ j _; rfl
  | cons row rest ih =>
    intro dd hcid j hj
    rw [columns_rows_loop] at hj ⊢
    have hg1 := columns_row_step_gidx hwG cid ci dd row
    have hg2 := columns_rows_loop_gidx hwG cid ci rest (columns_row_step w cid ci dd row)
    rw [ih _ (FreshFree.mono hg1 hcid) j hj,
      columns_row_step_cm_high hwG hwH cid ci dd row hcid j (le_trans hg2 hj)]

theorem columns_col_step_cm_high {w : DocumentData → String → List MdNode → DocumentData}
    (hwG : ∀ dd pid ccs, dd.gidx ≤ (w dd pid ccs).gidx)
    (hwH : ∀ dd pid ccs, FreshFree dd pid → ∀ j, (w dd pid ccs).gidx ≤ j →
      aget (w dd pid ccs).children_map (genName j) = aget dd.children_map (genName j))
    (cid : String) (body_rows : List MdNode) (ci : Nat) (dd : DocumentData)
    (hcid : FreshFree dd cid) :
    ∀ j, (columns_col_step w cid body_rows ci dd).gidx ≤ j →
      aget (columns_col_step w cid body_rows ci dd).children_map (genName j) =
        aget dd.children_map (genName j) := by
  intro j hj
  unfold columns_col_step at hj ⊢
  dsimp only [] at hj ⊢
  simp only [generate_id_fst] at hj ⊢
  have hjdd : dd.gidx + 1 ≤ j := by
    refine le_trans ?_ (le_trans (columns_rows_loop_gidx hwG _ ci body_rows _) hj)
    simp
  rw [columns_rows_loop_cm_high hwG hwH _ ci body_rows _
      (by
        intro j' hj' heq
        simp only [gidx_update_children_map, gidx_ensure, gidx_insert_block,
          gidx_generate_id] at hj'
        have := genName_inj heq
        omega) j hj]
  simp only [children_map_update_children_map_some, children_map_ensure,
    children_map_insert_block, children_map_generate_id]
  rw [aget_aupd_ne _ _ _ _ _ (Ne.symm (hcid j (by omega))),
    aget_aupd_ne _ _ _ _ _ (fun heq => by have := genName_inj heq; omega)]

theorem columns_cols_loop_cm_high {w : DocumentData → String → List MdNode → DocumentData}
    (hwG : ∀ dd pid ccs, dd.gidx ≤ (w dd pid ccs).gidx)
    (hwH : ∀ dd pid ccs, FreshFree dd pid → ∀ j, (w dd pid ccs).gidx ≤ j →
      aget (w dd pid ccs).children_map (genName j) = aget dd.children_map (genName j))
    (cid : String) (body_rows : List MdNode) :
    ∀ (remaining ci : Nat) (dd : DocumentData), FreshFree dd cid →
      ∀ j, (columns_cols_loop w cid body_rows dd ci remaining).gidx ≤ j →
      aget (columns_cols_loop w cid body_rows dd ci remaining).children_map (genName j) =
        aget dd.children_map (genName j) := by
  intro remaining
  induction remaining with
  | zero => intro ci dd _ j _; rfl
  | succ r ih =>
    intro ci dd hcid j hj
    rw [columns_cols_loop] at hj ⊢
    have hg1 := columns_col_step_gidx hwG cid body_rows ci dd
    have hg2 := columns_cols_loop_gidx hwG cid body_rows r (ci + 1)
      (columns_col_step w cid body_rows ci dd)
    rw [ih _ _ (FreshFree.mono hg1 hcid) j hj,
      columns_col_step_cm_high hwG hwH cid body_rows ci dd hcid j (le_trans hg2 hj)]

theorem row_cell_step_cm_high {w : DocumentData → String → List MdNode → DocumentData}
    (hwG : ∀ dd pid ccs, dd.gidx ≤ (w dd pid ccs).gidx)
    (hwH : ∀ dd pid ccs, FreshFree dd pid → ∀ j, (w dd pid ccs).gidx ≤ j →
      aget (w dd pid ccs).children_map (genName j) = aget dd.children_map (genName j))
    (rid : String) (ri : Nat) (align : List AlignKind) (ci : Nat) (dd : DocumentData)
    (cell : MdNode) (hrid : FreshFree dd rid) :
    ∀ j, (row_cell_step w rid ri align ci dd cell).gidx ≤ j →
      aget (row_cell_step w rid ri align ci dd cell).children_map (genName j) =
        aget dd.children_map (genName j) := by
  intro j
  unfold row_cell_step
  split
  · dsimp only []
    simp only [create_paragraph_block_fst, gidx_update_children_map, gidx_ensure,
      gidx_insert_block, gidx_generate_id, generate_id_fst]
    intro hj
    have hjdd : dd.gidx + 2 ≤ j := by
      refine le_trans ?_ (le_trans (hwG _ _ _) hj)
      simp
    rw [hwH _ _ _ (by
        intro j' hj' heq
        simp only [gidx_create_paragraph_block, gidx_update_children_map, gidx_ensure,
          gidx_insert_block, gidx_generate_id] at hj'
        have := genName_inj heq
        omega) j hj]
    simp only [children_map_create_paragraph_block, children_map_update_children_map_some,
      children_map_ensure, children_map_insert_block, children_map_generate_id,
      gidx_update_children_map, gidx_ensure, gidx_insert_block, gidx_generate_id]
    rw [aget_aupd_ne _ _ _ _ _ (fun heq => by have := genName_inj heq; omega),
      aget_aupd_ne _ _ _ _ _ (fun heq => by have := genName_inj heq; omega),
      aget_aupd_ne _ _ _ _ _ (Ne.symm (hrid j (by omega))),
      aget_aupd_ne _ _ _ _ _ (fun heq => by have := genName_inj heq; omega)]
  · intro _; rfl

theorem row_cells_loop_cm_high {w : DocumentData → String → List MdNode → DocumentData}
    (hwG : ∀ dd pid ccs, dd.gidx ≤ (w dd pid ccs).gidx)
    (hwH : ∀ dd pid ccs, FreshFree dd pid → ∀ j, (w dd pid ccs).gidx ≤ j →
      aget (w dd pid ccs).children_map (genName j) = aget dd.children_map (genName j))
    (rid : String) (ri : Nat) (align : List AlignKind) :
    ∀ (cells : List MdNode) (dd : DocumentData) (ci : Nat), FreshFree dd rid →
      ∀ j, (row_cells_loop w rid ri align dd cells ci).gidx ≤ j →
      aget (row_cells_loop w rid ri align dd cells ci).children_map (genName j) =
        aget dd.children_map (genName j) := by
  intro cells
  induction cells with
  | nil => intro dd ci _ j _; rfl
  | cons cell rest ih =>
    intro dd ci hrid j hj
    rw [row_cells_loop] at hj ⊢
    have hg1 := row_cell_step_gidx hwG rid ri align ci dd cell
    have hg2 := row_cells_loop_gidx hwG rid ri align rest
      (row_cell_step w rid ri align ci dd cell) (ci + 1)
    rw [ih _ _ (FreshFree.mono hg1 hrid) j hj,
      row_cell_step_cm_high hwG hwH rid ri align ci dd cell hrid j (le_trans hg2 hj)]

theorem table_row_step_cm_high {w : DocumentData → String → List MdNode → DocumentData}
    (hwG : ∀ dd pid ccs, dd.gidx ≤ (w dd pid ccs).gidx)
    (hwH : ∀ dd pid ccs, FreshFree dd pid → ∀ j, (w dd pid ccs).gidx ≤ j →
      aget (w dd pid ccs).children_map (genName j) = aget dd.children_map (genName j))
    (tid : String) (align : List AlignKind) (ri : Nat) (dd : DocumentData) (row : MdNode)
    (htid : FreshFree dd tid) :
    ∀ j, (table_row_step w tid align ri dd row).gidx ≤ j →
      aget (table_row_step w tid align ri dd row).children_map (genName j) =
        aget dd.children_map (genName j) := by
  intro j
  unfold table_row_step
  split
  · dsimp only []
    simp only [generate_id_fst]
    intro hj
    have hjdd : dd.gidx + 1 ≤ j := by
      refine le_trans ?_ (le_trans (row_cells_loop_gidx hwG _ ri align _ _ 0) hj)
      simp
    rw [row_cells_loop_cm_high hwG hwH _ ri align _ _ 0
        (by
          intro j' hj' heq
          simp only [gidx_update_children_map, gidx_ensure, gidx_insert_block,
            gidx_generate_id] at hj'
          have := genName_inj heq
          omega) j hj]
    simp only [children_map_update_children_map_some, children_map_ensure,
      children_map_insert_block, children_map_generate_id]
    rw [aget_aupd_ne _ _ _ _ _ (Ne.symm (htid j (by omega))),
      aget_aupd_ne _ _ _ _ _ (fun heq => by have := genName_inj heq; omega)]
  · intro _; rfl

theorem table_rows_loop_cm_high {w : DocumentData → String → List MdNode → DocumentData}
    (hwG : ∀ dd pid ccs, dd.gidx ≤ (w dd pid ccs).gidx)
    (hwH : ∀ dd pid ccs, FreshFree dd pid → ∀ j, (w dd pid ccs).gidx ≤ j →
      aget (w dd pid ccs).children_map (genName j) = aget dd.children_map (genName j))
    (tid : String) (align : List AlignKind) :
    ∀ (rows : List MdNode) (dd : DocumentData) (ri : Nat), FreshFree dd tid →
      ∀ j, (table_rows_loop w tid align dd rows ri).gidx ≤ j →
      aget (table_rows_loop w tid align dd rows ri).children_map (genName j) =
        aget dd.children_map (genName j) := by
  intro rows
  induction rows with
  | nil => intro dd ri _ j _; rfl
  | cons row rest ih =>
    intro dd ri htid j hj
    rw [table_rows_loop] at hj ⊢
    have hg1 := table_row_step_gidx hwG tid align ri dd row
    have hg2 := table_rows_loop_gidx hwG tid align rest
      (table_row_step w tid align ri dd row) (ri + 1)
    rw [ih _ _ (FreshFree.mono hg1 htid) j hj,
      table_row_step_cm_high hwG hwH tid align ri dd row htid j (le_trans hg2 hj)]

theorem columns_rewrite_cm_high {rec : DocumentData → Task → DocumentData}
    (hG : ∀ dd t, dd.gidx ≤ (rec dd t).gidx)
    (hH : ∀ dd t, (∀ q ∈ touchedKeys t, FreshFree dd q) → ∀ j, (rec dd t).gidx ≤ j →
      aget (rec dd t).children_map (genName j) = aget dd.children_map (genName j))
    (dd : DocumentData) (id : String) (p : Option String) (col_count : Nat)
    (body_rows : List MdNode) (hid : FreshFree dd id) (hp : ∀ q ∈ p.toList, FreshFree dd q) :
    ∀ j, (columns_rewrite rec dd id p col_count body_rows).gidx ≤ j →
      aget (columns_rewrite rec dd id p col_count body_rows).children_map (genName j) =
        aget dd.children_map (genName j) := by
  have hwG : ∀ dd pid ccs, dd.gidx ≤ (rec dd (.children (some pid) ccs none none)).gidx :=
    fun dd pid ccs => hG _ _
  have hwH : ∀ dd pid ccs, FreshFree dd pid →
      ∀ j, (rec dd (.children (some pid) ccs none none)).gidx ≤ j →
      aget (rec dd (.children (some pid) ccs none none)).children_map (genName j) =
        aget dd.children_map (genName j) :=
    fun dd pid ccs hpid j hj =>
      hH _ _ (by intro q hq; simp [touchedKeys] at hq; subst hq; exact hpid) j hj
  intro j
  unfold columns_rewrite
  dsimp only []
  intro hj
  have hjdd : dd.gidx ≤ j := by
    refine le_trans ?_ (le_trans (columns_cols_loop_gidx hwG _ body_rows col_count 0 _) hj)
    simp
  rw [columns_cols_loop_cm_high hwG hwH _ body_rows _ _ _ (FreshFree.mono (by simp) hid) j hj]
  cases p with
  | none =>
    simp only [update_children_map_none, children_map_ensure, children_map_insert_block]
    rw [aget_aupd_ne _ _ _ _ _ (Ne.symm (hid j hjdd))]
  | some q =>
    simp only [children_map_update_children_map_some, children_map_ensure,
      children_map_insert_block]
    rw [aget_aupd_ne _ _ _ _ _ (Ne.symm (hp q (by simp) j hjdd)),
      aget_aupd_ne _ _ _ _ _ (Ne.symm (hid j hjdd))]

theorem default_node_step_cm_high {rec : DocumentData → Task → DocumentData}
    (hG : ∀ dd t, dd.gidx ≤ (rec dd t).gidx)
    (hH : ∀ dd t, (∀ q ∈ touchedKeys t, FreshFree dd q) → ∀ j, (rec dd t).gidx ≤ j →
      aget (rec dd t).children_map (genName j) = aget dd.children_map (genName j))
    (dd : DocumentData) (n : MdNode) (p : Option String) (id : String) (lt : Option String)
    (sn : Option Nat) (hid : FreshFree dd id) (hp : ∀ q ∈ p.toList, FreshFree dd q) :
    ∀ j, (default_node_step rec dd n p id lt sn).gidx ≤ j →
      aget (default_node_step rec dd n p id lt sn).children_map (genName j) =
        aget dd.children_map (genName j) := by
  have hwG : ∀ dd pid ccs, dd.gidx ≤ (rec dd (.children (some pid) ccs none none)).gidx :=
    fun dd pid ccs => hG _ _
  have hwH : ∀ dd pid ccs, FreshFree dd pid →
      ∀ j, (rec dd (.children (some pid) ccs none none)).gidx ≤ j →
      aget (rec dd (.children (some pid) ccs none none)).children_map (genName j) =
        aget dd.children_map (genName j) :=
    fun dd pid ccs hpid j hj =>
      hH _ _ (by intro q hq; simp [touchedKeys] at hq; subst hq; exact hpid) j hj
  have hpre : ∀ j, dd.gidx ≤ j →
      aget (update_children_map (ensure_children_map_entry
        (insert_block dd id (create_block id n p lt sn)) id) p id).children_map (genName j) =
      aget dd.children_map (genName j) := by
    intro j hjdd
    cases p with
    | none =>
      simp only [update_children_map_none, children_map_ensure, children_map_insert_block]
      rw [aget_aupd_ne _ _ _ _ _ (Ne.symm (hid j hjdd))]
    | some q =>
      simp only [children_map_update_children_map_some, children_map_ensure,
        children_map_insert_block]
      rw [aget_aupd_ne _ _ _ _ _ (Ne.symm (hp q (by simp) j hjdd)),
        aget_aupd_ne _ _ _ _ _ (Ne.symm (hid j hjdd))]
  have hch : ∀ ccs l s j, (rec (update_children_map (ensure_children_map_entry
      (insert_block dd id (create_block id n p lt sn)) id) p id)
        (.children (some id) ccs l s)).gidx ≤ j →
      aget (rec (update_children_map (ensure_children_map_entry
        (insert_block dd id (create_block id n p lt sn)) id) p id)
          (.children (some id) ccs l s)).children_map (genName j) =
        aget dd.children_map (genName j) := by
    intro ccs l s j hj
    have hjdd : dd.gidx ≤ j := le_trans (le_trans (le_of_eq (by simp)) (hG _ _)) hj
    rw [hH _ _ (by
        intro q hq
        simp [touchedKeys] at hq
        subst hq
        exact FreshFree.mono (by simp) hid) j hj]
    exact hpre j hjdd
  intro j
  unfold default_node_step
  dsimp only []
  split
  · exact hch _ _ _ j
  · exact hch _ _ _ j
  · exact hch _ _ _ j
  · split
    · intro hj; exact hpre j (by simpa using hj)
    · split
      · intro hj
        rw [hH _ _ (by
            intro q hq
            simp [touchedKeys] at hq
            subst hq
            exact FreshFree.mono (le_trans (le_of_eq (by simp)) (hG _ _)) hid) j hj]
        exact hch _ _ _ j (le_trans (hG _ _) hj)
      · intro hj; exact hch _ _ _ j hj
  · split
    · intro hj; exact hpre j (by simpa using hj)
    · split
      · intro hj
        rw [hH _ _ (by
            intro q hq
            simp [touchedKeys] at hq
            subst hq
            exact FreshFree.mono (le_trans (le_of_eq (by simp)) (hG _ _)) hid) j hj]
        exact hch _ _ _ j (le_trans (hG _ _) hj)
      · intro hj; exact hch _ _ _ j hj
  · intro hj; exact hpre j (by simpa using hj)
  · intro hj
    have hjdd : dd.gidx ≤ j := by
      refine le_trans ?_ (le_trans (table_rows_loop_gidx hwG _ _ _ _ 0) hj)
      simp
    rw [table_rows_loop_cm_high hwG hwH _ _ _ _ 0 (FreshFree.mono (by simp) hid) j hj]
    exact hpre j hjdd
  · intro hj; exact hpre j (by simpa using hj)
  · intro hj; exact hpre j (by simpa using hj)

theorem node_step_cm_high {rec : DocumentData → Task → DocumentData}
    (hG : ∀ dd t, dd.gidx ≤ (rec dd t).gidx)
    (hH : ∀ dd t, (∀ q ∈ touchedKeys t, FreshFree dd q) → ∀ j, (rec dd t).gidx ≤ j →
      aget (rec dd t).children_map (genName j) = aget dd.children_map (genName j))
    (dd : DocumentData) (n : MdNode) (p bid lt : Option String) (sn : Option Nat)
    (hp : ∀ q ∈ p.toList, FreshFree dd q) (hb : ∀ q ∈ bid.toList, FreshFree dd q) :
    ∀ j, (node_step rec dd n p bid lt sn).gidx ≤ j →
      aget (node_step rec dd n p bid lt sn).children_map (genName j) =
        aget dd.children_map (genName j) := by
  have hid : FreshFree (match bid with | some b => (b, dd) | none => generate_id dd).2
      (match bid with | some b => (b, dd) | none => generate_id dd).1 := by
    cases bid with
    | some b => exact hb b (by simp)
    | none => exact freshFree_of_gen
  have hpi : ∀ q ∈ p.toList,
      FreshFree (match bid with | some b => (b, dd) | none => generate_id dd).2 q := by
    intro q hq
    cases bid with
    | some b => exact hp q hq
    | none => exact FreshFree.mono (by simp) (hp q hq)
  intro j
  unfold node_step
  split
  · intro _; simp
  · split
    · intro _; rfl
    · split
      · intro hj
        exact hH _ _ (by intro q hq; simp [touchedKeys] at hq; exact hp q (by simp [hq])) j hj
      · split
        · rename_i url q heq
          have hq : p = some q := by
            unfold imageRedirect at heq
            split at heq
            · simp_all
            · simp_all
            · simp_all
          intro hj
          rw [process_image_eq]
          dsimp only []
          have hjdd : dd.gidx + 1 ≤ j := by
            simpa [process_image_eq] using hj
          rw [aget_aupd_ne _ _ _ _ _ (Ne.symm (hp q (by simp [hq]) j (by omega))),
            aget_aupd_ne _ _ _ _ _ (fun heq2 => by have := genName_inj heq2; omega)]
        · dsimp only []
          split
          · intro hj
            refine ((columns_rewrite_cm_high hG hH _ _ _ _ _ hid hpi j hj).trans ?_)
            cases bid <;> rfl
          · intro hj
            refine ((default_node_step_cm_high hG hH _ _ _ _ _ _ hid hpi j hj).trans ?_)
            cases bid <;> rfl

theorem children_step_cm_high {rec : DocumentData → Task → DocumentData}
    (parse : String → Option MdNode) (hG : ∀ dd t, dd.gidx ≤ (rec dd t).gidx)
    (hH : ∀ dd t, (∀ q ∈ touchedKeys t, FreshFree dd q) → ∀ j, (rec dd t).gidx ≤ j →
      aget (rec dd t).children_map (genName j) = aget dd.children_map (genName j))
    (dd : DocumentData) (p : Option String) (cs : List MdNode) (lt : Option String)
    (sn : Option Nat) (hp : ∀ q ∈ p.toList, FreshFree dd q) :
    ∀ j, (children_step rec parse dd p cs lt sn).gidx ≤ j →
      aget (children_step rec parse dd p cs lt sn).children_map (genName j) =
        aget dd.children_map (genName j) := by
  have hch : ∀ dd', dd.gidx ≤ dd'.gidx → ∀ ccs l s j,
      (rec dd' (.children p ccs l s)).gidx ≤ j →
      aget (rec dd' (.children p ccs l s)).children_map (genName j) =
        aget dd'.children_map (genName j) :=
    fun dd' hg ccs l s j hj =>
      hH _ _ (by
        intro q hq
        simp [touchedKeys] at hq
        exact FreshFree.mono hg (hp q (by simp [hq]))) j hj
  have hreg : ∀ (b : Block) j, dd.gidx + 1 ≤ j →
      aget (update_children_map (insert_block (generate_id dd).2 (genName dd.gidx) b) p
        (genName dd.gidx)).children_map (genName j) = aget dd.children_map (genName j) := by
    intro b j hj
    cases p with
    | none => simp
    | some q =>
      simp only [children_map_update_children_map_some, children_map_insert_block,
        children_map_generate_id]
      rw [aget_aupd_ne _ _ _ _ _ (Ne.symm (hp q (by simp) j (by omega)))]
  intro j
  unfold children_step
  split
  · intro _; rfl
  · split
    · dsimp only []
      split
      · exact hch dd (le_refl _) _ _ _ j
      · split
        · intro hj
          have hjdd : dd.gidx + 1 ≤ j := by
            refine le_trans ?_ (le_trans (hG _ _) hj)
            simp
          rw [hH _ _ (by
              intro q hq
              simp [touchedKeys] at hq
              rcases hq with hq | hq
              · subst hq
                simp only [generate_id_fst]
                exact FreshFree.mono (by simp) freshFree_of_gen
              · exact FreshFree.mono (by simp) (hp q (by simp [hq]))) j hj]
          simp only [children_map_insert_markdown, generate_id_fst]
          exact hreg _ j hjdd
        · split
          · -- `<details>` opening: the toggle block is registered and the
            -- sibling loop continues
            split
            · -- the opening fragment parsed: summary delta, optional body walk
              dsimp only []
              split
              · -- body blank
                intro hj
                have hjdd : dd.gidx + 1 ≤ j := by
                  refine le_trans ?_ (le_trans (hG _ _) hj)
                  simp
                rw [hH _ _ (by
                    intro q hq
                    simp [touchedKeys] at hq
                    rcases hq with hq | hq
                    · subst hq
                      simp only [generate_id_fst]
                      refine freshFree_genName_lt ?_
                      simp
                    · refine FreshFree.mono (by simp) (hp q (by simp [hq]))) j hj]
                simp only [children_map_insert_markdown, generate_id_fst]
                exact hreg _ j hjdd
              · split
                · -- body parsed to a Root: walk its children under the toggle
                  intro hj
                  have hjdd : dd.gidx + 1 ≤ j := by
                    refine le_trans ?_ (le_trans (hG _ _) (le_trans (hG _ _) hj))
                    simp
                  rw [hH _ _ (by
                      intro q hq
                      simp [touchedKeys] at hq
                      rcases hq with hq | hq
                      · subst hq
                        simp only [generate_id_fst]
                        refine freshFree_genName_lt ?_
                        refine lt_of_lt_of_le ?_ (hG _ _)
                        simp
                      · refine FreshFree.mono (le_trans (by simp) (hG _ _))
                          (hp q (by simp [hq]))) j hj]
                  rw [hH _ _ (by
                      intro q hq
                      simp [touchedKeys] at hq
                      subst hq
                      simp only [generate_id_fst]
                      refine freshFree_genName_lt ?_
                      simp) j (le_trans (hG _ _) hj)]
                  simp only [children_map_insert_markdown, generate_id_fst]
                  exact hreg _ j hjdd
                · -- body parse failed or not a Root
                  intro hj
                  have hjdd : dd.gidx + 1 ≤ j := by
                    refine le_trans ?_ (le_trans (hG _ _) hj)
                    simp
                  rw [hH _ _ (by
                      intro q hq
                      simp [touchedKeys] at hq
                      rcases hq with hq | hq
                      · subst hq
                        simp only [generate_id_fst]
                        refine freshFree_genName_lt ?_
                        simp
                      · refine FreshFree.mono (by simp) (hp q (by simp [hq]))) j hj]
                  simp only [children_map_insert_markdown, generate_id_fst]
                  exact hreg _ j hjdd
            · -- the opening fragment had no summary
              intro hj
              have hjdd : dd.gidx + 1 ≤ j := by
                refine le_trans ?_ (le_trans (hG _ _) hj)
                simp
              rw [hH _ _ (by
                  intro q hq
                  simp [touchedKeys] at hq
                  rcases hq with hq | hq
                  · subst hq
                    simp only [generate_id_fst]
                    refine freshFree_genName_lt ?_
                    simp
                  · refine FreshFree.mono (by simp) (hp q (by simp [hq]))) j hj]
              simp only [generate_id_fst]
              exact hreg _ j hjdd
          · intro hj
            rw [hch _ (hG _ _) _ _ _ j hj,
              hH _ _ (by
                intro q hq
                simp [touchedKeys] at hq
                exact hp q (by simp [hq])) j (le_trans (hG _ _) hj)]
    · intro hj
      rw [hch _ (hG _ _) _ _ _ j hj,
        hH _ _ (by
          intro q hq
          simp [touchedKeys] at hq
          exact hp q (by simp [hq])) j (le_trans (hG _ _) hj)]

theorem aside_step_cm_high {rec : DocumentData → Task → DocumentData}
    (hG : ∀ dd t, dd.gidx ≤ (rec dd t).gidx)
    (hH : ∀ dd t, (∀ q ∈ touchedKeys t, FreshFree dd q) → ∀ j, (rec dd t).gidx ≤ j →
      aget (rec dd t).children_map (genName j) = aget dd.children_map (genName j))
    (dd : DocumentData) (cid : String) (p : Option String) (cs : List MdNode)
    (lt : Option String) (sn : Option Nat) (hc : FreshFree dd cid)
    (hp : ∀ q ∈ p.toList, FreshFree dd q) :
    ∀ j, (aside_step rec dd cid p cs lt sn).gidx ≤ j →
      aget (aside_step rec dd cid p cs lt sn).children_map (genName j) =
        aget dd.children_map (genName j) := by
  have hord : ∀ c j, (rec (rec dd (.node c (some cid) none lt sn))
      (.aside cid p cs.tail lt sn)).gidx ≤ j → True := fun _ _ _ => trivial
  intro j
  unfold aside_step
  split
  · intro _; rfl
  · split
    · split
      · intro hj
        exact hH _ _ (by intro q hq; simp [touchedKeys] at hq; exact hp q (by simp [hq])) j hj
      · intro hj
        rw [hH _ _ (by
            intro q hq
            simp [touchedKeys] at hq
            rcases hq with hq | hq
            · subst hq; exact FreshFree.mono (hG _ _) hc
            · exact FreshFree.mono (hG _ _) (hp q (by simp [hq]))) j hj,
          hH _ _ (by
            intro q hq
            simp [touchedKeys] at hq
            subst hq
            exact hc) j (le_trans (hG _ _) hj)]
    · intro hj
      rw [hH _ _ (by
          intro q hq
          simp [touchedKeys] at hq
          rcases hq with hq | hq
          · subst hq; exact FreshFree.mono (hG _ _) hc
          · exact FreshFree.mono (hG _ _) (hp q (by simp [hq]))) j hj,
        hH _ _ (by
          intro q hq
          simp [touchedKeys] at hq
          subst hq
          exact hc) j (le_trans (hG _ _) hj)]

theorem details_step_cm_high {rec : DocumentData → Task → DocumentData}
    (parse : String → Option MdNode) (hG : ∀ dd t, dd.gidx ≤ (rec dd t).gidx)
    (hH : ∀ dd t, (∀ q ∈ touchedKeys t, FreshFree dd q) → ∀ j, (rec dd t).gidx ≤ j →
      aget (rec dd t).children_map (genName j) = aget dd.children_map (genName j))
    (dd : DocumentData) (tid : String) (sw : Bool) (p : Option String) (cs : List MdNode)
    (lt : Option String) (sn : Option Nat) (ht : FreshFree dd tid)
    (hp : ∀ q ∈ p.toList, FreshFree dd q) :
    ∀ j, (details_step rec parse dd tid sw p cs lt sn).gidx ≤ j →
      aget (details_step rec parse dd tid sw p cs lt sn).children_map (genName j) =
        aget dd.children_map (genName j) := by
  intro j
  unfold details_step
  split
  · intro _; rfl
  · split
    · dsimp only []
      split
      · intro hj
        exact hH _ _ (by intro q hq; simp [touchedKeys] at hq; exact hp q (by simp [hq])) j hj
      · split
        · split
          · split
            · -- body blank after the first summary sibling
              intro hj
              rw [hH _ _ (by
                  intro q hq
                  simp [touchedKeys] at hq
                  rcases hq with hq | hq
                  · subst hq; exact FreshFree.mono (by simp) ht
                  · exact FreshFree.mono (by simp) (hp q (by simp [hq]))) j hj]
              simp
            · split
              · -- the summary sibling's trailing body parsed to a Root
                intro hj
                rw [hH _ _ (by
                    intro q hq
                    simp [touchedKeys] at hq
                    rcases hq with hq | hq
                    · subst hq; exact FreshFree.mono (le_trans (by simp) (hG _ _)) ht
                    · exact FreshFree.mono (le_trans (by simp) (hG _ _))
                        (hp q (by simp [hq]))) j hj,
                  hH _ _ (by
                    intro q hq
                    simp [touchedKeys] at hq
                    subst hq
                    exact FreshFree.mono (by simp) ht) j (le_trans (hG _ _) hj)]
                simp
              · intro hj
                rw [hH _ _ (by
                    intro q hq
                    simp [touchedKeys] at hq
                    rcases hq with hq | hq
                    · subst hq; exact FreshFree.mono (by simp) ht
                    · exact FreshFree.mono (by simp) (hp q (by simp [hq]))) j hj]
                simp
          · intro hj
            exact hH _ _ (by
              intro q hq
              simp [touchedKeys] at hq
              rcases hq with hq | hq
              · subst hq; exact ht
              · exact hp q (by simp [hq])) j hj
        · intro hj
          rw [hH _ _ (by
              intro q hq
              simp [touchedKeys] at hq
              rcases hq with hq | hq
              · subst hq; exact FreshFree.mono (hG _ _) ht
              · exact FreshFree.mono (hG _ _) (hp q (by simp [hq]))) j hj,
            hH _ _ (by
              intro q hq
              simp [touchedKeys] at hq
              subst hq
              exact ht) j (le_trans (hG _ _) hj)]
    · intro hj
      rw [hH _ _ (by
          intro q hq
          simp [touchedKeys] at hq
          rcases hq with hq | hq
          · subst hq; exact FreshFree.mono (hG _ _) ht
          · exact FreshFree.mono (hG _ _) (hp q (by simp [hq]))) j hj,
        hH _ _ (by
          intro q hq
          simp [touchedKeys] at hq
          subst hq
          exact ht) j (le_trans (hG _ _) hj)]

theorem walk_cm_high (parse : String → Option MdNode) :
    ∀ (fuel : Nat) (dd : DocumentData) (t : Task),
      (∀ q ∈ touchedKeys t, FreshFree dd q) →
      ∀ j, (walk parse fuel dd t).gidx ≤ j →
      aget (walk parse fuel dd t).children_map (genName j) =
        aget dd.children_map (genName j) := by
  intro fuel
  induction fuel with
  | zero => intro dd t _ j _; rfl
  | succ f ih =>
    have hG := walk_gidx parse f
    intro dd t hk j hj
    cases t with
    | node n p bid lt sn =>
      refine node_step_cm_high (fun dd t => hG dd t) (fun dd t h j hj => ih dd t h j hj)
        dd n p bid lt sn ?_ ?_ j hj
      · intro q hq; exact hk q (by simp [touchedKeys, hq])
      · intro q hq; exact hk q (by simp [touchedKeys, hq])
    | children p cs lt sn =>
      refine children_step_cm_high parse (fun dd t => hG dd t)
        (fun dd t h j hj => ih dd t h j hj) dd p cs lt sn ?_ j hj
      intro q hq; exact hk q (by simp [touchedKeys, hq])
    | aside cid p cs lt sn =>
      refine aside_step_cm_high (fun dd t => hG dd t) (fun dd t h j hj => ih dd t h j hj)
        dd cid p cs lt sn ?_ ?_ j hj
      · exact hk cid (by simp [touchedKeys])
      · intro q hq; exact hk q (by simp [touchedKeys, hq])
    | details tid sw p cs lt sn =>
      refine details_step_cm_high parse (fun dd t => hG dd t)
        (fun dd t h j hj => ih dd t h j hj) dd tid sw p cs lt sn ?_ ?_ j hj
      · exact hk tid (by simp [touchedKeys])
      · intro q hq; exact hk q (by simp [touchedKeys, hq])

/-! ## Every emitted block obeys the external-link discipline -/

theorem goodBlocks_insert {dd : DocumentData} {id : String} {b : Block}
    (h : GoodBlocks dd) (hb : GoodBlock b) : GoodBlocks (insert_block dd id b) := by
  intro k w hw
  simp only [blocks_insert_block] at hw
  rcases aget_ains_cases _ _ _ _ _ hw with he | he
  · exact he ▸ hb
  · exact h k w he

theorem goodBlocks_of_blocks_eq {dd dd' : DocumentData} (h : dd'.blocks = dd.blocks)
    (hg : GoodBlocks dd) : GoodBlocks dd' := by
  intro k w hw
  rw [h] at hw
  exact hg k w hw

theorem block_type_not_container (n : MdNode) (lt : Option String)
    (him : ∀ u, n ≠ MdNode.image u) :
    containerTy (mdast_node_type_to_block_type n lt) = false := by
  cases n
  case image u => exact absurd rfl (him u)
  case listItem checked cs =>
    simp only [mdast_node_type_to_block_type]
    split
    · rfl
    · split <;> rfl
  all_goals rfl

theorem goodBlock_create_block (id : String) (n : MdNode) (p lt : Option String)
    (sn : Option Nat) (him : ∀ u, n ≠ MdNode.image u) :
    GoodBlock (create_block id n p lt sn) := by
  unfold GoodBlock
  rw [if_neg (by simp [create_block, block_type_not_container n lt him])]
  exact ⟨rfl, rfl⟩

theorem goodBlock_image (id url p : String) : GoodBlock (create_image_block id url p) := by
  unfold GoodBlock
  rw [if_pos (by simp [create_image_block, containerTy])]
  exact ⟨rfl, rfl⟩

theorem goodBlock_row (id p : String) : GoodBlock (create_simple_table_row_block id p) := by
  unfold GoodBlock
  rw [if_pos (by simp [create_simple_table_row_block, containerTy])]
  exact ⟨rfl, rfl⟩

theorem goodBlock_cell (id p : String) (r c : Nat) (al : List AlignKind) :
    GoodBlock (create_simple_table_cell_block id p r c al) := by
  unfold GoodBlock
  rw [if_pos (by simp [create_simple_table_cell_block, containerTy])]
  exact ⟨rfl, rfl⟩

theorem goodBlocks_create_paragraph {dd : DocumentData} (p : String) (h : GoodBlocks dd) :
    GoodBlocks (create_paragraph_block dd p).2 := by
  intro k w hw
  simp only [blocks_create_paragraph_block] at hw
  rcases aget_ains_cases _ _ _ _ _ hw with he | he
  · exact he ▸ goodBlock_create_block _ _ _ _ _ (fun u => by simp)
  · exact h k w he

theorem columns_row_step_good {w : DocumentData → String → List MdNode → DocumentData}
    (hw : ∀ dd pid ccs, GoodBlocks dd → GoodBlocks (w dd pid ccs)) (cid : String) (ci : Nat)
    (dd : DocumentData) (row : MdNode) (h : GoodBlocks dd) :
    GoodBlocks (columns_row_step w cid ci dd row) := by
  unfold columns_row_step
  split
  · split
    · split
      · exact h
      · exact hw _ _ _ (goodBlocks_create_paragraph _ h)
    · exact h
  · exact h

theorem columns_rows_loop_good {w : DocumentData → String → List MdNode → DocumentData}
    (hw : ∀ dd pid ccs, GoodBlocks dd → GoodBlocks (w dd pid ccs)) (cid : String) (ci : Nat) :
    ∀ (rows : List MdNode) (dd : DocumentData), GoodBlocks dd →
      GoodBlocks (columns_rows_loop w cid ci dd rows) := by
  intro rows
  induction rows with
  | nil => intro dd h; exact h
  | cons row rest ih =>
    intro dd h
    rw [columns_rows_loop]
    exact ih _ (columns_row_step_good hw cid ci dd row h)

theorem columns_col_step_good {w : DocumentData → String → List MdNode → DocumentData}
    (hw : ∀ dd pid ccs, GoodBlocks dd → GoodBlocks (w dd pid ccs)) (cid : String)
    (body_rows : List MdNode) (ci : Nat) (dd : DocumentData) (h : GoodBlocks dd) :
    GoodBlocks (columns_col_step w cid body_rows ci dd) := by
  unfold columns_col_step
  dsimp only []
  refine columns_rows_loop_good hw _ ci body_rows _ ?_
  intro k w' hw'
  simp only [blocks_update_children_map, blocks_ensure, blocks_insert_block,
    blocks_generate_id, generate_id_fst] at hw'
  rcases aget_ains_cases _ _ _ _ _ hw' with he | he
  · subst he
    unfold GoodBlock
    rw [if_neg (by simp [containerTy])]
    exact ⟨rfl, rfl⟩
  · exact h k w' he

theorem columns_cols_loop_good {w : DocumentData → String → List MdNode → DocumentData}
    (hw : ∀ dd pid ccs, GoodBlocks dd → GoodBlocks (w dd pid ccs)) (cid : String)
    (body_rows : List MdNode) :
    ∀ (remaining ci : Nat) (dd : DocumentData), GoodBlocks dd →
      GoodBlocks (columns_cols_loop w cid body_rows dd ci remaining) := by
  intro remaining
  induction remaining with
  | zero => intro ci dd h; exact h
  | succ r ih =>
    intro ci dd h
    rw [columns_cols_loop]
    exact ih _ _ (columns_col_step_good hw cid body_rows ci dd h)

theorem row_cell_step_good {w : DocumentData → String → List MdNode → DocumentData}
    (hw : ∀ dd pid ccs, GoodBlocks dd → GoodBlocks (w dd pid ccs)) (rid : String) (ri : Nat)
    (align : List AlignKind) (ci : Nat) (dd : DocumentData) (cell : MdNode)
    (h : GoodBlocks dd) : GoodBlocks (row_cell_step w rid ri align ci dd cell) := by
  unfold row_cell_step
  split
  · refine hw _ _ _ ?_
    refine goodBlocks_create_paragraph _ ?_
    intro k w' hw'
    simp only [blocks_update_children_map, blocks_ensure, blocks_insert_block,
      blocks_generate_id, generate_id_fst] at hw'
    rcases aget_ains_cases _ _ _ _ _ hw' with he | he
    · exact he ▸ goodBlock_cell _ _ _ _ _
    · exact h k w' he
  · exact h

theorem row_cells_loop_good {w : DocumentData → String → List MdNode → DocumentData}
    (hw : ∀ dd pid ccs, GoodBlocks dd → GoodBlocks (w dd pid ccs)) (rid : String) (ri : Nat)
    (align : List AlignKind) :
    ∀ (cells : List MdNode) (dd : DocumentData) (ci : Nat), GoodBlocks dd →
      GoodBlocks (row_cells_loop w rid ri align dd cells ci) := by
  intro cells
  induction cells with
  | nil => intro dd ci h; exact h
  | cons cell rest ih =>
    intro dd ci h
    rw [row_cells_loop]
    exact ih _ _ (row_cell_step_good hw rid ri align ci dd cell h)

theorem table_row_step_good {w : DocumentData → String → List MdNode → DocumentData}
    (hw : ∀ dd pid ccs, GoodBlocks dd → GoodBlocks (w dd pid ccs)) (tid : String)
    (align : List AlignKind) (ri : Nat) (dd : DocumentData) (row : MdNode)
    (h : GoodBlocks dd) : GoodBlocks (table_row_step w tid align ri dd row) := by
  unfold table_row_step
  split
  · refine row_cells_loop_good hw _ ri align _ _ 0 ?_
    intro k w' hw'
    simp only [blocks_update_children_map, blocks_ensure, blocks_insert_block,
      blocks_generate_id, generate_id_fst] at hw'
    rcases aget_ains_cases _ _ _ _ _ hw' with he | he
    · exact he ▸ goodBlock_row _ _
    · exact h k w' he
  · exact h

theorem table_rows_loop_good {w : DocumentData → String → List MdNode → DocumentData}
    (hw : ∀ dd pid ccs, GoodBlocks dd → GoodBlocks (w dd pid ccs)) (tid : String)
    (align : List AlignKind) :
    ∀ (rows : List MdNode) (dd : DocumentData) (ri : Nat), GoodBlocks dd →
      GoodBlocks (table_rows_loop w tid align dd rows ri) := by
  intro rows
  induction rows with
  | nil => intro dd ri h; exact h
  | cons row rest ih =>
    intro dd ri h
    rw [table_rows_loop]
    exact ih _ _ (table_row_step_good hw tid align ri dd row h)

theorem columns_rewrite_good {rec : DocumentData → Task → DocumentData}
    (hrec : ∀ dd t, TaskOk t → GoodBlocks dd → GoodBlocks (rec dd t)) (dd : DocumentData)
    (id : String) (p : Option String) (col_count : Nat) (body_rows : List MdNode)
    (h : GoodBlocks dd) : GoodBlocks (columns_rewrite rec dd id p col_count body_rows) := by
  have hw : ∀ dd pid ccs, GoodBlocks dd →
      GoodBlocks (rec dd (.children (some pid) ccs none none)) :=
    fun dd pid ccs => hrec _ _ (by simp [TaskOk])
  unfold columns_rewrite
  dsimp only []
  refine columns_cols_loop_good hw _ body_rows _ _ _ ?_
  intro k w' hw'
  simp only [blocks_update_children_map, blocks_ensure, blocks_insert_block] at hw'
  rcases aget_ains_cases _ _ _ _ _ hw' with he | he
  · subst he
    unfold GoodBlock
    rw [if_neg (by simp [containerTy])]
    exact ⟨rfl, rfl⟩
  · exact h k w' he

theorem default_node_step_good {rec : DocumentData → Task → DocumentData}
    (hrec : ∀ dd t, TaskOk t → GoodBlocks dd → GoodBlocks (rec dd t)) (dd : DocumentData)
    (n : MdNode) (p : Option String) (id : String) (lt : Option String) (sn : Option Nat)
    (him : ∀ u, n ≠ MdNode.image u) (h : GoodBlocks dd) :
    GoodBlocks (default_node_step rec dd n p id lt sn) := by
  have hw : ∀ dd pid ccs, GoodBlocks dd →
      GoodBlocks (rec dd (.children (some pid) ccs none none)) :=
    fun dd pid ccs => hrec _ _ (by simp [TaskOk])
  have hch : ∀ dd' ccs l s, GoodBlocks dd' → GoodBlocks (rec dd' (.children (some id) ccs l s)) :=
    fun dd' ccs l s => hrec _ _ (by simp [TaskOk])
  have hpre : GoodBlocks (update_children_map (ensure_children_map_entry
      (insert_block dd id (create_block id n p lt sn)) id) p id) := by
    intro k w' hw'
    simp only [blocks_update_children_map, blocks_ensure, blocks_insert_block] at hw'
    rcases aget_ains_cases _ _ _ _ _ hw' with he | he
    · exact he ▸ goodBlock_create_block _ _ _ _ _ him
    · exact h k w' he
  unfold default_node_step
  dsimp only []
  split
  · exact hch _ _ _ _ hpre
  · exact hch _ _ _ _ hpre
  · exact hch _ _ _ _ hpre
  · split
    · exact hpre
    · split
      · exact hch _ _ _ _ (hch _ _ _ _ hpre)
      · exact hch _ _ _ _ hpre
  · split
    · exact hpre
    · split
      · exact hch _ _ _ _ (hch _ _ _ _ hpre)
      · exact hch _ _ _ _ hpre
  · exact goodBlocks_of_blocks_eq (by simp) hpre
  · exact table_rows_loop_good hw _ _ _ _ _ hpre
  · exact absurd rfl (him _)
  · exact goodBlocks_of_blocks_eq (by simp) hpre

theorem node_step_good {rec : DocumentData → Task → DocumentData}
    (hrec : ∀ dd t, TaskOk t → GoodBlocks dd → GoodBlocks (rec dd t)) (dd : DocumentData)
    (n : MdNode) (p bid lt : Option String) (sn : Option Nat)
    (hok : p.isSome = true ∨ ∃ cs, n = MdNode.root cs) (h : GoodBlocks dd) :
    GoodBlocks (node_step rec dd n p bid lt sn) := by
  unfold node_step
  split
  · exact goodBlocks_of_blocks_eq (by cases p <;> simp) h
  · split
    · exact h
    · split
      · rename_i children lt' sn' heq
        rcases hok with hp | ⟨cs, rfl⟩
        · exact hrec _ _ (by simp [TaskOk, hp]) h
        · simp [get_mdast_node_info] at heq
      · split
        · intro k w hw
          rw [process_image_eq] at hw
          dsimp only [] at hw
          rcases aget_ains_cases _ _ _ _ _ hw with he | he
          · exact he ▸ goodBlock_image _ _ _
          · exact h k w he
        · dsimp only []
          split
          · refine columns_rewrite_good hrec _ _ _ _ _ ?_
            cases bid with
            | some b => exact h
            | none => exact goodBlocks_of_blocks_eq (by simp) h
          · rename_i hredir hncol
            refine default_node_step_good hrec _ _ _ _ _ _ ?_ ?_
            · intro u hu
              subst hu
              rcases hok with hp | ⟨cs, hroot⟩
              · obtain ⟨q, hq⟩ := Option.isSome_iff_exists.mp hp
                subst hq
                simp [imageRedirect] at hredir
              · exact MdNode.noConfusion hroot
            · cases bid with
              | some b => exact h
              | none => exact goodBlocks_of_blocks_eq (by simp) h

theorem children_step_good {rec : DocumentData → Task → DocumentData}
    (parse : String → Option MdNode)
    (hrec : ∀ dd t, TaskOk t → GoodBlocks dd → GoodBlocks (rec dd t)) (dd : DocumentData)
    (p : Option String) (cs : List MdNode) (lt : Option String) (sn : Option Nat)
    (hp : p.isSome = true) (h : GoodBlocks dd) :
    GoodBlocks (children_step rec parse dd p cs lt sn) := by
  have hch : ∀ dd' ccs l s, GoodBlocks dd' → GoodBlocks (rec dd' (.children p ccs l s)) :=
    fun dd' ccs l s => hrec _ _ (by simp [TaskOk, hp])
  have hchs : ∀ dd' pid ccs l s, GoodBlocks dd' →
      GoodBlocks (rec dd' (.children (some pid) ccs l s)) :=
    fun dd' pid ccs l s => hrec _ _ (by simp [TaskOk])
  have hnd : ∀ dd' c l s, GoodBlocks dd' → GoodBlocks (rec dd' (.node c p none l s)) :=
    fun dd' c l s => hrec _ _ (by simp [TaskOk, hp])
  have has : ∀ dd' cid ccs l s, GoodBlocks dd' → GoodBlocks (rec dd' (.aside cid p ccs l s)) :=
    fun dd' cid ccs l s => hrec _ _ (by simp [TaskOk, hp])
  have hdt : ∀ dd' tid sw ccs l s, GoodBlocks dd' →
      GoodBlocks (rec dd' (.details tid sw p ccs l s)) :=
    fun dd' tid sw ccs l s => hrec _ _ (by simp [TaskOk, hp])
  have hreg : ∀ (ty : String) (bdata : BlockData), containerTy ty = false →
      GoodBlocks (update_children_map (insert_block (generate_id dd).2 (genName dd.gidx)
        { id := genName dd.gidx
          ty := ty
          data := bdata
          parent := p.getD ""
          children := genName dd.gidx
          external_id := some (genName dd.gidx)
          external_type := some "text" }) p (genName dd.gidx)) := by
    intro ty bdata hty k w' hw'
    simp only [blocks_update_children_map, blocks_insert_block, blocks_generate_id] at hw'
    rcases aget_ains_cases _ _ _ _ _ hw' with he | he
    · subst he
      unfold GoodBlock
      rw [if_neg (by simp [hty])]
      exact ⟨rfl, rfl⟩
    · exact h k w' he
  unfold children_step
  split
  · exact h
  · split
    · dsimp only []
      split
      · exact hch _ _ _ _ h
      · split
        · refine has _ _ _ _ _ ?_
          intro k w' hw'
          simp only [blocks_insert_markdown, blocks_update_children_map, blocks_insert_block,
            blocks_generate_id, generate_id_fst] at hw'
          rcases aget_ains_cases _ _ _ _ _ hw' with he | he
          · subst he
            unfold GoodBlock
            rw [if_neg (by simp [containerTy])]
            exact ⟨rfl, rfl⟩
          · exact h k w' he
        · split
          · refine hdt _ _ _ _ _ _ ?_
            split
            · dsimp only []
              split
              · intro k w' hw'
                simp only [blocks_insert_markdown, blocks_update_children_map,
                  blocks_insert_block, blocks_generate_id, generate_id_fst] at hw'
                rcases aget_ains_cases _ _ _ _ _ hw' with he | he
                · subst he
                  unfold GoodBlock
                  rw [if_neg (by simp [containerTy])]
                  exact ⟨rfl, rfl⟩
                · exact h k w' he
              · split
                · refine hchs _ _ _ _ _ ?_
                  intro k w' hw'
                  simp only [blocks_insert_markdown, blocks_update_children_map,
                    blocks_insert_block, blocks_generate_id, generate_id_fst] at hw'
                  rcases aget_ains_cases _ _ _ _ _ hw' with he | he
                  · subst he
                    unfold GoodBlock
                    rw [if_neg (by simp [containerTy])]
                    exact ⟨rfl, rfl⟩
                  · exact h k w' he
                · intro k w' hw'
                  simp only [blocks_insert_markdown, blocks_update_children_map,
                    blocks_insert_block, blocks_generate_id, generate_id_fst] at hw'
                  rcases aget_ains_cases _ _ _ _ _ hw' with he | he
                  · subst he
                    unfold GoodBlock
                    rw [if_neg (by simp [containerTy])]
                    exact ⟨rfl, rfl⟩
                  · exact h k w' he
            · intro k w' hw'
              simp only [blocks_update_children_map, blocks_insert_block,
                blocks_generate_id, generate_id_fst] at hw'
              rcases aget_ains_cases _ _ _ _ _ hw' with he | he
              · subst he
                unfold GoodBlock
                rw [if_neg (by simp [containerTy])]
                exact ⟨rfl, rfl⟩
              · exact h k w' he
          · exact hch _ _ _ _ (hnd _ _ _ _ h)
    · exact hch _ _ _ _ (hnd _ _ _ _ h)

theorem aside_step_good {rec : DocumentData → Task → DocumentData}
    (hrec : ∀ dd t, TaskOk t → GoodBlocks dd → GoodBlocks (rec dd t)) (dd : DocumentData)
    (cid : String) (p : Option String) (cs : List MdNode) (lt : Option String)
    (sn : Option Nat) (hp : p.isSome = true) (h : GoodBlocks dd) :
    GoodBlocks (aside_step rec dd cid p cs lt sn) := by
  have hch : ∀ dd' ccs l s, GoodBlocks dd' → GoodBlocks (rec dd' (.children p ccs l s)) :=
    fun dd' ccs l s => hrec _ _ (by simp [TaskOk, hp])
  have hnd : ∀ dd' c l s, GoodBlocks dd' → GoodBlocks (rec dd' (.node c (some cid) none l s)) :=
    fun dd' c l s => hrec _ _ (by simp [TaskOk])
  have has : ∀ dd' ccs l s, GoodBlocks dd' → GoodBlocks (rec dd' (.aside cid p ccs l s)) :=
    fun dd' ccs l s => hrec _ _ (by simp [TaskOk, hp])
  unfold aside_step
  split
  · exact h
  · split
    · split
      · exact hch _ _ _ _ h
      · exact has _ _ _ _ (hnd _ _ _ _ h)
    · exact has _ _ _ _ (hnd _ _ _ _ h)

theorem details_step_good {rec : DocumentData → Task → DocumentData}
    (parse : String → Option MdNode)
    (hrec : ∀ dd t, TaskOk t → GoodBlocks dd → GoodBlocks (rec dd t)) (dd : DocumentData)
    (tid : String) (sw : Bool) (p : Option String) (cs : List MdNode) (lt : Option String)
    (sn : Option Nat) (hp : p.isSome = true) (h : GoodBlocks dd) :
    GoodBlocks (details_step rec parse dd tid sw p cs lt sn) := by
  have hch : ∀ dd' ccs l s, GoodBlocks dd' → GoodBlocks (rec dd' (.children p ccs l s)) :=
    fun dd' ccs l s => hrec _ _ (by simp [TaskOk, hp])
  have hchs : ∀ dd' ccs l s, GoodBlocks dd' →
      GoodBlocks (rec dd' (.children (some tid) ccs l s)) :=
    fun dd' ccs l s => hrec _ _ (by simp [TaskOk])
  have hnd : ∀ dd' c l s, GoodBlocks dd' → GoodBlocks (rec dd' (.node c (some tid) none l s)) :=
    fun dd' c l s => hrec _ _ (by simp [TaskOk])
  have hdt : ∀ dd' sw' ccs l s, GoodBlocks dd' →
      GoodBlocks (rec dd' (.details tid sw' p ccs l s)) :=
    fun dd' sw' ccs l s => hrec _ _ (by simp [TaskOk, hp])
  unfold details_step
  split
  · exact h
  · split
    · dsimp only []
      split
      · exact hch _ _ _ _ h
      · split
        · split
          · refine hdt _ _ _ _ _ ?_
            split
            · exact goodBlocks_of_blocks_eq (by simp) h
            · split
              · refine hchs _ _ _ _ ?_
                exact goodBlocks_of_blocks_eq (by simp) h
              · exact goodBlocks_of_blocks_eq (by simp) h
          · exact hdt _ _ _ _ _ h
        · exact hdt _ _ _ _ _ (hnd _ _ _ _ h)
    · exact hdt _ _ _ _ _ (hnd _ _ _ _ h)

theorem walk_good (parse : String → Option MdNode) :
    ∀ (fuel : Nat) (dd : DocumentData) (t : Task), TaskOk t → GoodBlocks dd →
      GoodBlocks (walk parse fuel dd t) := by
  intro fuel
  induction fuel with
  | zero => intro dd t _ h; exact h
  | succ f ih =>
    intro dd t hok h
    cases t with
    | node n p bid lt sn =>
      exact node_step_good (fun dd t h1 h2 => ih dd t h1 h2) dd n p bid lt sn hok h
    | children p cs lt sn =>
      exact children_step_good parse (fun dd t h1 h2 => ih dd t h1 h2) dd p cs lt sn hok h
    | aside cid p cs lt sn =>
      exact aside_step_good (fun dd t h1 h2 => ih dd t h1 h2) dd cid p cs lt sn hok h
    | details tid sw p cs lt sn =>
      exact details_step_good parse (fun dd t h1 h2 => ih dd t h1 h2) dd tid sw p cs lt sn hok h


/-! ## The claims -/

/-- Claim C1: refuted (code bug).  On the document `<aside>x</aside>` the
importer emits the callout block `"i"` into the snapshot's blocks (and
links it under the page), but `children_map` holds no entry for it: the callout
branch of the sibling walk inserts the block without
`ensure_children_map_entry`. -/
theorem c1_callout_children_map_entry_missing :
    (aget ddC1.blocks "i").map Block.ty = some "callout" ∧
    aget ddC1.children_map "i" = none ∧
    aget ddC1.children_map "P" = some ["i"] :=
  ⟨rfl, rfl, rfl⟩

/-- Claim C2: counterexample.  The generic-table rewrite's `simple_table`
container block is made by `create_block`, which always links
`(id, "text")`: on a one-column table the emitted `simple_table` block `"i"`
carries `external_id = some "i"`, not `None` as the claim states for
generic table containers. -/
theorem c2_table_external_counterexample :
    (aget ddC2.blocks "i").map Block.ty = some "simple_table" ∧
    (aget ddC2.blocks "i").map Block.external_id = some (some "i") ∧
    (aget ddC2.blocks "i").map Block.external_type = some (some "text") :=
  ⟨rfl, rfl, rfl⟩

/-- Claim C2 (amended): on every import that returns a snapshot from a
parsed root, every emitted block obeys the discipline with the container
list corrected to images, table rows and table cells (`containerTy`): those
carry `external_id = external_type = None`; every other block — including
the generic `simple_table` container — carries `(id, "text")`. -/
theorem c2_external_link_discipline (parse : String → Option MdNode) (fuel : Nat)
    (document_id md : String) (cs : List MdNode) (dd : DocumentData)
    (hroot : parse md = some (.root cs))
    (h : importMD parse fuel document_id md = .ok dd) :
    ∀ k b, aget dd.blocks k = some b → GoodBlock b := by
  unfold importMD at h
  rw [hroot] at h
  cases h
  exact walk_good parse fuel _ _ (Or.inr ⟨cs, rfl⟩)
    (fun k b hb => by simp [emptyDocumentData, aget] at hb)

/-- Claim C2 witness: the discipline at a concrete emitted block — the
`simple_table_row` block `"ii"` of the one-column-table import. -/
theorem c2_external_link_discipline_witness :
    GoodBlock ((aget ddC2.blocks "ii").getD ⟨"", "", [], "", "", none, none⟩) :=
  c2_external_link_discipline parseC2 20 "P" "M2"
    [.table [.left] [.tableRow [.tableCell [.text "a"]], .tableRow [.tableCell [.text "b"]]]]
    ddC2 rfl rfl "ii" _ (by rfl)

/-- Claim C3: counterexample.  `c3table` has a body row whose cell count (3)
differs from the header's column count (2), so the claim's recognition
condition (`specNotionColumns`) fails, yet the source recognises the
table. -/
theorem c3_recognition_counterexample :
    (parse_notion_columns_table c3table).isSome = true ∧
    specNotionColumns c3table = false :=
  ⟨rfl, rfl⟩

/-- Claim C3 (amended): the source recognises a table as a Notion columns
layout exactly per `amendedNotionColumns`: the claim's clause 2 (every body
row's width equals the header's) is only enforced together with
all-body-cells-empty — a table failing clause 2 falls into the `else`
branch and is still recognised when the column count is at most 5 and there
are at most 3 body rows. -/
theorem c3_recognition_amended (children : List MdNode) :
    (parse_notion_columns_table children).isSome = amendedNotionColumns children := by
  unfold parse_notion_columns_table amendedNotionColumns
  cases children with
  | nil => rfl
  | cons header body =>
    cases header <;> try rfl
    rename_i hcells
    dsimp only []
    have hfe : (fun cell => match cell with
        | MdNode.tableCell cs => is_table_cell_empty cs
        | _ => false) = is_empty_table_cell_node := by
      funext c
      cases c <;> rfl
    rw [hfe]
    by_cases hA : hcells.length < 2
    · rw [if_pos hA]
      have h2 : (decide (2 ≤ hcells.length)) = false := by
        simp
        omega
      rw [h2, Bool.false_and]
      rfl
    · rw [if_neg hA]
      have h2 : (decide (2 ≤ hcells.length)) = true := by
        simp
        omega
      rw [h2, Bool.true_and]
      by_cases hE : hcells.all is_empty_table_cell_node = true
      · rw [hE, Bool.true_and]
        simp only [hE, Bool.not_true, Bool.false_eq_true, if_false]
        by_cases hB : body.isEmpty = true
        · rw [if_pos hB, hB]
          rfl
        · rw [if_neg hB]
          have hB' : (!body.isEmpty) = true := by
            simp [hB]
          rw [hB', Bool.true_and]
          by_cases hAll : (body.all fun r => match r with
              | MdNode.tableRow rcs =>
                rcs.length == hcells.length && rcs.all is_empty_table_cell_node
              | _ => false) = true
          · rw [if_pos hAll, if_pos hAll]
            by_cases h6 : hcells.length < 6
            · rw [if_pos h6]
              have : (decide (6 ≤ hcells.length)) = false := by
                simp
                omega
              rw [this]
              rfl
            · rw [if_neg h6]
              have : (decide (6 ≤ hcells.length)) = true := by
                simp
                omega
              rw [this]
              rfl
          · rw [if_neg hAll, if_neg hAll]
            by_cases hC : hcells.length > 5 || body.length > 3
            · rw [if_pos hC]
              rcases Bool.or_eq_true_iff.mp hC with hc | hc
              · have : (decide (hcells.length ≤ 5)) = false := by
                  simp at hc ⊢
                  omega
                rw [this, Bool.false_and]
                rfl
              · have : (decide (body.length ≤ 3)) = false := by
                  simp at hc ⊢
                  omega
                rw [this, Bool.and_false]
                rfl
            · rw [if_neg hC]
              have hc := hC
              simp only [Bool.or_eq_true_iff, not_or] at hc
              have h5 : (decide (hcells.length ≤ 5)) = true := by
                have := hc.1
                simp at this ⊢
                omega
              have h3 : (decide (body.length ≤ 3)) = true := by
                have := hc.2
                simp at this ⊢
                omega
              rw [h5, h3]
              rfl
      · have hE' : hcells.all is_empty_table_cell_node = false :=
          Bool.eq_false_iff.mpr hE
        rw [hE', Bool.false_and]
        simp only [hE', Bool.not_false, if_true]
        rfl

/-- Claim C4: counterexample to the claim's consequence.  A paragraph whose
children are inline text followed by an image is not elided: the import of
`paragraph [text "hi ", image "u"]` emits the paragraph block `"i"` whose
only block child is the image block `"ii"`. -/
theorem c4_sole_image_child_counterexample :
    (aget ddC4.blocks "i").map Block.ty = some "paragraph" ∧
    aget ddC4.children_map "i" = some ["ii"] ∧
    (aget ddC4.blocks "ii").map Block.ty = some "image" :=
  ⟨rfl, rfl, rfl⟩

/-- Claim C4 (amended): the promotion itself holds — a bare `Image` node,
or a `Paragraph` whose children are exactly one `Image`, walks to
`process_image`, which emits exactly one image block (fresh id, data
`{url, image_type: "external"}`, empty children string, no external link)
registered under the enclosing parent, and no paragraph block; but the
claim's consequence fails, since a paragraph keeping other inline content
still emits a paragraph block whose only block child can be an image (see
the counterexample). -/
theorem c4_image_promotion (parse : String → Option MdNode) (fuel : Nat)
    (dd : DocumentData) (url p : String) (bid lt : Option String) (sn : Option Nat) :
    walk parse (fuel + 1) dd (.node (.paragraph [.image url]) (some p) bid lt sn) =
      process_image dd url p ∧
    walk parse (fuel + 1) dd (.node (.image url) (some p) bid lt sn) =
      process_image dd url p ∧
    process_image dd url p =
      { dd with
        gidx := dd.gidx + 1
        blocks := ains (genName dd.gidx) (create_image_block (genName dd.gidx) url p)
          dd.blocks
        children_map :=
          aupd p [] (· ++ [genName dd.gidx]) (aupd (genName dd.gidx) [] id dd.children_map) } ∧
    create_image_block (genName dd.gidx) url p =
      { id := genName dd.gidx
        ty := "image"
        data := [("url", .s url), ("image_type", .s "external")]
        parent := p
        children := ""
        external_id := none
        external_type := none } :=
  ⟨rfl, rfl, rfl, rfl⟩

/-- Claim C5: confirmed.  `import` fails exactly when the parser rejects the
input, the only error it signals is `ParseMarkdownError`, every accepted
input yields the walked snapshot, and on a parsed root that snapshot is
produced without hitting the walker's `unreachable!` (`panicked` stays
`false`). -/
theorem c5_error_shape (parse : String → Option MdNode) (fuel : Nat)
    (document_id md : String) :
    ((∃ e, importMD parse fuel document_id md = .error e) ↔ parse md = none) ∧
    (∀ e, importMD parse fuel document_id md = .error e → e = .ParseMarkdownError) ∧
    (∀ node, parse md = some node →
      importMD parse fuel document_id md =
        .ok (process_mdast_node parse fuel (emptyDocumentData document_id) node none
          (some document_id) none none)) ∧
    (∀ cs dd, parse md = some (.root cs) →
      importMD parse fuel document_id md = .ok dd → dd.panicked = false) := by
  unfold importMD
  cases hp : parse md with
  | none =>
    refine ⟨⟨fun _ => rfl, fun _ => ⟨.ParseMarkdownError, rfl⟩⟩, ?_, ?_, ?_⟩
    · intro e he
      cases he
      rfl
    · intro node hn
      exact absurd hn (by simp)
    · intro cs dd hn
      exact absurd hn (by simp)
  | some root =>
    refine ⟨⟨?_, ?_⟩, ?_, ?_, ?_⟩
    · rintro ⟨e, he⟩
      exact absurd he (by simp)
    · intro hh
      exact absurd hh (by simp)
    · intro e he
      exact absurd he (by simp)
    · intro node hn
      injection hn with hn
      subst hn
      rfl
    · intro cs dd h1 h2
      injection h1 with h1
      subst h1
      injection h2 with h2
      subst h2
      exact walk_panicked parse fuel (emptyDocumentData document_id)
        (.node (.root cs) none (some document_id) none none) (Or.inr ⟨cs, rfl⟩)

/-- Claim C7: counterexample.  On a one-column table with an empty alignment
list, the emitted `simple_table_cell` block `"iii"` carries `row` and `col`
but no `align` key at all — not the claimed `"left"` default. -/
theorem c7_align_default_counterexample :
    (aget ddC7.blocks "iii").map Block.ty = some "simple_table_cell" ∧
    (aget ddC7.blocks "iii").map (fun b => aget b.data "align") = some none ∧
    (aget ddC7.blocks "iii").map (fun b => aget b.data "row") = some (some (.n 0)) ∧
    (aget ddC7.blocks "iii").map (fun b => aget b.data "col") = some (some (.n 0)) :=
  ⟨rfl, rfl, rfl, rfl⟩

/-- Claim C7 (amended): every `SimpleTableCell` block carries
`{row: i, col: j}`, and an `align` key exactly when the table's per-column
alignment list has an entry at the column: that entry maps to `"left"`,
`"right"` or `"center"` (with `AlignKind.none` rendered `"left"`); when the
entry is absent the key is omitted instead of defaulting to `"left"`. -/
theorem c7_cell_align_amended (id parent_id : String) (row col : Nat)
    (aligns : List AlignKind) :
    (create_simple_table_cell_block id parent_id row col aligns).ty =
      "simple_table_cell" ∧
    aget (create_simple_table_cell_block id parent_id row col aligns).data "row" =
      some (.n row) ∧
    aget (create_simple_table_cell_block id parent_id row col aligns).data "col" =
      some (.n col) ∧
    aget (create_simple_table_cell_block id parent_id row col aligns).data "align" =
      (aligns.get? col).map (fun a =>
        JVal.s (match a with
          | .left => "left"
          | .right => "right"
          | .center => "center"
          | .none => "left")) := by
  unfold create_simple_table_cell_block
  cases hga : aligns.get? col with
  | none => exact ⟨rfl, rfl, rfl, rfl⟩
  | some a => cases a <;> exact ⟨rfl, rfl, rfl, rfl⟩

/-- Claim C8: confirmed.  In the `<details>` sibling walk, (a) once the
summary flag is set, a later Html sibling — whatever it starts with,
`<summary>` included — that is not the closing tag is walked as an ordinary
child block of the toggle; (b) the first `<summary>` sibling encountered
with the flag clear is consumed into the toggle's inline delta and the walk
continues with the flag set. -/
theorem c8_first_summary_only (parse : String → Option MdNode) (fuel : Nat)
    (dd : DocumentData) (tid : String) (p : Option String) (hv : String)
    (rest : List MdNode) (lt : Option String) (sn : Option Nat) :
    (strTrim hv ≠ "</details>" →
      walk parse (fuel + 1) dd (.details tid true p (.html hv :: rest) lt sn) =
        walk parse fuel (walk parse fuel dd (.node (.html hv) (some tid) none lt sn))
          (.details tid true p rest lt sn)) ∧
    (∀ summary after, strTrim hv ≠ "</details>" →
      strStartsWith (strTrim hv) "<summary>" = true →
      extract_tag_content (strTrim hv) "summary" = some (summary, after) →
      strTrim after = "" →
      walk parse (fuel + 1) dd (.details tid false p (.html hv :: rest) lt sn) =
        walk parse fuel (insert_markdown_as_inline_delta parse dd tid summary)
          (.details tid true p rest lt sn)) := by
  constructor
  · intro hne
    show details_step (walk parse fuel) parse dd tid true p (.html hv :: rest) lt sn = _
    unfold details_step
    dsimp only []
    rw [if_neg hne]
    simp only [Bool.not_true, Bool.false_and, Bool.false_eq_true, if_false]
  · intro summary after hne hstart hext hbody
    show details_step (walk parse fuel) parse dd tid false p (.html hv :: rest) lt sn = _
    unfold details_step
    dsimp only []
    rw [if_neg hne]
    simp only [Bool.not_false, Bool.true_and, hstart, if_true, hext]
    rw [if_pos hbody]

/-- Claim C9: confirmed.  `parse_aside_html` lifts exactly the first
character of a non-empty inner text into the icon when it is not
alphanumeric, stripping leading whitespace off the remainder for the
content; an alphanumeric first character leaves the icon empty and the
content whole.  Concretely, `"<aside>💡 Be careful</aside>"` imports to a
callout with `data.icon = "💡"` and delta `[{insert: "Be careful"}]`. -/
theorem c9_aside_icon (html : String) :
    (∀ first restC, strStartsWith (strTrim html) "<aside>" = true →
      chars (aside_inner (strTrim html)) = first :: restC →
      first.isAlphanum = false →
      parse_aside_html html = some ⟨ofChars [first], strTrimStart (ofChars restC)⟩) ∧
    (∀ first restC, strStartsWith (strTrim html) "<aside>" = true →
      chars (aside_inner (strTrim html)) = first :: restC →
      first.isAlphanum = true →
      parse_aside_html html = some ⟨"", aside_inner (strTrim html)⟩) ∧
    parse_aside_html "<aside>💡 Be careful</aside>" = some ⟨"💡", "Be careful"⟩ ∧
    (aget ddC9.blocks "i").map Block.ty = some "callout" ∧
    (aget ddC9.blocks "i").map Block.data = some [("icon", .s "💡")] ∧
    aget ddC9.text_map "i" = some [⟨"Be careful", []⟩] := by
  have hmain : ∀ first restC, strStartsWith (strTrim html) "<aside>" = true →
      chars (aside_inner (strTrim html)) = first :: restC →
      parse_aside_html html =
        (if !first.isAlphanum then some ⟨ofChars [first], strTrimStart (ofChars restC)⟩
         else some ⟨"", aside_inner (strTrim html)⟩) := by
    intro first restC hstart hcc
    unfold parse_aside_html
    dsimp only []
    rw [hstart]
    simp only [Bool.not_true, Bool.false_eq_true, if_false]
    have hne : aside_inner (strTrim html) ≠ "" := by
      intro hc
      rw [hc] at hcc
      exact absurd hcc (by simp [chars])
    rw [if_neg hne, hcc]
  refine ⟨?_, ?_, rfl, rfl, rfl, rfl⟩
  · intro first restC hstart hcc hfa
    rw [hmain first restC hstart hcc, hfa]
    rfl
  · intro first restC hstart hcc hfa
    rw [hmain first restC hstart hcc, hfa]
    rfl

/-- Claim C10: confirmed.  When a Blockquote or ListItem node's first child
is not a Paragraph, the head-split walks only the remaining siblings under
the quote/list-item block: the result does not depend on the first child at
all (the right-hand sides below never mention `c`). -/
theorem c10_nonparagraph_first_child_skipped (parse : String → Option MdNode)
    (fuel : Nat) (dd : DocumentData) (p bid lt : Option String) (sn : Option Nat)
    (chk : Option Bool) (c : MdNode) (rest : List MdNode)
    (hc : ∀ pcs, c ≠ .paragraph pcs) :
    (walk parse (fuel + 1) dd (.node (.blockquote (c :: rest)) p bid lt sn) =
      (let g := match bid with | some b => (b, dd) | none => generate_id dd
       walk parse fuel
         (update_children_map (ensure_children_map_entry
           (insert_block g.2 g.1 (create_block g.1 (.blockquote []) p lt sn)) g.1) p g.1)
         (.children (some g.1) rest lt sn))) ∧
    (walk parse (fuel + 1) dd (.node (.listItem chk (c :: rest)) p bid lt sn) =
      (let g := match bid with | some b => (b, dd) | none => generate_id dd
       walk parse fuel
         (update_children_map (ensure_children_map_entry
           (insert_block g.2 g.1 (create_block g.1 (.listItem chk []) p lt sn)) g.1) p g.1)
         (.children (some g.1) rest lt sn))) := by
  constructor
  · cases c <;> first
      | rfl
      | exact absurd rfl (hc _)
  · cases c <;> first
      | rfl
      | exact absurd rfl (hc _)

/-- Claim C10 witness: the skip at a concrete non-paragraph first child (a
blockquote whose first child is the text node `"gone"`). -/
theorem c10_nonparagraph_first_child_skipped_witness :
    walk parseNone 2 (emptyDocumentData "P")
      (.node (.blockquote [.text "gone"]) (some "P") none none none) =
      (let g := match (none : Option String) with
        | some b => (b, emptyDocumentData "P")
        | none => generate_id (emptyDocumentData "P")
       walk parseNone 1
         (update_children_map (ensure_children_map_entry
           (insert_block g.2 g.1 (create_block g.1 (.blockquote []) (some "P") none none))
             g.1) (some "P") g.1)
         (.children (some g.1) [] none none)) :=
  (c10_nonparagraph_first_child_skipped parseNone 1 (emptyDocumentData "P") (some "P")
    none none none none (.text "gone") [] (fun _ h => MdNode.noConfusion h)).1


/-! ## The Notion-columns rewrite: structural specification -/

theorem freshFree_short {dd : DocumentData} {k : String}
    (h : (chars k).length ≤ dd.gidx) : FreshFree dd k := by
  intro j hj heq
  have := congrArg (fun s => (chars s).length) heq
  simp only [genName_length] at this
  omega

theorem columns_row_step_spec {w : DocumentData → String → List MdNode → DocumentData}
    (hwg : ∀ dd pid ccs, dd.gidx ≤ (w dd pid ccs).gidx)
    (hwc : ∀ dd pid ccs k, k ≠ pid → FreshFree dd k →
      aget (w dd pid ccs).children_map k = aget dd.children_map k)
    (hwb : ∀ dd pid ccs k, FreshFree dd k →
      aget (w dd pid ccs).blocks k = aget dd.blocks k)
    (cid : String) (ci : Nat) (dd : DocumentData) (row : MdNode) (l : List String)
    (hfree : FreshFree dd cid) (hl : aget dd.children_map cid = some l) :
    (row_has_nonempty_cell_at ci row = false ∧ columns_row_step w cid ci dd row = dd) ∨
    (row_has_nonempty_cell_at ci row = true ∧
      aget (columns_row_step w cid ci dd row).children_map cid =
        some (l ++ [genName dd.gidx]) ∧
      dd.gidx + 1 ≤ (columns_row_step w cid ci dd row).gidx ∧
      (aget (columns_row_step w cid ci dd row).blocks (genName dd.gidx)).map Block.ty =
        some "paragraph" ∧
      (∀ k, k ≠ cid → FreshFree dd k →
        aget (columns_row_step w cid ci dd row).children_map k =
          aget dd.children_map k) ∧
      (∀ k, FreshFree dd k →
        aget (columns_row_step w cid ci dd row).blocks k = aget dd.blocks k)) := by
  unfold columns_row_step row_has_nonempty_cell_at
  cases row
  case tableRow rcs =>
    dsimp only []
    cases hg : rcs.get? ci with
    | none => exact Or.inl ⟨rfl, rfl⟩
    | some cell =>
      cases cell
      case tableCell ccs =>
        dsimp only []
        by_cases he : is_table_cell_empty ccs = true
        · exact Or.inl ⟨by simp [he], by rw [if_pos he]⟩
        · have he' : is_table_cell_empty ccs = false := Bool.eq_false_iff.mpr he
          right
          refine ⟨by simp [he'], ?_, ?_, ?_, ?_, ?_⟩ <;>
            simp only [he', Bool.false_eq_true, if_false, create_paragraph_block_fst]
          · rw [hwc _ _ _ cid (hfree _ (le_refl _))
              (FreshFree.mono (by simp) hfree)]
            simp only [children_map_create_paragraph_block]
            rw [aget_aupd_self, aget_aupd_ne _ _ _ _ _ (hfree _ (le_refl _)), hl]
            rfl
          · exact le_trans (by simp) (hwg _ _ _)
          · rw [hwb _ _ _ _ (freshFree_genName_lt (by simp))]
            simp only [blocks_create_paragraph_block]
            rw [aget_ains_self]
            rfl
          · intro k hk hf
            rw [hwc _ _ _ k (hf _ (le_refl _)) (FreshFree.mono (by simp) hf)]
            simp only [children_map_create_paragraph_block]
            rw [aget_aupd_ne _ _ _ _ _ hk, aget_aupd_ne _ _ _ _ _ (hf _ (le_refl _))]
          · intro k hf
            rw [hwb _ _ _ _ (FreshFree.mono (by simp) hf)]
            simp only [blocks_create_paragraph_block]
            rw [aget_ains_ne _ _ _ _ (hf _ (le_refl _))]
      all_goals exact Or.inl ⟨rfl, rfl⟩
  all_goals exact Or.inl ⟨rfl, rfl⟩

theorem columns_rows_loop_spec {w : DocumentData → String → List MdNode → DocumentData}
    (hwg : ∀ dd pid ccs, dd.gidx ≤ (w dd pid ccs).gidx)
    (hwc : ∀ dd pid ccs k, k ≠ pid → FreshFree dd k →
      aget (w dd pid ccs).children_map k = aget dd.children_map k)
    (hwb : ∀ dd pid ccs k, FreshFree dd k →
      aget (w dd pid ccs).blocks k = aget dd.blocks k)
    (cid : String) (ci : Nat) :
    ∀ (rows : List MdNode) (dd : DocumentData) (l : List String),
      FreshFree dd cid → aget dd.children_map cid = some l →
      ∃ pids,
        aget (columns_rows_loop w cid ci dd rows).children_map cid = some (l ++ pids) ∧
        pids.length = rows.countP (row_has_nonempty_cell_at ci) ∧
        dd.gidx ≤ (columns_rows_loop w cid ci dd rows).gidx ∧
        (∀ q ∈ pids, ∃ j, dd.gidx ≤ j ∧ j < (columns_rows_loop w cid ci dd rows).gidx ∧
          q = genName j ∧
          (aget (columns_rows_loop w cid ci dd rows).blocks q).map Block.ty =
            some "paragraph") ∧
        (∀ k, k ≠ cid → FreshFree dd k →
          aget (columns_rows_loop w cid ci dd rows).children_map k =
            aget dd.children_map k) ∧
        (∀ k, FreshFree dd k →
          aget (columns_rows_loop w cid ci dd rows).blocks k = aget dd.blocks k) := by
  intro rows
  induction rows with
  | nil =>
    intro dd l hfree hl
    refine ⟨[], by simpa using hl, rfl, le_refl _, ?_, fun k _ _ => rfl, fun k _ => rfl⟩
    intro q hq
    exact absurd hq (List.not_mem_nil q)
  | cons row rest ih =>
    intro dd l hfree hl
    have hstep : columns_rows_loop w cid ci dd (row :: rest) =
        columns_rows_loop w cid ci (columns_row_step w cid ci dd row) rest := rfl
    rw [hstep]
    rcases columns_row_step_spec hwg hwc hwb cid ci dd row l hfree hl with
      ⟨hp, heq⟩ | ⟨hp, hcm, hg, hpb, hcf, hbf⟩
    · rw [heq]
      rcases ih dd l hfree hl with ⟨pids, h1, h2, h3, h4, h5, h6⟩
      refine ⟨pids, h1, ?_, h3, h4, h5, h6⟩
      simp [List.countP_cons, hp, h2]
    · have hgd : dd.gidx ≤ (columns_row_step w cid ci dd row).gidx :=
        le_trans (Nat.le_succ _) hg
      rcases ih (columns_row_step w cid ci dd row) (l ++ [genName dd.gidx])
          (FreshFree.mono hgd hfree) hcm with ⟨pids, h1, h2, h3, h4, h5, h6⟩
      refine ⟨genName dd.gidx :: pids, ?_, ?_, le_trans hgd h3, ?_, ?_, ?_⟩
      · rw [h1, List.append_assoc]
        rfl
      · simp [List.countP_cons, hp, h2]
      · intro q hq
        rcases List.mem_cons.mp hq with rfl | hq'
        · refine ⟨dd.gidx, le_refl _, lt_of_lt_of_le (Nat.lt_succ_self _) (le_trans hg h3),
            rfl, ?_⟩
          rw [h6 _ (freshFree_genName_lt (lt_of_lt_of_le (Nat.lt_succ_self _) hg))]
          exact hpb
        · rcases h4 q hq' with ⟨j, hj1, hj2, hj3, hj4⟩
          exact ⟨j, le_trans hgd hj1, hj2, hj3, hj4⟩
      · intro k hk hf
        rw [h5 k hk (FreshFree.mono hgd hf), hcf k hk hf]
      · intro k hf
        rw [h6 k (FreshFree.mono hgd hf), hbf k hf]

theorem columns_cols_loop_spec {w : DocumentData → String → List MdNode → DocumentData}
    (hwg : ∀ dd pid ccs, dd.gidx ≤ (w dd pid ccs).gidx)
    (hwc : ∀ dd pid ccs k, k ≠ pid → FreshFree dd k →
      aget (w dd pid ccs).children_map k = aget dd.children_map k)
    (hwb : ∀ dd pid ccs k, FreshFree dd k →
      aget (w dd pid ccs).blocks k = aget dd.blocks k)
    (hwH : ∀ dd pid ccs, FreshFree dd pid → ∀ j, (w dd pid ccs).gidx ≤ j →
      aget (w dd pid ccs).children_map (genName j) = aget dd.children_map (genName j))
    (id : String) (body : List MdNode) :
    ∀ (m ci : Nat) (dd : DocumentData) (l : List String),
      FreshFree dd id → aget dd.children_map id = some l →
      (∀ j, dd.gidx ≤ j → aget dd.children_map (genName j) = none) →
      ∃ colIds,
        colIds.length = m ∧
        aget (columns_cols_loop w id body dd ci m).children_map id = some (l ++ colIds) ∧
        dd.gidx ≤ (columns_cols_loop w id body dd ci m).gidx ∧
        (∀ i, i < m → ∃ cid, colIds.get? i = some cid ∧
          (aget (columns_cols_loop w id body dd ci m).blocks cid).map Block.ty =
            some "simple_column" ∧
          ∃ pids,
            aget (columns_cols_loop w id body dd ci m).children_map cid = some pids ∧
            pids.length = body.countP (row_has_nonempty_cell_at (ci + i)) ∧
            ∀ q ∈ pids,
              (aget (columns_cols_loop w id body dd ci m).blocks q).map Block.ty =
                some "paragraph") ∧
        (∀ k, k ≠ id → FreshFree dd k →
          aget (columns_cols_loop w id body dd ci m).children_map k =
            aget dd.children_map k) ∧
        (∀ k, FreshFree dd k →
          aget (columns_cols_loop w id body dd ci m).blocks k = aget dd.blocks k) := by
  intro m
  induction m with
  | zero =>
    intro ci dd l hfree hl hclean
    refine ⟨[], rfl, by simpa using hl, le_refl _, ?_, fun k _ _ => rfl, fun k _ => rfl⟩
    intro i hi
    exact absurd hi (Nat.not_lt_zero i)
  | succ m ih =>
    intro ci dd l hfree hl hclean
    have hne_col : genName dd.gidx ≠ id := Ne.symm (hfree _ (le_refl _))
    have hstep : columns_cols_loop w id body dd ci (m + 1) =
        columns_cols_loop w id body
          (columns_rows_loop w (genName dd.gidx) ci
            (update_children_map (ensure_children_map_entry
              (insert_block { dd with gidx := dd.gidx + 1 } (genName dd.gidx)
                { id := genName dd.gidx
                  ty := "simple_column"
                  data := []
                  parent := id
                  children := genName dd.gidx
                  external_id := some (genName dd.gidx)
                  external_type := some "text" }) (genName dd.gidx)) (some id)
              (genName dd.gidx)) body)
          (ci + 1) m := rfl
    rw [hstep]
    have hfree2 : FreshFree (update_children_map (ensure_children_map_entry
        (insert_block { dd with gidx := dd.gidx + 1 } (genName dd.gidx)
          { id := genName dd.gidx
            ty := "simple_column"
            data := []
            parent := id
            children := genName dd.gidx
            external_id := some (genName dd.gidx)
            external_type := some "text" }) (genName dd.gidx)) (some id)
        (genName dd.gidx)) (genName dd.gidx) := by
      refine freshFree_genName_lt ?_
      simp [update_children_map, ensure_children_map_entry, insert_block]
    have hl2 : aget (update_children_map (ensure_children_map_entry
        (insert_block { dd with gidx := dd.gidx + 1 } (genName dd.gidx)
          { id := genName dd.gidx
            ty := "simple_column"
            data := []
            parent := id
            children := genName dd.gidx
            external_id := some (genName dd.gidx)
            external_type := some "text" }) (genName dd.gidx)) (some id)
        (genName dd.gidx)).children_map (genName dd.gidx) = some [] := by
      simp only [update_children_map, ensure_children_map_entry, insert_block]
      rw [aget_aupd_ne _ _ _ _ _ hne_col, aget_aupd_self, hclean _ (le_refl _)]
      rfl
    rcases columns_rows_loop_spec hwg hwc hwb (genName dd.gidx) ci body _ [] hfree2 hl2 with
      ⟨pids, hr1, hr2, hr3, hr4, hr5, hr6⟩
    rw [List.nil_append] at hr1
    have hg2 : dd.gidx + 1 ≤ (columns_rows_loop w (genName dd.gidx) ci
        (update_children_map (ensure_children_map_entry
          (insert_block { dd with gidx := dd.gidx + 1 } (genName dd.gidx)
            { id := genName dd.gidx
              ty := "simple_column"
              data := []
              parent := id
              children := genName dd.gidx
              external_id := some (genName dd.gidx)
              external_type := some "text" }) (genName dd.gidx)) (some id)
          (genName dd.gidx)) body).gidx := by
      refine le_trans ?_ hr3
      simp [update_children_map, ensure_children_map_entry, insert_block]
    have hfree3 : FreshFree (columns_rows_loop w (genName dd.gidx) ci
        (update_children_map (ensure_children_map_entry
          (insert_block { dd with gidx := dd.gidx + 1 } (genName dd.gidx)
            { id := genName dd.gidx
              ty := "simple_column"
              data := []
              parent := id
              children := genName dd.gidx
              external_id := some (genName dd.gidx)
              external_type := some "text" }) (genName dd.gidx)) (some id)
          (genName dd.gidx)) body) id :=
      FreshFree.mono (by omega) hfree
    have hl3 : aget (columns_rows_loop w (genName dd.gidx) ci
        (update_children_map (ensure_children_map_entry
          (insert_block { dd with gidx := dd.gidx + 1 } (genName dd.gidx)
            { id := genName dd.gidx
              ty := "simple_column"
              data := []
              parent := id
              children := genName dd.gidx
              external_id := some (genName dd.gidx)
              external_type := some "text" }) (genName dd.gidx)) (some id)
          (genName dd.gidx)) body).children_map id = some (l ++ [genName dd.gidx]) := by
      rw [hr5 id (hfree _ (le_refl _)) (FreshFree.mono (by simp [update_children_map,
        ensure_children_map_entry, insert_block]) hfree)]
      simp only [update_children_map, ensure_children_map_entry, insert_block]
      rw [aget_aupd_self, aget_aupd_ne _ _ _ _ _ (hfree _ (le_refl _)), hl]
      rfl
    have hclean3 : ∀ j, (columns_rows_loop w (genName dd.gidx) ci
        (update_children_map (ensure_children_map_entry
          (insert_block { dd with gidx := dd.gidx + 1 } (genName dd.gidx)
            { id := genName dd.gidx
              ty := "simple_column"
              data := []
              parent := id
              children := genName dd.gidx
              external_id := some (genName dd.gidx)
              external_type := some "text" }) (genName dd.gidx)) (some id)
          (genName dd.gidx)) body).gidx ≤ j →
        aget (columns_rows_loop w (genName dd.gidx) ci
          (update_children_map (ensure_children_map_entry
            (insert_block { dd with gidx := dd.gidx + 1 } (genName dd.gidx)
              { id := genName dd.gidx
                ty := "simple_column"
                data := []
                parent := id
                children := genName dd.gidx
                external_id := some (genName dd.gidx)
                external_type := some "text" }) (genName dd.gidx)) (some id)
            (genName dd.gidx)) body).children_map (genName j) = none := by
      intro j hj
      have hjg : dd.gidx + 1 ≤ j := le_trans hg2 hj
      rw [columns_rows_loop_cm_high hwg hwH (genName dd.gidx) ci body _ hfree2 j hj]
      simp only [update_children_map, ensure_children_map_entry, insert_block]
      rw [aget_aupd_ne _ _ _ _ _ (Ne.symm (hfree j (by omega))),
        aget_aupd_ne _ _ _ _ _ (fun heq => by have := genName_inj heq; omega)]
      exact hclean j (by omega)
    rcases ih (ci + 1) _ (l ++ [genName dd.gidx]) hfree3 hl3 hclean3 with
      ⟨colIds, hi1, hi2, hi3, hi4, hi5, hi6⟩
    refine ⟨genName dd.gidx :: colIds, by simp [hi1], ?_, by omega, ?_, ?_, ?_⟩
    · rw [hi2, List.append_assoc]
      rfl
    · intro i hi
      cases i with
      | zero =>
        refine ⟨genName dd.gidx, rfl, ?_, pids, ?_, ?_, ?_⟩
        · rw [hi6 _ (freshFree_genName_lt (by omega))]
          rw [hr6 _ (freshFree_genName_lt (by simp [update_children_map,
            ensure_children_map_entry, insert_block]))]
          simp only [update_children_map, ensure_children_map_entry, insert_block,
            blocks_update_children_map, blocks_ensure, blocks_insert_block]
          rw [aget_ains_self]
          rfl
        · rw [hi5 _ hne_col (freshFree_genName_lt (by omega))]
          exact hr1
        · rw [Nat.add_zero]
          exact hr2
        · intro q hq
          rcases hr4 q hq with ⟨j, hj1, hj2, hj3, hj4⟩
          rw [hi6 _ (by rw [hj3]; exact freshFree_genName_lt hj2)]
          exact hj4
      | succ i' =>
        have hi' : i' < m := by omega
        rcases hi4 i' hi' with ⟨cid, hc1, hc2, pids', hc3, hc4, hc5⟩
        refine ⟨cid, hc1, hc2, pids', hc3, ?_, hc5⟩
        have : ci + 1 + i' = ci + (i' + 1) := by omega
        rw [this] at hc4
        exact hc4
    · intro k hk hf
      rw [hi5 k hk (FreshFree.mono (by omega) hf),
        hr5 k (hf _ (le_refl _)) (FreshFree.mono (by simp [update_children_map,
          ensure_children_map_entry, insert_block]) hf)]
      simp only [update_children_map, ensure_children_map_entry, insert_block]
      rw [aget_aupd_ne _ _ _ _ _ hk, aget_aupd_ne _ _ _ _ _ (hf _ (le_refl _))]
    · intro k hf
      rw [hi6 k (FreshFree.mono (by omega) hf),
        hr6 k (FreshFree.mono (by simp [update_children_map,
          ensure_children_map_entry, insert_block]) hf)]
      simp only [update_children_map, ensure_children_map_entry, insert_block,
        blocks_update_children_map, blocks_ensure, blocks_insert_block]
      rw [aget_ains_ne _ _ _ _ (hf _ (le_refl _))]

theorem ddW_clean : ∀ j, ddW.gidx ≤ j → aget ddW.children_map (genName j) = none := by
  intro j hj
  have hg : ddW.gidx = 1 := rfl
  rw [hg] at hj
  have hne : ("P" : String) ≠ genName j := by
    intro heq
    have h1 := congrArg (fun s => (chars s).length) heq
    simp only [genName_length] at h1
    have h2 : (chars "P").length = 1 := rfl
    omega
  show aget [("P", ([] : List String))] (genName j) = none
  simp [aget, hne]

/-- Claim C6: confirmed.  On a table recognised as a Notion columns layout
with column count `n` and body rows `body`, the walker hands the node to the
columns rewrite (first conjunct), and the rewrite emits exactly one
`simple_columns` block under the enclosing parent (appended to the parent's
children), with exactly `n` `simple_column` children in column order; for
each column `i` the column's children are exactly one fresh paragraph block
per body row whose cell at column `i` is non-empty (their number is the
count of such rows; empty cells contribute nothing). -/
theorem c6_notion_columns_rewrite (parse : String → Option MdNode) (fuel : Nat)
    (dd : DocumentData) (pk : String) (n : Nat) (body cs : List MdNode)
    (align : List AlignKind) (lt : Option String) (sn : Option Nat)
    (id : String) (pklist : List String)
    (hn : parse_notion_columns_table cs = some (n, body))
    (hfree : FreshFree dd id)
    (hfreepk : FreshFree dd pk)
    (hne : pk ≠ id)
    (hcmid : aget dd.children_map id = none)
    (hpk : aget dd.children_map pk = some pklist)
    (hclean : ∀ j, dd.gidx ≤ j → aget dd.children_map (genName j) = none) :
    walk parse (fuel + 1) dd (.node (.table align cs) (some pk) none lt sn) =
      columns_rewrite (walk parse fuel) { dd with gidx := dd.gidx + 1 } (genName dd.gidx)
        (some pk) n body ∧
    aget (columns_rewrite (walk parse fuel) dd id (some pk) n body).blocks id =
      some { id := id, ty := "simple_columns", data := [], parent := pk, children := id,
             external_id := some id, external_type := some "text" } ∧
    aget (columns_rewrite (walk parse fuel) dd id (some pk) n body).children_map pk =
      some (pklist ++ [id]) ∧
    ∃ colIds, colIds.length = n ∧
      aget (columns_rewrite (walk parse fuel) dd id (some pk) n body).children_map id =
        some colIds ∧
      ∀ i, i < n → ∃ cid, colIds.get? i = some cid ∧
        (aget (columns_rewrite (walk parse fuel) dd id (some pk) n body).blocks cid).map
          Block.ty = some "simple_column" ∧
        ∃ pids,
          aget (columns_rewrite (walk parse fuel) dd id (some pk) n body).children_map cid
            = some pids ∧
          pids.length = body.countP (row_has_nonempty_cell_at i) ∧
          ∀ q ∈ pids,
            (aget (columns_rewrite (walk parse fuel) dd id (some pk) n body).blocks q).map
              Block.ty = some "paragraph" := by
  have hwg : ∀ (d : DocumentData) (pid : String) (ccs : List MdNode),
      d.gidx ≤ (walk parse fuel d (.children (some pid) ccs none none)).gidx :=
    fun d pid ccs => walk_gidx parse fuel d _
  have hwc : ∀ (d : DocumentData) (pid : String) (ccs : List MdNode) (k : String),
      k ≠ pid → FreshFree d k →
      aget (walk parse fuel d (.children (some pid) ccs none none)).children_map k =
        aget d.children_map k :=
    fun d pid ccs k hk hf => walk_cm_frame parse fuel d _ k
      (by intro q hq; simp [touchedKeys] at hq; subst hq; exact hk) hf
  have hwb : ∀ (d : DocumentData) (pid : String) (ccs : List MdNode) (k : String),
      FreshFree d k →
      aget (walk parse fuel d (.children (some pid) ccs none none)).blocks k =
        aget d.blocks k :=
    fun d pid ccs k hf => walk_blocks_frame parse fuel d _ k
      (by intro q hq; simp [touchedBlockKeys] at hq) hf
  have hwH : ∀ (d : DocumentData) (pid : String) (ccs : List MdNode),
      FreshFree d pid → ∀ j, (walk parse fuel d (.children (some pid) ccs none none)).gidx ≤ j →
      aget (walk parse fuel d (.children (some pid) ccs none none)).children_map (genName j) =
        aget d.children_map (genName j) :=
    fun d pid ccs hfp j hj => walk_cm_high parse fuel d _
      (by intro q hq; simp [touchedKeys] at hq; subst hq; exact hfp) j hj
  have hcr : columns_rewrite (walk parse fuel) dd id (some pk) n body =
      columns_cols_loop
        (fun d pid ccs => walk parse fuel d (.children (some pid) ccs none none)) id body
        (update_children_map (ensure_children_map_entry (insert_block dd id
          { id := id, ty := "simple_columns", data := [], parent := pk, children := id,
            external_id := some id, external_type := some "text" }) id) (some pk) id) 0 n :=
    rfl
  have hfree2 : FreshFree (update_children_map (ensure_children_map_entry (insert_block dd id
      { id := id, ty := "simple_columns", data := [], parent := pk, children := id,
        external_id := some id, external_type := some "text" }) id) (some pk) id) id :=
    FreshFree.mono (by simp) hfree
  have hl2 : aget (update_children_map (ensure_children_map_entry (insert_block dd id
      { id := id, ty := "simple_columns", data := [], parent := pk, children := id,
        external_id := some id, external_type := some "text" }) id) (some pk)
      id).children_map id = some [] := by
    simp only [update_children_map, ensure_children_map_entry, insert_block]
    rw [aget_aupd_ne _ _ _ _ _ (Ne.symm hne), aget_aupd_self, hcmid]
    rfl
  have hclean2 : ∀ j, (update_children_map (ensure_children_map_entry (insert_block dd id
      { id := id, ty := "simple_columns", data := [], parent := pk, children := id,
        external_id := some id, external_type := some "text" }) id) (some pk) id).gidx ≤ j →
      aget (update_children_map (ensure_children_map_entry (insert_block dd id
        { id := id, ty := "simple_columns", data := [], parent := pk, children := id,
          external_id := some id, external_type := some "text" }) id) (some pk)
        id).children_map (genName j) = none := by
    intro j hj
    simp only [gidx_update_children_map, gidx_ensure, gidx_insert_block] at hj
    simp only [update_children_map, ensure_children_map_entry, insert_block]
    rw [aget_aupd_ne _ _ _ _ _ (Ne.symm (hfreepk j hj)),
      aget_aupd_ne _ _ _ _ _ (Ne.symm (hfree j hj))]
    exact hclean j hj
  rcases columns_cols_loop_spec hwg hwc hwb hwH id body n 0 _ [] hfree2 hl2 hclean2 with
    ⟨colIds, hs1, hs2, hs3, hs4, hs5, hs6⟩
  refine ⟨?_, ?_, ?_, ?_⟩
  · show node_step (walk parse fuel) dd (.table align cs) (some pk) none lt sn = _
    unfold node_step
    simp only [is_inline_node, isClosingSentinel, get_mdast_node_info, imageRedirect,
      get_mdast_node_children, Option.getD, Bool.false_eq_true, if_false, hn]
    rfl
  · rw [hcr, hs6 id hfree2]
    simp only [update_children_map, ensure_children_map_entry, insert_block,
      blocks_update_children_map, blocks_ensure, blocks_insert_block]
    exact aget_ains_self _ _ _
  · rw [hcr, hs5 pk hne (FreshFree.mono (by simp) hfreepk)]
    simp only [update_children_map, ensure_children_map_entry, insert_block]
    rw [aget_aupd_self, aget_aupd_ne _ _ _ _ _ hne, hpk]
    rfl
  · refine ⟨colIds, hs1, ?_, ?_⟩
    · rw [hcr, hs2]
      rfl
    · intro i hi
      rcases hs4 i hi with ⟨cid, hc1, hc2, pids, hc3, hc4, hc5⟩
      rw [Nat.zero_add] at hc4
      exact ⟨cid, hc1, by rw [hcr]; exact hc2, pids, by rw [hcr]; exact hc3, hc4,
        fun q hq => by rw [hcr]; exact hc5 q hq⟩

/-- Claim C6 witness: the spec's test table — 6 empty header cells and one
empty body row — yields one `simple_columns` block with exactly 6
`simple_column` children and, every body cell being empty, no paragraph
under any column. -/
theorem c6_notion_columns_rewrite_witness :
    (∀ i, i < 6 → ([c6row] : List MdNode).countP (row_has_nonempty_cell_at i) = 0) ∧
    (∃ colIds, colIds.length = 6 ∧
      aget (columns_rewrite (walk parseC6 19) ddW "i" (some "P") 6 [c6row]).children_map "i"
        = some colIds ∧
      ∀ i, i < 6 → ∃ cid, colIds.get? i = some cid ∧
        (aget (columns_rewrite (walk parseC6 19) ddW "i" (some "P") 6 [c6row]).blocks
          cid).map Block.ty = some "simple_column" ∧
        ∃ pids,
          aget (columns_rewrite (walk parseC6 19) ddW "i" (some "P") 6
            [c6row]).children_map cid = some pids ∧
          pids.length = ([c6row] : List MdNode).countP (row_has_nonempty_cell_at i) ∧
          ∀ q ∈ pids,
            (aget (columns_rewrite (walk parseC6 19) ddW "i" (some "P") 6 [c6row]).blocks
              q).map Block.ty = some "paragraph") :=
  ⟨by decide,
    (c6_notion_columns_rewrite parseC6 19 ddW "P" 6 [c6row] [c6header, c6row] [] none none
      "i" [] rfl (freshFree_short (by decide)) (freshFree_short (by decide)) (by decide)
      rfl rfl ddW_clean).2.2.2⟩

end MDI
